import Mathlib

/-! # ec2-pricing: pagination, attribute normalizers and the cross-reference linker

A shallow embedding of `src/aws/aws.go`, `src/aws/parser.go`,
`src/aws/types.go` and `src/aws/pricing.go`, followed by theorems about it.

Conventions of the embedding.

* A Go `string` that is parsed by the normalizers is a `List Char` (its runes);
  opaque strings (pagination cursors, SKUs, map keys) are Lean `String`s.
* A Go pointer is an `Option`: `none` is `nil`.
* A Go function that can panic (index out of range, nil dereference) returns
  an `Option`: `none` is the panic.
* A stateful Go closure is a state-passing function.
* `float64` is a type parameter `F` together with the record `Float64Ops F` of
  the operations the code uses (`strconv.ParseFloat` among them); the theorems
  hold for every such record.
* Library functions (`strings`, `unicode`, `strconv`, `regexp`,
  `encoding/json`) are modelled from their documented behaviour; the Unicode
  case table beyond ASCII is a parameter `caseTable`, and the Unicode simple
  folding beyond ASCII, by which `encoding/json` compares keys, a parameter
  `foldTable`.
* `int` is 64 bits wide.
-/

namespace Aws

/-! ## `aws.go`: `paginate` -/

/-- A Go `error` value, identified by its message. -/
structure GoError where
  msg : String
deriving DecidableEq, Repr

/-- Source: `const PaginationLimit = 1000`. -/
def PaginationLimit : Nat := 1000

/-- Source: `var ErrRepeatedToken = errors.New(...)`. -/
def ErrRepeatedToken : GoError :=
  ⟨"pagination function returned repeated token, which would lead to an infinite loop"⟩

/-- The error built by the last line of `paginate`. -/
def ErrTooManyPages : GoError := ⟨"too many pages to iterate"⟩

/-- Source: `type pageFn = func(ctx, nextToken *string) (*string, error)`.
The closure's captured variables (and the context) are the state `σ`; a call
takes the state and the incoming cursor and gives back the new state, the
returned cursor and the returned error (`none` is a `nil` error). -/
abbrev PageFn (σ : Type) := σ → Option String → σ × Option String × Option GoError

/-- The `for` loop of `paginate`. The first argument is the number of
iterations left (`PaginationLimit - i`), then the loop variables `token` and
`seemTokens` and the state of the page function. The result is the final
state and the returned error. -/
def paginateLoop {σ : Type} (pageFn : PageFn σ) :
    Nat → Option String → List String → σ → σ × Option GoError
  | 0, _, _, s => (s, some ErrTooManyPages)
  | n + 1, token, seemTokens, s =>
    match pageFn s token with
    | (s1, _, some err) => (s1, some err)
    | (s1, none, none) => (s1, none)
    | (s1, some t, none) =>
      if t = "" then (s1, none)
      else if t ∈ seemTokens then (s1, some ErrRepeatedToken)
      else paginateLoop pageFn n (some t) (t :: seemTokens) s1

/-- Source: `func paginate(ctx context.Context, pageFn pageFn) error`. -/
def paginate {σ : Type} (pageFn : PageFn σ) (s : σ) : σ × Option GoError :=
  paginateLoop pageFn PaginationLimit none [] s

/-- One recorded invocation of a page function: the cursor it was given and
what it returned. -/
structure Call where
  arg : Option String
  token : Option String
  err : Option GoError
deriving DecidableEq, Repr

/-- Instrumentation: the same page function, which also appends every
invocation to a log kept next to its state. -/
def recorded {σ : Type} (pageFn : PageFn σ) : PageFn (σ × List Call) :=
  fun st arg =>
    let r := pageFn st.1 arg
    ((r.1, st.2 ++ [⟨arg, r.2.1, r.2.2⟩]), r.2.1, r.2.2)

/-- The exchange between the page function and a driver that hands every
returned cursor back: `before pageFn s k` is the state of the page function
and the cursor it is about to be given when invocation number `k + 1`
starts. -/
def before {σ : Type} (pageFn : PageFn σ) (s : σ) : Nat → σ × Option String
  | 0 => (s, none)
  | k + 1 =>
    ((pageFn (before pageFn s k).1 (before pageFn s k).2).1,
     (pageFn (before pageFn s k).1 (before pageFn s k).2).2.1)

/-- What invocation number `k + 1` of the exchange returns. -/
def exchange {σ : Type} (pageFn : PageFn σ) (s : σ) (k : Nat) :
    σ × Option String × Option GoError :=
  pageFn (before pageFn s k).1 (before pageFn s k).2

/-- The cursor returned by invocation number `k + 1` of the exchange. -/
def cursorAt {σ : Type} (pageFn : PageFn σ) (s : σ) (k : Nat) : Option String :=
  (exchange pageFn s k).2.1

/-- The error returned by invocation number `k + 1` of the exchange. -/
def errAt {σ : Type} (pageFn : PageFn σ) (s : σ) (k : Nat) : Option GoError :=
  (exchange pageFn s k).2.2

/-- Invocation number `k + 1` returns no error and a cursor that is present,
non-empty and different from the cursors of all earlier invocations. -/
def Fresh {σ : Type} (pageFn : PageFn σ) (s : σ) (k : Nat) : Prop :=
  errAt pageFn s k = none ∧ cursorAt pageFn s k ≠ none ∧ cursorAt pageFn s k ≠ some "" ∧
    ∀ i < k, cursorAt pageFn s i ≠ cursorAt pageFn s k

instance {σ : Type} (pageFn : PageFn σ) (s : σ) (k : Nat) : Decidable (Fresh pageFn s k) := by
  unfold Fresh; infer_instance

/-- The cursors returned by the first `m` invocations of the exchange, the
latest first (the order in which the loop collects them). -/
def seenAfter {σ : Type} (pageFn : PageFn σ) (s : σ) : Nat → List String
  | 0 => []
  | m + 1 => (cursorAt pageFn s m).getD "" :: seenAfter pageFn s m

/-- The log of the first `m` invocations of the exchange. -/
def logAfter {σ : Type} (pageFn : PageFn σ) (s : σ) : Nat → List Call
  | 0 => []
  | m + 1 => logAfter pageFn s m ++
      [⟨(before pageFn s m).2, cursorAt pageFn s m, errAt pageFn s m⟩]

/-- A synthetic page function that replays a fixed list of cursors, one per
invocation, and then keeps returning an absent cursor; its state is the
number of invocations so far. -/
def scripted (cursors : List (Option String)) : PageFn Nat :=
  fun n _ => (n + 1, (cursors.getD n none), none)

/-- A page function that never stops: it returns the cursor it was given
with one more letter. -/
def endless : PageFn Unit :=
  fun _ arg => ((), some ((arg.getD "") ++ "x"), none)


/-! ## Library functions used by the normalizers -/

/-- Go `unicode.ToLower`: ASCII letters are shifted, other ASCII runes are
kept, and every other rune goes through the Unicode case table. -/
def unicodeToLower (caseTable : Char → Char) (r : Char) : Char :=
  if r.toNat ≤ 0x7F then
    if 'A'.toNat ≤ r.toNat ∧ r.toNat ≤ 'Z'.toNat then Char.ofNat (r.toNat + 32) else r
  else caseTable r

/-- Go `strings.ToLower`. -/
def ToLower (caseTable : Char → Char) (s : List Char) : List Char :=
  s.map (unicodeToLower caseTable)

/-- The scan of `strings.Split` for a non-empty separator: the text still to
read, the number of runes of a separator just found that are still to be
skipped, and the current piece (reversed). -/
def splitScan (sep : List Char) : List Char → Nat → List Char → List (List Char)
  | [], _, cur => [cur.reverse]
  | _ :: cs, k + 1, cur => splitScan sep cs k cur
  | c :: cs, 0, cur =>
    if sep.isPrefixOf (c :: cs) then cur.reverse :: splitScan sep cs (sep.length - 1) []
    else splitScan sep cs 0 (c :: cur)

/-- Go `strings.Split(s, sep)`: the pieces of `s` between the occurrences of
`sep`, found left to right; with an empty `sep`, the runes of `s`. -/
def Split (s sep : List Char) : List (List Char) :=
  if sep = [] then s.map (fun c => [c]) else splitScan sep s 0 []

/-- Go indexing `xs[i]` with a signed index: `none` is the run-time panic
"index out of range". -/
def index {α : Type} (xs : List α) (i : Int) : Option α :=
  if 0 ≤ i ∧ i < xs.length then xs.get? i.toNat else none

/-- Go `strings.Index(s, substr)`, as the position (in runes) of the first
occurrence; `none` is the result `-1`. The code only tests the result against
`-1` and `0`. -/
def Index (s substr : List Char) : Option Nat :=
  match s with
  | [] => if substr = [] then some 0 else none
  | c :: cs =>
    if substr.isPrefixOf (c :: cs) then some 0
    else (Index cs substr).map (· + 1)

/-- Go `unicode.IsSpace`. -/
def IsSpace (r : Char) : Bool :=
  if r.toNat ≤ 0xFF then
    r = '\t' ∨ r = '\n' ∨ r.toNat = 0x0B ∨ r.toNat = 0x0C ∨ r = '\r' ∨ r = ' ' ∨
      r.toNat = 0x85 ∨ r.toNat = 0xA0
  else
    r.toNat = 0x1680 ∨ (0x2000 ≤ r.toNat ∧ r.toNat ≤ 0x200A) ∨ r.toNat = 0x2028 ∨
      r.toNat = 0x2029 ∨ r.toNat = 0x202F ∨ r.toNat = 0x205F ∨ r.toNat = 0x3000

/-- Go `strings.TrimSpace`. -/
def TrimSpace (s : List Char) : List Char :=
  ((s.dropWhile IsSpace).reverse.dropWhile IsSpace).reverse

/-- The value of a string of decimal digits; `none` when the string is empty
or holds another rune. -/
def digitsValue : List Char → Option Nat
  | [] => none
  | cs => if cs.all Char.isDigit then some (cs.foldl (fun n c => 10 * n + (c.toNat - 48)) 0)
          else none

/-- Go `strconv.ParseInt(s, 10, 64)`: an optional sign and decimal digits;
`none` is a returned error (syntax or range). -/
def strconvParseInt (s : List Char) : Option Int :=
  match s with
  | '-' :: body =>
    match digitsValue body with
    | some n => if n ≤ 2 ^ 63 then some (-(n : Int)) else none
    | none => none
  | '+' :: body =>
    match digitsValue body with
    | some n => if n < 2 ^ 63 then some (n : Int) else none
    | none => none
  | body =>
    match digitsValue body with
    | some n => if n < 2 ^ 63 then some (n : Int) else none
    | none => none

/-- Two's complement wrap-around of a 64-bit signed integer operation. -/
def wrapInt64 (x : Int) : Int := (x + 2 ^ 63) % 2 ^ 64 - 2 ^ 63

/-- The operations on `float64` that the normalizers use. -/
structure Float64Ops (F : Type) where
  /-- conversion of an exact (untyped) Go constant to `float64` -/
  ofRat : ℚ → F
  /-- the quotient `a / b` -/
  div : F → F → F
  /-- the product `a * b` -/
  mul : F → F → F
  /-- the comparison `a == b` -/
  eq : F → F → Bool
  /-- the conversion `int64(a)` -/
  toInt64 : F → Int
  /-- the call `strconv.ParseFloat(s, 64)`; `none` is a returned error -/
  parseFloat : List Char → Option F

/-! ## `parser.go` -/

/-- Source: `type Range[T any] struct`. -/
structure Range (T : Type) where
  Unit : List Char
  Min : T
  Max : T
deriving DecidableEq, Repr

/-- Source: `func ParseBool(s string) bool`. -/
def ParseBool (caseTable : Char → Char) (s : List Char) : Bool :=
  ToLower caseTable s = "yes".toList

/-- Source: `func ParseInt(s string, defaultValue int64) int64`. -/
def ParseInt (s : List Char) (defaultValue : Int) : Int :=
  if s = [] then defaultValue
  else
    match strconvParseInt s with
    | none => defaultValue
    | some parsed => parsed

/-- Source: `func ParseFloat(s string, defaultValue float64) float64`. -/
def ParseFloat {F : Type} (ops : Float64Ops F) (s : List Char) (defaultValue : F) : F :=
  if s = [] then defaultValue
  else
    match ops.parseFloat s with
    | none => defaultValue
    | some parsed => parsed

/-- Source: `func ParseClockSpeed(speed string) Range[float64]`; `none` is an
index-out-of-range panic. -/
def ParseClockSpeed {F : Type} (ops : Float64Ops F) (caseTable : Char → Char)
    (speed : List Char) : Option (Range F) :=
  if speed = [] then some ⟨[], ops.ofRat 0, ops.ofRat 0⟩
  else
    let speed := ToLower caseTable speed
    let parts := Split speed " ".toList
    match index parts ((parts.length : Int) - 1) with
    | none => none
    | some unit =>
      match index parts ((parts.length : Int) - 2) with
      | none => none
      | some magnitude =>
        let rng : Range F := ⟨unit, ops.ofRat (-1), ops.ofRat 0⟩
        let value := ParseFloat ops magnitude (ops.ofRat 0)
        let rng := { rng with Max := value }
        match index parts 0, index parts 1 with
        | some p0, some p1 =>
          if p0 = "up".toList ∧ p1 = "to".toList then some { rng with Min := ops.ofRat 0 }
          else some { rng with Min := value }
        | _, _ => none

/-- Source: `func ParseMemoryMib(memory string) int64`; `none` is an
index-out-of-range panic (which cannot happen, `Split` never returns an
empty list). -/
def ParseMemoryMib {F : Type} (ops : Float64Ops F) (caseTable : Char → Char)
    (memory : List Char) : Option Int :=
  if memory = [] then some 0
  else
    let memory := ToLower caseTable memory
    let parts := Split memory " ".toList
    match index parts ((parts.length : Int) - 1), index parts 0 with
    | some unit, some first =>
      let multiplier := if unit = "mib".toList then ops.ofRat 1 else ops.ofRat 1024
      let value := ParseFloat ops first (ops.ofRat 0)
      some (ops.toInt64 (ops.mul value multiplier))
    | _, _ => none

/-! ## `types.go`: the attribute normalizers -/

/-- Source: `type InstanceStorage struct`. -/
structure InstanceStorage where
  Amount : Int
  SizeMB : Int
  Type_ : List Char
deriving DecidableEq, Repr

/-- Source: `type InstanceProcessor struct`. -/
structure InstanceProcessor where
  Make : List Char
  Model : List Char
deriving DecidableEq, Repr

/-- Source: `type NetworkPerformance struct` (the embedded `Range[float64]`
is flattened). -/
structure NetworkPerformance (F : Type) where
  Unit : List Char
  Min : F
  Max : F
  Description : List Char
deriving DecidableEq, Repr

/-- Source: `recognizedMakes := []string{"Intel", "AMD", "AWS"}`. -/
def recognizedMakes : List (List Char) := ["Intel".toList, "AMD".toList, "AWS".toList]

/-- The `for _, recognizedMake := range recognizedMakes` loop of
`InstanceProcessor.UnmarshalJSON`, on the makes still to be tried. -/
def processorLoop (str : List Char) : List (List Char) → InstanceProcessor → InstanceProcessor
  | [], p => p
  | recognizedMake :: rest, p =>
    match Index str recognizedMake with
    | none => processorLoop str rest p
    | some idx =>
      let p := { p with Make := recognizedMake }
      if idx = 0 then { p with Model := TrimSpace (str.drop recognizedMake.length) }
      else { p with Model := str }

/-- Source: `func (p *InstanceProcessor) UnmarshalJSON(data []byte) error`, on
the JSON string `str` already decoded from `data`; the result is the new
value of `*p` (the returned error is always `nil`). -/
def InstanceProcessor.UnmarshalJSON (p : InstanceProcessor) (str : List Char) :
    InstanceProcessor :=
  if str = [] then p
  else processorLoop str recognizedMakes { Make := [], Model := str }

/-- The part of the regular-expression syntax that `storagePattern` uses. -/
inductive Regex where
  /-- the anchor `^` -/
  | bol
  /-- the anchor `$` -/
  | eol
  /-- a literal rune -/
  | lit (c : Char)
  /-- the repetition `C+` of a class `C` of runes, greedy -/
  | plus (cls : Char → Bool)
  /-- the option `r?`, greedy -/
  | opt (r : Regex)
  /-- the capturing group `(r)`, with number `i` -/
  | group (i : Nat) (r : Regex)
  /-- the group `(?:r)`, which does not capture -/
  | nocap (r : Regex)
  /-- the concatenation `r s` -/
  | seq (r s : Regex)

/-- Captured groups: group number and captured text, the latest first. -/
abbrev Captures := List (Nat × List Char)

/-- Matching `C+` the way a backtracking matcher does: as many runes as
possible first, at least one. -/
def plusExec (cls : Char → Bool) :
    Nat → List Char → Captures → (Nat → List Char → Captures → Option Captures) →
      Option Captures
  | _, [], _, _ => none
  | pos, c :: rest, caps, k =>
    if cls c then
      match plusExec cls (pos + 1) rest caps k with
      | some r => some r
      | none => k (pos + 1) rest caps
    else none

/-- A backtracking matcher in continuation-passing style, which finds the
leftmost-first match that Go's `regexp` returns: `pos` runes have been read,
`rest` is still to read, and `k` matches what follows. -/
def Regex.exec : Regex → Nat → List Char → Captures →
    (Nat → List Char → Captures → Option Captures) → Option Captures
  | .bol, pos, rest, caps, k => if pos = 0 then k pos rest caps else none
  | .eol, pos, rest, caps, k => if rest = [] then k pos rest caps else none
  | .lit c, pos, rest, caps, k =>
    match rest with
    | d :: rest1 => if d = c then k (pos + 1) rest1 caps else none
    | [] => none
  | .plus cls, pos, rest, caps, k => plusExec cls pos rest caps k
  | .opt r, pos, rest, caps, k =>
    match r.exec pos rest caps k with
    | some res => some res
    | none => k pos rest caps
  | .group i r, pos, rest, caps, k =>
    r.exec pos rest caps (fun pos1 rest1 caps1 =>
      k pos1 rest1 ((i, rest.take (pos1 - pos)) :: caps1))
  | .nocap r, pos, rest, caps, k => r.exec pos rest caps k
  | .seq r s, pos, rest, caps, k =>
    r.exec pos rest caps (fun pos1 rest1 caps1 => s.exec pos1 rest1 caps1 k)

/-- The class `\d`. -/
def reDigit (c : Char) : Bool := '0'.toNat ≤ c.toNat ∧ c.toNat ≤ '9'.toNat

/-- The class `\s`. -/
def reSpace (c : Char) : Bool := c = '\t' ∨ c = '\n' ∨ c.toNat = 0x0C ∨ c = '\r' ∨ c = ' '

/-- The class `\w`. -/
def reWord (c : Char) : Bool :=
  ('0'.toNat ≤ c.toNat ∧ c.toNat ≤ '9'.toNat) ∨ ('A'.toNat ≤ c.toNat ∧ c.toNat ≤ 'Z'.toNat) ∨
    ('a'.toNat ≤ c.toNat ∧ c.toNat ≤ 'z'.toNat) ∨ c = '_'

/-- The class `.` (any rune but a newline). -/
def reAny (c : Char) : Bool := c ≠ '\n'

/-- Source: `var storagePattern = regexp.MustCompile(...)`, the pattern
`^(?:(\d+) x\s+)?(\d+)\s+(?:(\w+)\s+)?(.+)$`. -/
def storagePattern : Regex :=
  .seq .bol <|
  .seq (.opt (.nocap (.seq (.group 1 (.plus reDigit))
              (.seq (.lit ' ') (.seq (.lit 'x') (.plus reSpace)))))) <|
  .seq (.group 2 (.plus reDigit)) <|
  .seq (.plus reSpace) <|
  .seq (.opt (.nocap (.seq (.group 3 (.plus reWord)) (.plus reSpace)))) <|
  .seq (.group 4 (.plus reAny))
  .eol

/-- Go `(*Regexp).FindStringSubmatch` for a pattern with four groups that
starts with `^`: `none` when there is no match, else the texts of the whole
match and of groups 1 to 4, empty for a group that took no part. -/
def FindStringSubmatch (re : Regex) (str : List Char) : Option (List (List Char)) :=
  match re.exec 0 str [] (fun pos _ caps => some ((0, str.take pos) :: caps)) with
  | none => none
  | some caps => some ((List.range 5).map (fun i => (caps.lookup i).getD []))

/-- Source: `func (s *InstanceStorage) UnmarshalJSON(data []byte) error`, on
the JSON string `str` already decoded from `data`; the result is the new
value of `*s` (the returned error is always `nil`), `none` is an
index-out-of-range panic. -/
def InstanceStorage.UnmarshalJSON (caseTable : Char → Char) (s : InstanceStorage)
    (str : List Char) : Option InstanceStorage :=
  if str = [] then some s
  else if str = "EBS Only".toList then some { Amount := 0, SizeMB := 0, Type_ := str }
  else
    match FindStringSubmatch storagePattern str with
    | none => some { Amount := 0, SizeMB := 0, Type_ := str }
    | some m =>
      match index m 1, index m 2, index m 3, index m 4 with
      | some m1, some m2, some m3, some m4 =>
        let s : InstanceStorage :=
          { Amount := ParseInt m1 1, SizeMB := ParseInt m2 0, Type_ := m4 }
        if ToLower caseTable m3 = "gb".toList then
          some { s with SizeMB := wrapInt64 (s.SizeMB * 1000) }
        else some s
      | _, _, _, _ => none

/-- Source: `func (p *NetworkPerformance) UnmarshalJSON(data []byte) error`,
on the JSON string `str` already decoded from `data`; the result is the new
value of `*p` (the returned error is always `nil`), `none` is an
index-out-of-range panic. -/
def NetworkPerformance.UnmarshalJSON {F : Type} (ops : Float64Ops F)
    (caseTable : Char → Char) (p : NetworkPerformance F) (str : List Char) :
    Option (NetworkPerformance F) :=
  if str = [] then some p
  else
    let str := ToLower caseTable str
    if str = "very low".toList then
      some { Description := str, Unit := "Gbps".toList,
             Min := ops.ofRat 0, Max := ops.ofRat (50.0 / 1000.0) }
    else if str = "low".toList then
      some { Description := str, Unit := "Gbps".toList,
             Min := ops.ofRat (50.0 / 1000.0), Max := ops.ofRat (300.0 / 1000.0) }
    else if str = "moderate".toList then
      some { Description := str, Unit := "Gbps".toList,
             Min := ops.ofRat (300.0 / 1000.0), Max := ops.ofRat (900.0 / 1000.0) }
    else if str = "low to moderate".toList then
      some { Description := str, Unit := "Gbps".toList,
             Min := ops.ofRat (50.0 / 1000.0), Max := ops.ofRat (900.0 / 1000.0) }
    else if str = "high".toList then
      some { Description := str, Unit := "Gbps".toList,
             Min := ops.ofRat (900.0 / 1000.0), Max := ops.ofRat (2200.0 / 1000.0) }
    else if str = "na".toList then some p
    else if str = [] then some p
    else
      let parts := Split str " ".toList
      if parts.length < 2 then
        some { Description := str, Unit := [], Min := ops.ofRat (-1), Max := ops.ofRat (-1) }
      else
        let p : NetworkPerformance F :=
          { Description := str, Unit := "Gbps".toList, Min := ops.ofRat 0, Max := ops.ofRat 0 }
        match index parts ((parts.length : Int) - 2) with
        | none => none
        | some magnitude =>
          let value := ParseFloat ops magnitude (ops.ofRat (-1))
          let p := { p with Max := value, Min := value }
          if ops.eq value (ops.ofRat (-1)) then some p
          else
            match index parts 0, index parts 1, index parts ((parts.length : Int) - 1) with
            | some p0, some p1, some unit =>
              let p := if p0 = "up".toList ∧ p1 = "to".toList then { p with Min := ops.ofRat 0 }
                       else p
              if unit = "megabit".toList ∨ unit = "mbps".toList then
                some { p with Min := ops.div p.Min (ops.ofRat 1000),
                              Max := ops.div p.Max (ops.ofRat 1000) }
              else
                -- `else if unit != "gigabit" && unit != "gbps" { p = nil }` only
                -- clears the local pointer variable; `*p` is not touched
                some p
            | _, _, _ => none

/-! ## `types.go`: the catalog and `processPrices`

A Go map is an association list read with `List.lookup`; a pointer stored in
a map is an `Option`. -/

/-- Source: `type SKU = string`. -/
abbrev SKU := String

/-- Source: `type TermType = string`. -/
abbrev TermType := String

/-- Source: `type Product struct`; `Attrs` is the type of the decoded
attributes. -/
structure Product (Attrs : Type) where
  SKU : SKU
  Family : String
  Attributes : Attrs
deriving DecidableEq, Repr

/-- Source: `type PriceDimension struct`. -/
structure PriceDimension where
  RateCode : String
  Description : String
  BeginRange : String
  EndRange : String
  Unit : String
  PricePerUnit : List (String × String)
deriving DecidableEq, Repr

/-- Source: `type Term struct`; `Time` stands for `time.Time` and `Any` for
`any`. The field `Product` is the pointer `*Product`. -/
structure Term (Attrs Time Any : Type) where
  SKU : SKU
  OfferTermCode : String
  EffectiveDate : Time
  PriceDimensions : List (String × PriceDimension)
  Attributes : List (String × Any)
  Product : Option (Product Attrs)
deriving DecidableEq, Repr

/-- Source: `type Terms = map[SKU]map[string]*Term`. -/
abbrev Terms (Attrs Time Any : Type) := List (SKU × List (String × Option (Term Attrs Time Any)))

/-- Source: `type Prices struct`. -/
structure Prices (Attrs Time Any : Type) where
  FormatVersion : String
  Disclaimer : String
  Version : String
  Publication : Time
  OfferCode : String
  Products : List (SKU × Option (Product Attrs))
  Terms : List (TermType × Terms Attrs Time Any)
  Attributes : Any

/-- The body of the innermost loop of `processPrices`, for one term. -/
def linkTerm {Attrs Time Any : Type} (products : List (SKU × Option (Product Attrs)))
    (term : Term Attrs Time Any) : Term Attrs Time Any :=
  match products.lookup term.SKU with
  | none => term
  | some product => { term with Product := product }

/-- The loop `for _, term := range terms` of `processPrices`; `none` is the
nil-pointer panic of `term.SKU` on a `nil` entry. -/
def linkRates {Attrs Time Any : Type} (products : List (SKU × Option (Product Attrs))) :
    List (String × Option (Term Attrs Time Any)) →
      Option (List (String × Option (Term Attrs Time Any)))
  | [] => some []
  | (_, none) :: _ => none
  | (rateCode, some term) :: rest =>
    match linkRates products rest with
    | none => none
    | some linked => some ((rateCode, some (linkTerm products term)) :: linked)

/-- The loop `for _, terms := range v` of `processPrices`. -/
def linkSkus {Attrs Time Any : Type} (products : List (SKU × Option (Product Attrs))) :
    Terms Attrs Time Any → Option (Terms Attrs Time Any)
  | [] => some []
  | (sku, terms) :: rest =>
    match linkRates products terms, linkSkus products rest with
    | some linked, some more => some ((sku, linked) :: more)
    | _, _ => none

/-- The loop `for _, v := range prices.Terms` of `processPrices`. -/
def linkTermTypes {Attrs Time Any : Type} (products : List (SKU × Option (Product Attrs))) :
    List (TermType × Terms Attrs Time Any) → Option (List (TermType × Terms Attrs Time Any))
  | [] => some []
  | (termType, v) :: rest =>
    match linkSkus products v, linkTermTypes products rest with
    | some linked, some more => some ((termType, linked) :: more)
    | _, _ => none

/-- Source: `func processPrices(prices *Prices)`; the result is the catalog
after the call, `none` is a nil-pointer panic. -/
def processPrices {Attrs Time Any : Type} (prices : Prices Attrs Time Any) :
    Option (Prices Attrs Time Any) :=
  match linkTermTypes prices.Products prices.Terms with
  | none => none
  | some terms => some { prices with Terms := terms }

/-- Every entry of the `Terms` maps of a catalog: term type, SKU key, rate
code and the pointer stored there. -/
def termEntries {Attrs Time Any : Type} (terms : List (TermType × Terms Attrs Time Any)) :
    List (TermType × SKU × String × Option (Term Attrs Time Any)) :=
  terms.flatMap (fun tv => tv.2.flatMap (fun st => st.2.map (fun rt => (tv.1, st.1, rt.1, rt.2))))

/-- What `processPrices` does to one entry of the `Terms` maps. -/
def linkEntry {Attrs Time Any : Type} (products : List (SKU × Option (Product Attrs)))
    (e : TermType × SKU × String × Option (Term Attrs Time Any)) :
    TermType × SKU × String × Option (Term Attrs Time Any) :=
  (e.1, e.2.1, e.2.2.1, e.2.2.2.map (linkTerm products))

/-- A term with the given SKU and no product reference yet. -/
def bareTerm (sku : SKU) (code : String) : Term Unit Unit Unit :=
  { SKU := sku, OfferTermCode := code, EffectiveDate := (), PriceDimensions := [],
    Attributes := [], Product := none }

/-- A catalog with two products and three terms, one of them for a SKU that
is not a product. -/
def fixtureCatalog : Prices Unit Unit Unit :=
  { FormatVersion := "v1.0", Disclaimer := "", Version := "1", Publication := (),
    OfferCode := "AmazonEC2",
    Products := [("A", some ⟨"A", "Compute Instance", ()⟩),
                 ("B", some ⟨"B", "Compute Instance", ()⟩)],
    Terms := [("OnDemand", [("A", [("A.JRTCKXETXF", some (bareTerm "A" "JRTCKXETXF"))]),
                            ("Z", [("Z.JRTCKXETXF", some (bareTerm "Z" "JRTCKXETXF"))])]),
              ("Reserved", [("B", [("B.4NA7Y494T4", some (bareTerm "B" "4NA7Y494T4"))])])],
    Attributes := () }

/-- A catalog decoded from a document whose `products` object holds
`"A": null`, with one term for the SKU "A". -/
def nullProductCatalog : Prices Unit Unit Unit :=
  { FormatVersion := "v1.0", Disclaimer := "", Version := "1", Publication := (),
    OfferCode := "AmazonEC2",
    Products := [("A", none)],
    Terms := [("OnDemand", [("A", [("A.JRTCKXETXF", some (bareTerm "A" "JRTCKXETXF"))])])],
    Attributes := () }

/-! ## Vocabulary of the statements -/

/-- A decimal magnitude as it is written: digits, a point and a sign are the
only runes, and there is at least one. -/
def IsNumeral (X : List Char) : Prop :=
  X ≠ [] ∧ ∀ c ∈ X, c.isDigit = true ∨ c = '.' ∨ c = '-' ∨ c = '+'

instance (X : List Char) : Decidable (IsNumeral X) := by
  unfold IsNumeral; infer_instance

/-! ## A stand-in for `float64` used in examples -/

/-- A decimal numeral read as an exact rational: an optional sign, digits and
at most one point, with at least one digit. -/
def parseDecimal (s : List Char) : Option ℚ :=
  let neg := s.head? = some '-'
  let body := if s.head? = some '-' ∨ s.head? = some '+' then s.drop 1 else s
  let whole := body.takeWhile (· ≠ '.')
  let frac := (body.dropWhile (· ≠ '.')).drop 1
  match digitsValue (whole ++ frac) with
  | none => none
  | some n =>
    if frac.all Char.isDigit then
      some ((if neg then -1 else 1) * (n : ℚ) / (10 : ℚ) ^ frac.length)
    else none

/-- Exact rational arithmetic in the place of `float64`, with a parser for
decimal numerals. -/
def ratOps : Float64Ops ℚ where
  ofRat := id
  div := fun a b => a / b
  mul := fun a b => a * b
  eq := fun a b => decide (a = b)
  toInt64 := fun a => if 0 ≤ a then ⌊a⌋ else ⌈a⌉
  parseFloat := parseDecimal

/-! ## `types.go`: `ProductAttributes`

The attributes object of a product is decoded from a JSON object whose values
are strings: the list of its members, each a key and a decoded string value,
in the order of the text. -/

/-- Source: `type ProductAttributes struct`. -/
structure ProductAttributes (F : Type) where
  Region : List Char
  InstanceFamily : List Char
  InstanceType : List Char
  CurrentGeneration : Bool
  OperatingSystem : List Char
  LicenseModel : List Char
  Tenancy : List Char
  Capacitystatus : List Char
  SizeFactor : F
  Processor : InstanceProcessor
  ProcessorFeatures : List (List Char)
  ClockSpeed : Range F
  VCPUs : Int
  GPUs : Int
  MemoryMiB : Int
  GPUMemoryMiB : List Char
  Storage : InstanceStorage
  NetworkPerformanceGbps : NetworkPerformance F
  DedicatedEBSThroughputGbps : NetworkPerformance F
  EnhancedNetworkingSupported : Bool

/-- The zero value of `InstanceProcessor`. -/
def InstanceProcessor.zero : InstanceProcessor := { Make := [], Model := [] }

/-- The zero value of `InstanceStorage`. -/
def InstanceStorage.zero : InstanceStorage := { Amount := 0, SizeMB := 0, Type_ := [] }

/-- The zero value of `NetworkPerformance`. -/
def NetworkPerformance.zero {F : Type} (ops : Float64Ops F) : NetworkPerformance F :=
  { Unit := [], Min := ops.ofRat 0, Max := ops.ofRat 0, Description := [] }

/-- The zero value of `ProductAttributes`. -/
def ProductAttributes.zero {F : Type} (ops : Float64Ops F) : ProductAttributes F :=
  { Region := []
    InstanceFamily := []
    InstanceType := []
    CurrentGeneration := false
    OperatingSystem := []
    LicenseModel := []
    Tenancy := []
    Capacitystatus := []
    SizeFactor := ops.ofRat 0
    Processor := InstanceProcessor.zero
    ProcessorFeatures := []
    ClockSpeed := { Unit := [], Min := ops.ofRat 0, Max := ops.ofRat 0 }
    VCPUs := 0
    GPUs := 0
    MemoryMiB := 0
    GPUMemoryMiB := []
    Storage := InstanceStorage.zero
    NetworkPerformanceGbps := NetworkPerformance.zero ops
    DedicatedEBSThroughputGbps := NetworkPerformance.zero ops
    EnhancedNetworkingSupported := false }

/-- Source: the local `type Raw struct` of `ProductAttributes.UnmarshalJSON`:
the embedded `ProductAttributes`, nine string fields and the field
`UnmarshalJSON struct{}`. -/
structure Raw (F : Type) where
  ProductAttributes : ProductAttributes F
  CurrentGeneration : List Char
  SizeFactor : List Char
  ProcessorFeatures : List Char
  VCPUs : List Char
  GPUs : List Char
  ClockSpeed : List Char
  MemoryMib : List Char
  NetworkPerformance : List Char
  EnhancedNetworkingSupported : List Char
  UnmarshalJSON : Unit

/-- The zero value of `Raw` (`var raw Raw`). -/
def Raw.zero {F : Type} (ops : Float64Ops F) : Raw F :=
  { ProductAttributes := ProductAttributes.zero ops
    CurrentGeneration := []
    SizeFactor := []
    ProcessorFeatures := []
    VCPUs := []
    GPUs := []
    ClockSpeed := []
    MemoryMib := []
    NetworkPerformance := []
    EnhancedNetworkingSupported := []
    UnmarshalJSON := () }

/-- The fields that `encoding/json` decodes a `Raw` into. A field declared in
`Raw` itself hides the field of the embedded `ProductAttributes` that has the
same JSON name, so of the embedded struct only `Region`, `InstanceFamily`,
`InstanceType`, `OperatingSystem`, `LicenseModel`, `Tenancy`,
`Capacitystatus`, `Processor`, `GPUMemoryMiB`, `Storage` and
`DedicatedEBSThroughputGbps` are left. -/
inductive RawField where
  | Region
  | InstanceFamily
  | InstanceType
  | OperatingSystem
  | LicenseModel
  | Tenancy
  | Capacitystatus
  | Processor
  | GPUMemoryMiB
  | Storage
  | DedicatedEBSThroughputGbps
  | CurrentGeneration
  | SizeFactor
  | ProcessorFeatures
  | VCPUs
  | GPUs
  | ClockSpeed
  | MemoryMib
  | NetworkPerformance
  | EnhancedNetworkingSupported
  | UnmarshalJSON
deriving DecidableEq, Repr

/-- The JSON name of a field: its `json:"..."` tag, and the Go name for the
untagged field `UnmarshalJSON`. -/
def RawField.jsonName : RawField → String
  | .Region => "regionCode"
  | .InstanceFamily => "instanceFamily"
  | .InstanceType => "instanceType"
  | .OperatingSystem => "operatingSystem"
  | .LicenseModel => "licenseModel"
  | .Tenancy => "tenancy"
  | .Capacitystatus => "capacitystatus"
  | .Processor => "physicalProcessor"
  | .GPUMemoryMiB => "gpuMemory"
  | .Storage => "storage"
  | .DedicatedEBSThroughputGbps => "dedicatedEbsThroughput"
  | .CurrentGeneration => "currentGeneration"
  | .SizeFactor => "normalizationSizeFactor"
  | .ProcessorFeatures => "processorFeatures"
  | .VCPUs => "vcpu"
  | .GPUs => "gpu"
  | .ClockSpeed => "clockSpeed"
  | .MemoryMib => "memory"
  | .NetworkPerformance => "networkPerformance"
  | .EnhancedNetworkingSupported => "enhancedNetworkingSupported"
  | .UnmarshalJSON => "UnmarshalJSON"

/-- The field list of `Raw` in the order `encoding/json` keeps it (by index:
the fields of the embedded struct, then the fields of `Raw`). -/
def rawFields : List RawField :=
  [.Region, .InstanceFamily, .InstanceType, .OperatingSystem, .LicenseModel, .Tenancy,
   .Capacitystatus, .Processor, .GPUMemoryMiB, .Storage, .DedicatedEBSThroughputGbps,
   .CurrentGeneration, .SizeFactor, .ProcessorFeatures, .VCPUs, .GPUs, .ClockSpeed,
   .MemoryMib, .NetworkPerformance, .EnhancedNetworkingSupported, .UnmarshalJSON]

/-- The case folding of one rune by which `encoding/json` compares a key with
a field name: an ASCII lower-case letter becomes the upper-case letter, other
ASCII runes are kept, and a rune beyond ASCII goes to the smallest rune of its
Unicode simple-folding orbit, which is the parameter `foldTable`. -/
def foldRune (foldTable : Char → Char) (r : Char) : Char :=
  if r.toNat < 0x80 then
    if 'a'.toNat ≤ r.toNat ∧ r.toNat ≤ 'z'.toNat then Char.ofNat (r.toNat - 32) else r
  else foldTable r

/-- The folded form of a name (`foldName` of `encoding/json`). -/
def foldName (foldTable : Char → Char) (name : String) : List Char :=
  name.toList.map (foldRune foldTable)

/-- The field that `encoding/json` selects for a key of the object: the field
whose JSON name is the key, and when there is none the first field whose name
equals the key under case folding; `none` when no field matches (the member
is skipped). -/
def fieldFor (foldTable : Char → Char) (key : String) : Option RawField :=
  match rawFields.find? (fun f => f.jsonName = key) with
  | some f => some f
  | none => rawFields.find? (fun f => foldName foldTable f.jsonName = foldName foldTable key)

/-- The `*json.UnmarshalTypeError` for a JSON string met at the field
`UnmarshalJSON`, whose type `struct{}` takes no string. -/
def unmarshalTypeError : GoError :=
  ⟨"json: cannot unmarshal string into Go struct field Raw.UnmarshalJSON of type struct {}"⟩

/-- The decoding of one JSON string into a field of `raw`: a string field is
overwritten, a field with its own `UnmarshalJSON` is handed the string with
its present value as the target, and the field `UnmarshalJSON` gives a type
error. The result is the new `raw` and the error to save; `none` is a panic
in a field decoder. -/
def storeField {F : Type} (ops : Float64Ops F) (caseTable : Char → Char) (raw : Raw F)
    (value : List Char) : RawField → Option (Raw F × Option GoError)
  | .Region =>
    some ({ raw with ProductAttributes := { raw.ProductAttributes with Region := value } }, none)
  | .InstanceFamily =>
    some ({ raw with
      ProductAttributes := { raw.ProductAttributes with InstanceFamily := value } }, none)
  | .InstanceType =>
    some ({ raw with
      ProductAttributes := { raw.ProductAttributes with InstanceType := value } }, none)
  | .OperatingSystem =>
    some ({ raw with
      ProductAttributes := { raw.ProductAttributes with OperatingSystem := value } }, none)
  | .LicenseModel =>
    some ({ raw with
      ProductAttributes := { raw.ProductAttributes with LicenseModel := value } }, none)
  | .Tenancy =>
    some ({ raw with ProductAttributes := { raw.ProductAttributes with Tenancy := value } }, none)
  | .Capacitystatus =>
    some ({ raw with
      ProductAttributes := { raw.ProductAttributes with Capacitystatus := value } }, none)
  | .Processor =>
    some ({ raw with
      ProductAttributes := { raw.ProductAttributes with
        Processor := InstanceProcessor.UnmarshalJSON raw.ProductAttributes.Processor value } },
      none)
  | .GPUMemoryMiB =>
    some ({ raw with
      ProductAttributes := { raw.ProductAttributes with GPUMemoryMiB := value } }, none)
  | .Storage =>
    match InstanceStorage.UnmarshalJSON caseTable raw.ProductAttributes.Storage value with
    | none => none
    | some storage =>
      some ({ raw with
        ProductAttributes := { raw.ProductAttributes with Storage := storage } }, none)
  | .DedicatedEBSThroughputGbps =>
    match NetworkPerformance.UnmarshalJSON ops caseTable
        raw.ProductAttributes.DedicatedEBSThroughputGbps value with
    | none => none
    | some dedicated =>
      some ({ raw with
        ProductAttributes := { raw.ProductAttributes with
          DedicatedEBSThroughputGbps := dedicated } }, none)
  | .CurrentGeneration => some ({ raw with CurrentGeneration := value }, none)
  | .SizeFactor => some ({ raw with SizeFactor := value }, none)
  | .ProcessorFeatures => some ({ raw with ProcessorFeatures := value }, none)
  | .VCPUs => some ({ raw with VCPUs := value }, none)
  | .GPUs => some ({ raw with GPUs := value }, none)
  | .ClockSpeed => some ({ raw with ClockSpeed := value }, none)
  | .MemoryMib => some ({ raw with MemoryMib := value }, none)
  | .NetworkPerformance => some ({ raw with NetworkPerformance := value }, none)
  | .EnhancedNetworkingSupported => some ({ raw with EnhancedNetworkingSupported := value }, none)
  | .UnmarshalJSON => some (raw, some unmarshalTypeError)

/-- The loop of `encoding/json` over the members of the object, in the order
of the text: a member whose key selects no field is skipped, the others are
stored one after the other (so a later member with the same field is decoded
after an earlier one), and the first error is saved while decoding goes on. -/
def decodeMembers {F : Type} (ops : Float64Ops F) (caseTable foldTable : Char → Char) :
    List (String × List Char) → Raw F → Option GoError → Option (Raw F × Option GoError)
  | [], raw, saved => some (raw, saved)
  | (key, value) :: rest, raw, saved =>
    match fieldFor foldTable key with
    | none => decodeMembers ops caseTable foldTable rest raw saved
    | some field =>
      match storeField ops caseTable raw value field with
      | none => none
      | some (raw1, err) =>
        match saved with
        | some first => decodeMembers ops caseTable foldTable rest raw1 (some first)
        | none => decodeMembers ops caseTable foldTable rest raw1 err

/-- The call `json.Unmarshal(data, &raw)` on a JSON object with string
values: the decoded `raw` and the returned error; `none` is a panic in a
field decoder. -/
def decodeRaw {F : Type} (ops : Float64Ops F) (caseTable foldTable : Char → Char)
    (attrs : List (String × List Char)) : Option (Raw F × Option GoError) :=
  decodeMembers ops caseTable foldTable attrs (Raw.zero ops) none

/-- Source: `func (a *ProductAttributes) UnmarshalJSON(data []byte) error`, on
a JSON object with string values. The result is the returned error, or the
new value of `*a` when the returned error is `nil`; `none` is a panic. -/
def ProductAttributes.UnmarshalJSON {F : Type} (ops : Float64Ops F)
    (caseTable foldTable : Char → Char) (attrs : List (String × List Char)) :
    Option (Except GoError (ProductAttributes F)) :=
  match decodeRaw ops caseTable foldTable attrs with
  | none => none
  | some (_, some err) => some (.error err)
  | some (raw, none) =>
    let a := raw.ProductAttributes
    let a := { a with CurrentGeneration := ParseBool caseTable raw.CurrentGeneration }
    let a := { a with SizeFactor := ParseFloat ops raw.SizeFactor (ops.ofRat (-1)) }
    let a := { a with ProcessorFeatures := Split raw.ProcessorFeatures "; ".toList }
    let a := { a with VCPUs := ParseInt raw.VCPUs (-1) }
    let a := { a with GPUs := ParseInt raw.GPUs 0 }
    match ParseClockSpeed ops caseTable raw.ClockSpeed with
    | none => none
    | some clockSpeed =>
      let a := { a with ClockSpeed := clockSpeed }
      match ParseMemoryMib ops caseTable raw.MemoryMib with
      | none => none
      | some memory =>
        let a := { a with MemoryMiB := memory }
        some (.ok { a with
          EnhancedNetworkingSupported := ParseBool caseTable raw.EnhancedNetworkingSupported })

/-- The text that decoding leaves in a string field of `Raw`: the value of the
last member of the object whose key selects the field, starting from `cur`. -/
def lastValue (foldTable : Char → Char) (field : RawField) :
    List (String × List Char) → List Char → List Char
  | [], cur => cur
  | (key, value) :: rest, cur =>
    lastValue foldTable field rest (if fieldFor foldTable key = some field then value else cur)

/-- The text of a string field of `Raw` after decoding the object: the value
of the last member whose key selects the field, the empty string when there
is none. -/
def stringField (foldTable : Char → Char) (attrs : List (String × List Char))
    (field : RawField) : List Char :=
  lastValue foldTable field attrs []

/-! ## `pricing.go`: `FetchPrices` -/

/-- The part of `*http.Response` that `FetchPrices` reads. -/
structure Response (Body : Type) where
  StatusCode : Int
  Body : Body

/-- Go `fmt.Errorf("got status code %d", code)`. -/
def statusError (code : Int) : GoError := ⟨"got status code " ++ toString code⟩

/-- Source: `func FetchPrices(ctx context.Context, url string) (*Prices, error)`.
The request `http.DefaultClient.Do(req)` and the decoder `LoadPricesData` are
parameters; closing the body is not modelled. -/
def FetchPrices {Body P : Type} (httpDo : String → Except GoError (Response Body))
    (LoadPricesData : Body → Except GoError P) (url : String) : Except GoError P :=
  match httpDo url with
  | .error err => .error err
  | .ok resp =>
    if resp.StatusCode.tdiv 100 = 4 ∨ resp.StatusCode.tdiv 100 = 5 then
      .error (statusError resp.StatusCode)
    else LoadPricesData resp.Body

/-! ## More vocabulary of the statements -/

/-- The decimal text of an integer, as `strconv.Itoa` and `%d` write it. -/
def decimalText (n : Int) : List Char :=
  if n < 0 then '-' :: Nat.toDigits 10 n.natAbs else Nat.toDigits 10 n.toNat

/-- The number that a non-empty string of decimal digits denotes: the number
whose base-10 digits, least significant first, are the digits of the string
read from the right. -/
def digitsDenote (cs : List Char) : Option Nat :=
  if cs ≠ [] ∧ cs.all Char.isDigit = true then
    some (Nat.ofDigits 10 (cs.reverse.map (fun c => c.toNat - '0'.toNat)))
  else none

/-- An optionally signed string of decimal digits and the integer it
denotes. -/
def signedDenote : List Char → Option Int
  | '-' :: body =>
    match digitsDenote body with
    | some n => some (-(n : Int))
    | none => none
  | '+' :: body =>
    match digitsDenote body with
    | some n => some (n : Int)
    | none => none
  | body =>
    match digitsDenote body with
    | some n => some (n : Int)
    | none => none

/-- The integers of a signed 64-bit word. -/
def FitsInt64 (n : Int) : Prop := -(2 : Int) ^ 63 ≤ n ∧ n < (2 : Int) ^ 63

instance (n : Int) : Decidable (FitsInt64 n) := by
  unfold FitsInt64; infer_instance

/-- The eight ways of writing "yes" in upper and lower case. -/
def yesCasings : List (List Char) :=
  ["yes".toList, "yeS".toList, "yEs".toList, "yES".toList,
   "Yes".toList, "YeS".toList, "YEs".toList, "YES".toList]

/-- A log of invocations that starts with the cursor `token` and hands every
returned cursor to the next invocation; an invocation that returns an error
is the last one, and its error is `final`. -/
def Threaded (token : Option String) (final : Option GoError) : List Call → Prop
  | [] => True
  | c :: rest =>
    c.arg = token ∧
      match c.err with
      | some e => rest = [] ∧ final = some e
      | none => Threaded c.token final rest

/-- The facts about `float64` behind integer arithmetic: a natural number
below 2^53 converts to a `float64` without rounding, the product of two such
numbers is exact when it is below 2^53 as well, and converting such a value
to `int64` gives the number back. -/
structure ExactIntegers {F : Type} (ops : Float64Ops F) : Prop where
  mul_exact : ∀ a b : Nat, a < 2 ^ 53 → b < 2 ^ 53 → a * b < 2 ^ 53 →
    ops.mul (ops.ofRat (a : ℚ)) (ops.ofRat (b : ℚ)) = ops.ofRat ((a * b : Nat) : ℚ)
  toInt64_exact : ∀ a : Nat, a < 2 ^ 53 → ops.toInt64 (ops.ofRat (a : ℚ)) = (a : Int)

/-- A page function that returns the cursor "a" once and then fails. -/
def failsOnSecond : PageFn Nat :=
  fun n _ => if n = 0 then (n + 1, some "a", none) else (n + 1, none, some ⟨"request failed"⟩)

/-- The invariant of `Range` in the data model, for an order `le` on
`float64`: `min` is the sentinel -1, or `min ≤ max`. -/
def RangeInvariant {F : Type} (ops : Float64Ops F) (le : F → F → Prop) (min max : F) : Prop :=
  ops.eq min (ops.ofRat (-1)) = true ∨ le min max

/-- The lower-cased text starts with the two tokens "up" and "to". -/
def IsUpTo (caseTable : Char → Char) (s : List Char) : Prop :=
  index (Split (ToLower caseTable s) " ".toList) 0 = some "up".toList ∧
    index (Split (ToLower caseTable s) " ".toList) 1 = some "to".toList

/-- The four ways of writing "GB" in upper and lower case. -/
def gbCasings : List (List Char) := ["GB".toList, "Gb".toList, "gB".toList, "gb".toList]

/-! ## `pricing.go`: `PriceListing`, `PriceListURL`, `LoadPrices` -/

/-- The part of the SDK's `types.PriceList` that `LoadPrices` reads: the
locator `PriceListArn *string`. -/
structure PriceList where
  PriceListArn : Option String
deriving DecidableEq, Repr

/-- The part of the SDK's `pricing.ListPriceListsOutput` that `PriceListing`
reads. -/
structure ListPriceListsOutput where
  PriceLists : List PriceList
  NextToken : Option String
deriving DecidableEq, Repr

/-- The part of the SDK's `pricing.GetPriceListFileUrlOutput` that
`PriceListURL` reads. -/
structure GetPriceListFileUrlOutput where
  Url : Option String
deriving DecidableEq, Repr

/-- The closure that `PriceListing` hands to `paginate`. Its captured variable
`results` is the state; the remote call `aws.Pricing.ListPriceLists` is a
parameter, a function of the `NextToken` of its input (the other fields of
the input are the same in every call). -/
def priceListingPage (ListPriceLists : Option String → Except GoError ListPriceListsOutput) :
    PageFn (List PriceList) :=
  fun results nextToken =>
    match ListPriceLists nextToken with
    | .error err => (results, none, some err)
    | .ok out => (results ++ out.PriceLists, out.NextToken, none)

/-- Source: `func (aws AWS) PriceListing(...) ([]types.PriceList, error)`.
It returns `results, err`: the collected price lists together with the error
of `paginate`. -/
def PriceListing (ListPriceLists : Option String → Except GoError ListPriceListsOutput) :
    List PriceList × Option GoError :=
  paginate (priceListingPage ListPriceLists) []

/-- Source: `func (aws AWS) PriceListURL(ctx, priceListARN string) (string, error)`.
The remote call `aws.Pricing.GetPriceListFileUrl` is a parameter. -/
def PriceListURL (GetPriceListFileUrl : String → Except GoError GetPriceListFileUrlOutput)
    (priceListARN : String) : Except GoError String :=
  match GetPriceListFileUrl priceListARN with
  | .error err => .error err
  | .ok out =>
    match out.Url with
    | some url => .ok url
    | none => .ok ""

/-- Source: `func (aws AWS) LoadPrices(...) (*Prices, error)`. The outer
`Option` is the panic: `none` when `listing[0]` is out of range or `*arn`
dereferences `nil`. -/
def LoadPrices {Body P : Type}
    (ListPriceLists : Option String → Except GoError ListPriceListsOutput)
    (GetPriceListFileUrl : String → Except GoError GetPriceListFileUrlOutput)
    (httpDo : String → Except GoError (Response Body))
    (LoadPricesData : Body → Except GoError P) : Option (Except GoError P) :=
  match PriceListing ListPriceLists with
  | (_, some err) => some (.error err)
  | (listing, none) =>
    match index listing 0 with
    | none => none
    | some first =>
      match first.PriceListArn with
      | none => none
      | some arn =>
        match PriceListURL GetPriceListFileUrl arn with
        | .error err => some (.error err)
        | .ok url => some (FetchPrices httpDo LoadPricesData url)

/-- A pricing service that has no price list for the request: one page, no
entries, no next token. -/
def noPriceLists : Option String → Except GoError ListPriceListsOutput :=
  fun _ => .ok { PriceLists := [], NextToken := none }

/-- A pricing service whose only price list carries no locator. -/
def unlocatedPriceList : Option String → Except GoError ListPriceListsOutput :=
  fun _ => .ok { PriceLists := [{ PriceListArn := none }], NextToken := none }

/-- A pricing service with one price list, located at "arn:1". -/
def onePriceList : Option String → Except GoError ListPriceListsOutput :=
  fun _ => .ok { PriceLists := [{ PriceListArn := some "arn:1" }], NextToken := none }

/-- A file-URL service that answers every locator with the URL "https://prices". -/
def fixedUrl : String → Except GoError GetPriceListFileUrlOutput :=
  fun _ => .ok { Url := some "https://prices" }

/-- An HTTP client that answers every request with status 200 and the body 7. -/
def okClient : String → Except GoError (Response Nat) :=
  fun _ => .ok { StatusCode := 200, Body := 7 }

/-- A decoder that returns the body it is given. -/
def echoDecoder : Nat → Except GoError Nat :=
  fun body => .ok body

/-! ## A stand-in for `float64` with the range error of `strconv.ParseFloat` -/

/-- The magnitude from which `strconv.ParseFloat(s, 64)` returns a range
error: the largest `float64`, 2^1024 - 2^971, plus half a unit in its last
place. A well-formed decimal at or beyond it rounds to an infinity, which
`ParseFloat` returns together with `ErrRange`. -/
def float64Limit : ℚ := 2 ^ 1024 - 2 ^ 970

/-- A decimal numeral read as an exact rational when it is inside the range
of `float64`; `none` is the range error (or a syntax error). -/
def parseDecimalRanged (s : List Char) : Option ℚ :=
  match parseDecimal s with
  | none => none
  | some q => if |q| < float64Limit then some q else none

/-- Exact rational arithmetic in the place of `float64`, where the parser
rejects a numeral outside the range of `float64` as `strconv.ParseFloat`
does. -/
def rangedOps : Float64Ops ℚ where
  ofRat := id
  div := fun a b => a / b
  mul := fun a b => a * b
  eq := fun a b => decide (a = b)
  toInt64 := fun a => if 0 ≤ a then ⌊a⌋ else ⌈a⌉
  parseFloat := parseDecimalRanged

/-- A decimal magnitude beyond the range of `float64`: 400 digits 9, the
number 10^400 - 1. -/
def hugeMagnitude : List Char := List.replicate 400 '9'
/-! ## Theorems: `paginate` -/

theorem logAfter_length {σ : Type} (pageFn : PageFn σ) (s : σ) (m : Nat) :
    (logAfter pageFn s m).length = m := by
  induction m with
  | zero => rfl
  | succ m ih => simp [logAfter, ih]

theorem mem_seenAfter {σ : Type} (pageFn : PageFn σ) (s : σ) (m : Nat) (t : String)
    (h : ∀ k < m, cursorAt pageFn s k ≠ none) :
    t ∈ seenAfter pageFn s m ↔ ∃ i < m, cursorAt pageFn s i = some t := by
  induction m with
  | zero => simp [seenAfter]
  | succ m ih =>
    have ih2 := ih (fun k hk => h k (Nat.lt_succ_of_lt hk))
    have hm := h m (Nat.lt_succ_self m)
    obtain ⟨c, hc⟩ := Option.ne_none_iff_exists'.mp hm
    simp only [seenAfter, List.mem_cons, ih2, hc, Option.getD_some]
    constructor
    · rintro (rfl | ⟨i, hi, hit⟩)
      · exact ⟨m, Nat.lt_succ_self m, hc⟩
      · exact ⟨i, Nat.lt_succ_of_lt hi, hit⟩
    · rintro ⟨i, hi, hit⟩
      rcases Nat.lt_succ_iff_lt_or_eq.mp hi with h1 | h1
      · exact Or.inr ⟨i, h1, hit⟩
      · subst h1; rw [hc] at hit; exact Or.inl (Option.some.inj hit).symm

/-- The instrumentation does not change what `paginateLoop` computes. -/
theorem paginateLoop_recorded {σ : Type} (pageFn : PageFn σ) (n : Nat) :
    ∀ (token : Option String) (seen : List String) (s : σ) (log : List Call),
      (paginateLoop (recorded pageFn) n token seen (s, log)).2 =
          (paginateLoop pageFn n token seen s).2 ∧
      (paginateLoop (recorded pageFn) n token seen (s, log)).1.1 =
          (paginateLoop pageFn n token seen s).1 := by
  induction n with
  | zero => intro token seen s log; simp [paginateLoop]
  | succ n ih =>
    intro token seen s log
    rcases hp : pageFn s token with ⟨s1, tok, err⟩
    cases err with
    | some e => simp [paginateLoop, recorded, hp]
    | none =>
      cases tok with
      | none => simp [paginateLoop, recorded, hp]
      | some t =>
        by_cases h1 : t = ""
        · simp [paginateLoop, recorded, hp, h1]
        · by_cases h2 : t ∈ seen
          · simp [paginateLoop, recorded, hp, h1, h2]
          · simp only [paginateLoop, recorded, hp, h1, h2, if_false]
            exact ih _ _ _ _

/-- One iteration of the loop on a fresh cursor. -/
theorem paginateLoop_step {σ : Type} (pageFn : PageFn σ) (s : σ) (n m : Nat)
    (seen : List String) (log : List Call)
    (herr : errAt pageFn s m = none) (hne : cursorAt pageFn s m ≠ none)
    (hnz : cursorAt pageFn s m ≠ some "")
    (hnew : (cursorAt pageFn s m).getD "" ∉ seen) :
    paginateLoop (recorded pageFn) (n + 1) (before pageFn s m).2 seen
        ((before pageFn s m).1, log) =
      paginateLoop (recorded pageFn) n (before pageFn s (m + 1)).2
        ((cursorAt pageFn s m).getD "" :: seen)
        ((before pageFn s (m + 1)).1,
          log ++ [⟨(before pageFn s m).2, cursorAt pageFn s m, errAt pageFn s m⟩]) := by
  obtain ⟨c, hc⟩ := Option.ne_none_iff_exists'.mp hne
  have hc0 : c ≠ "" := fun h => hnz (by rw [hc, h])
  rw [hc] at hnew
  simp only [Option.getD_some] at hnew
  unfold cursorAt exchange at hc
  unfold errAt exchange at herr
  rcases hp : pageFn (before pageFn s m).1 (before pageFn s m).2 with ⟨s1, tok, err⟩
  rw [hp] at hc herr
  simp only at hc herr
  subst hc herr
  simp [paginateLoop, recorded, hp, hc0, hnew, before, cursorAt, errAt, exchange]


/-- Running the loop through `m` fresh invocations. -/
theorem paginateLoop_advance {σ : Type} (pageFn : PageFn σ) (s : σ) (n : Nat) (log : List Call) :
    ∀ m, (∀ k < m, Fresh pageFn s k) →
      paginateLoop (recorded pageFn) (n + m) none [] (s, log) =
        paginateLoop (recorded pageFn) n (before pageFn s m).2 (seenAfter pageFn s m)
          ((before pageFn s m).1, log ++ logAfter pageFn s m) := by
  intro m
  induction m generalizing n with
  | zero => intro _; simp [before, seenAfter, logAfter]
  | succ m ih =>
    intro h
    have hm := h m (Nat.lt_succ_self m)
    have hlt : ∀ k < m, Fresh pageFn s k := fun k hk => h k (Nat.lt_succ_of_lt hk)
    have e : n + (m + 1) = (n + 1) + m := by omega
    rw [e, ih (n + 1) hlt]
    have hnew : (cursorAt pageFn s m).getD "" ∉ seenAfter pageFn s m := by
      obtain ⟨c, hc⟩ := Option.ne_none_iff_exists'.mp hm.2.1
      rw [hc, Option.getD_some, mem_seenAfter pageFn s m c (fun k hk => (hlt k hk).2.1)]
      rintro ⟨i, hi, hic⟩
      exact hm.2.2.2 i hi (by rw [hic, hc])
    rw [paginateLoop_step pageFn s n m _ _ hm.1 hm.2.1 hm.2.2.1 hnew]
    simp [seenAfter, logAfter, List.append_assoc]

/-- The last invocation: the page function returns what the exchange says. -/
theorem paginateLoop_last {σ : Type} (pageFn : PageFn σ) (s : σ) (n m : Nat)
    (seen : List String) (log : List Call) :
    paginateLoop (recorded pageFn) (n + 1) (before pageFn s m).2 seen
        ((before pageFn s m).1, log) =
      match exchange pageFn s m with
      | (s1, tok, some err) => ((s1, log ++ [⟨(before pageFn s m).2, tok, some err⟩]), some err)
      | (s1, none, none) => ((s1, log ++ [⟨(before pageFn s m).2, none, none⟩]), none)
      | (s1, some t, none) =>
        if t = "" then ((s1, log ++ [⟨(before pageFn s m).2, some t, none⟩]), none)
        else if t ∈ seen then
          ((s1, log ++ [⟨(before pageFn s m).2, some t, none⟩]), some ErrRepeatedToken)
        else paginateLoop (recorded pageFn) n (some t) (t :: seen)
          (s1, log ++ [⟨(before pageFn s m).2, some t, none⟩]) := by
  unfold exchange
  rcases hp : pageFn (before pageFn s m).1 (before pageFn s m).2 with ⟨s1, tok, err⟩
  cases err with
  | some e => simp [paginateLoop, recorded, hp]
  | none =>
    cases tok with
    | none => simp [paginateLoop, recorded, hp]
    | some t => simp [paginateLoop, recorded, hp]

/-- The loop makes at most as many invocations as it has iterations left. -/
theorem paginateLoop_calls_le {σ : Type} (pageFn : PageFn σ) (n : Nat) :
    ∀ (token : Option String) (seen : List String) (s : σ) (log : List Call),
      (paginateLoop (recorded pageFn) n token seen (s, log)).1.2.length ≤ log.length + n := by
  induction n with
  | zero => intro token seen s log; simp [paginateLoop]
  | succ n ih =>
    intro token seen s log
    rcases hp : pageFn s token with ⟨s1, tok, err⟩
    cases err with
    | some e => simp [paginateLoop, recorded, hp]
    | none =>
      cases tok with
      | none => simp [paginateLoop, recorded, hp]
      | some t =>
        by_cases h1 : t = ""
        · simp [paginateLoop, recorded, hp, h1]
        · by_cases h2 : t ∈ seen
          · simp [paginateLoop, recorded, hp, h1, h2]
          · simp only [paginateLoop, recorded, hp, h1, h2, if_false]
            refine le_trans (ih _ _ _ _) ?_
            simp; omega

/-- The cursors of the never-ending page function grow by one letter per call. -/
theorem endless_cursor (k : Nat) :
    ∃ c : String, cursorAt endless () k = some c ∧ c.length = k + 1 := by
  induction k with
  | zero => exact ⟨"x", rfl, rfl⟩
  | succ k ih =>
    obtain ⟨c, hc, hlen⟩ := ih
    refine ⟨c ++ "x", ?_, ?_⟩
    · have hb : (before endless () (k + 1)).2 = some c := by
        simp only [before]
        exact hc
      simp only [cursorAt, exchange, hb]
      rfl
    · rw [String.length_append, hlen]; rfl

/-- Every invocation of the never-ending page function is fresh. -/
theorem endless_fresh (k : Nat) : Fresh endless () k := by
  obtain ⟨c, hc, hlen⟩ := endless_cursor k
  refine ⟨rfl, ?_, ?_, ?_⟩
  · rw [hc]; exact Option.some_ne_none c
  · rw [hc]; intro h
    have h2 : c = "" := Option.some.inj h
    rw [h2] at hlen
    have h0 : ("" : String).length = 0 := rfl
    omega
  · intro i hi h
    obtain ⟨d, hd, hdl⟩ := endless_cursor i
    rw [hc, hd] at h
    have h2 : d = c := Option.some.inj h
    rw [h2] at hdl
    omega

/-- C1: when invocation number `j` (at most `PaginationLimit`) returns, without
error, a non-empty cursor that some earlier invocation `i + 1 < j` already
returned, and the invocations before `j` were error-free with non-empty,
pairwise distinct cursors, `paginate` returns `ErrRepeatedToken` and the page
function has been invoked exactly `j` times. -/
theorem paginate_repeated_cursor {σ : Type} (pageFn : PageFn σ) (s : σ) (j i : Nat) (t : String)
    (hj : j ≤ PaginationLimit) (hi : i < j - 1)
    (hfresh : ∀ k < j - 1, Fresh pageFn s k)
    (herr : errAt pageFn s (j - 1) = none)
    (hcur : cursorAt pageFn s (j - 1) = some t) (ht : t ≠ "")
    (hrep : cursorAt pageFn s i = some t) :
    (paginate pageFn s).2 = some ErrRepeatedToken ∧
      (paginate (recorded pageFn) (s, [])).2 = some ErrRepeatedToken ∧
      (paginate (recorded pageFn) (s, [])).1.2.length = j := by
  have key : paginate (recorded pageFn) (s, []) =
      (((exchange pageFn s (j - 1)).1,
        logAfter pageFn s (j - 1) ++ [⟨(before pageFn s (j - 1)).2, some t, none⟩]),
        some ErrRepeatedToken) := by
    unfold paginate
    have e : PaginationLimit = (PaginationLimit - j + 1) + (j - 1) := by omega
    rw [e, paginateLoop_advance pageFn s _ [] (j - 1) hfresh, paginateLoop_last]
    have hmem : t ∈ seenAfter pageFn s (j - 1) :=
      (mem_seenAfter pageFn s (j - 1) t (fun k hk => (hfresh k hk).2.1)).mpr ⟨i, hi, hrep⟩
    unfold cursorAt at hcur
    unfold errAt at herr
    rcases hx : exchange pageFn s (j - 1) with ⟨s1, tok, err⟩
    rw [hx] at hcur herr
    simp only at hcur herr
    subst hcur herr
    simp [ht, hmem]
  refine ⟨?_, ?_, ?_⟩
  · have h := (paginateLoop_recorded pageFn PaginationLimit none [] s []).1
    unfold paginate at key ⊢
    rw [← h, key]
  · rw [key]
  · rw [key]
    simp [logAfter_length]
    omega

/-- C1, on the sequence of cursors "a", "b", "a": the third invocation repeats
the first cursor, and `paginate` fails with `ErrRepeatedToken` after three
invocations. -/
theorem paginate_repeated_cursor_witness :
    (paginate (scripted [some "a", some "b", some "a"]) 0).2 = some ErrRepeatedToken ∧
      (paginate (recorded (scripted [some "a", some "b", some "a"])) (0, [])).2
        = some ErrRepeatedToken ∧
      (paginate (recorded (scripted [some "a", some "b", some "a"])) (0, [])).1.2.length = 3 :=
  paginate_repeated_cursor (scripted [some "a", some "b", some "a"]) 0 3 0 "a"
    (by decide) (by decide) (by decide) (by decide) (by decide) (by decide) (by decide)

/-- C2: a page function whose invocations are all error-free with non-empty,
never repeated cursors is invoked exactly `PaginationLimit = 1000` times, after
which `paginate` returns the page-bound error, which is not `ErrRepeatedToken`;
and no page function at all is invoked more than 1000 times. -/
theorem paginate_page_bound {σ : Type} (pageFn : PageFn σ) (s : σ)
    (hfresh : ∀ k < PaginationLimit, Fresh pageFn s k) :
    (paginate pageFn s).2 = some ErrTooManyPages ∧
      (paginate (recorded pageFn) (s, [])).2 = some ErrTooManyPages ∧
      (paginate (recorded pageFn) (s, [])).1.2.length = 1000 ∧
      ErrTooManyPages.msg = "too many pages to iterate" ∧
      ErrTooManyPages ≠ ErrRepeatedToken ∧
      ∀ (τ : Type) (g : PageFn τ) (u : τ),
        (paginate (recorded g) (u, [])).1.2.length ≤ 1000 := by
  have key : paginate (recorded pageFn) (s, []) =
      (((before pageFn s PaginationLimit).1, logAfter pageFn s PaginationLimit),
        some ErrTooManyPages) := by
    unfold paginate
    have h := paginateLoop_advance pageFn s 0 [] PaginationLimit hfresh
    rw [Nat.zero_add] at h
    rw [h]
    simp [paginateLoop]
  refine ⟨?_, ?_, ?_, rfl, by decide, ?_⟩
  · have h := (paginateLoop_recorded pageFn PaginationLimit none [] s []).1
    unfold paginate at key ⊢
    rw [← h, key]
  · rw [key]
  · rw [key]
    simp [logAfter_length, PaginationLimit]
  · intro τ g u
    have h := paginateLoop_calls_le g PaginationLimit none [] u []
    simpa [paginate, PaginationLimit] using h

/-- C2, on the never-ending page function: 1000 invocations, then the
page-bound error. -/
theorem paginate_page_bound_witness :
    (paginate endless ()).2 = some ErrTooManyPages ∧
      (paginate (recorded endless) ((), [])).2 = some ErrTooManyPages ∧
      (paginate (recorded endless) ((), [])).1.2.length = 1000 ∧
      ErrTooManyPages.msg = "too many pages to iterate" ∧
      ErrTooManyPages ≠ ErrRepeatedToken ∧
      ∀ (τ : Type) (g : PageFn τ) (u : τ),
        (paginate (recorded g) (u, [])).1.2.length ≤ 1000 :=
  paginate_page_bound endless () (fun k _ => endless_fresh k)

/-- C3: when invocation number `k` (between 1 and `PaginationLimit`) returns,
without error, an absent or an empty cursor, and the invocations before it
were error-free with non-empty, pairwise distinct cursors, `paginate` returns
no error and the page function has been invoked exactly `k` times. -/
theorem paginate_completes {σ : Type} (pageFn : PageFn σ) (s : σ) (k : Nat)
    (hk1 : 1 ≤ k) (hk : k ≤ PaginationLimit)
    (hfresh : ∀ m < k - 1, Fresh pageFn s m)
    (herr : errAt pageFn s (k - 1) = none)
    (hcur : cursorAt pageFn s (k - 1) = none ∨ cursorAt pageFn s (k - 1) = some "") :
    (paginate pageFn s).2 = none ∧
      (paginate (recorded pageFn) (s, [])).2 = none ∧
      (paginate (recorded pageFn) (s, [])).1.2.length = k := by
  have key : (paginate (recorded pageFn) (s, [])).2 = none ∧
      (paginate (recorded pageFn) (s, [])).1.2.length = k := by
    unfold paginate
    have e : PaginationLimit = (PaginationLimit - k + 1) + (k - 1) := by omega
    rw [e, paginateLoop_advance pageFn s _ [] (k - 1) hfresh, paginateLoop_last]
    unfold cursorAt at hcur
    unfold errAt at herr
    rcases hx : exchange pageFn s (k - 1) with ⟨s1, tok, err⟩
    rw [hx] at hcur herr
    simp only at hcur herr
    subst herr
    rcases hcur with h | h
    · subst h
      simp [logAfter_length]
      omega
    · subst h
      simp [logAfter_length]
      omega
  refine ⟨?_, key.1, key.2⟩
  have h := (paginateLoop_recorded pageFn PaginationLimit none [] s []).1
  unfold paginate at key ⊢
  rw [← h, key.1]

/-- C3, on the sequence of cursors "a", "b", "": `paginate` completes without
error after three invocations. -/
theorem paginate_completes_witness :
    (paginate (scripted [some "a", some "b", some ""]) 0).2 = none ∧
      (paginate (recorded (scripted [some "a", some "b", some ""])) (0, [])).2 = none ∧
      (paginate (recorded (scripted [some "a", some "b", some ""])) (0, [])).1.2.length = 3 :=
  paginate_completes (scripted [some "a", some "b", some ""]) 0 3
    (by decide) (by decide) (by decide) (by decide) (by decide)

/-! ## Theorems: the library functions -/

theorem splitScan_space_nospace (a : List Char) :
    ∀ cur : List Char, ' ' ∉ a → splitScan [' '] a 0 cur = [cur.reverse ++ a] := by
  induction a with
  | nil => intro cur _; simp [splitScan]
  | cons c cs ih =>
    intro cur h
    have hc : ¬ (' ' = c) := fun e => h (e ▸ List.mem_cons_self _ _)
    have hcs : ' ' ∉ cs := fun e => h (List.mem_cons_of_mem _ e)
    simp [splitScan, List.isPrefixOf, hc, ih (c :: cur) hcs]

theorem splitScan_space_cons (a b : List Char) :
    ∀ cur : List Char, ' ' ∉ a →
      splitScan [' '] (a ++ ' ' :: b) 0 cur = (cur.reverse ++ a) :: splitScan [' '] b 0 [] := by
  induction a with
  | nil => intro cur _; simp [splitScan, List.isPrefixOf]
  | cons c cs ih =>
    intro cur h
    have hc : ¬ (' ' = c) := fun e => h (e ▸ List.mem_cons_self _ _)
    have hcs : ' ' ∉ cs := fun e => h (List.mem_cons_of_mem _ e)
    simp [splitScan, List.isPrefixOf, hc, ih (c :: cur) hcs]

/-- Splitting a text without a space on a space gives one piece. -/
theorem Split_space_nospace (a : List Char) (h : ' ' ∉ a) : Split a [' '] = [a] := by
  simp [Split, splitScan_space_nospace a [] h]

/-- Splitting on a space: the text before the first space is the first piece. -/
theorem Split_space_cons (a b : List Char) (h : ' ' ∉ a) :
    Split (a ++ ' ' :: b) [' '] = a :: Split b [' '] := by
  simp [Split, splitScan_space_cons a b [] h]

/-! ## Theorems: `ParseClockSpeed` -/

/-- C4 (what the code does): on every non-empty input that is a single token
(no space once lower-cased), `ParseClockSpeed` reads `parts[len(parts)-2]`
with index `-1` and panics instead of returning a `Range`. -/
theorem ParseClockSpeed_single_token_panics {F : Type} (ops : Float64Ops F)
    (caseTable : Char → Char) (speed : List Char)
    (hne : speed ≠ []) (htoken : ' ' ∉ ToLower caseTable speed) :
    ParseClockSpeed ops caseTable speed = none := by
  simp [ParseClockSpeed, hne, Split_space_nospace _ htoken, index]

/-- C4, on the input "2.5GHz": the call panics. -/
theorem ParseClockSpeed_single_token_panics_witness :
    ParseClockSpeed ratOps id "2.5GHz".toList = none :=
  ParseClockSpeed_single_token_panics ratOps id "2.5GHz".toList (by decide) (by decide)

theorem ToLower_append (caseTable : Char → Char) (a b : List Char) :
    ToLower caseTable (a ++ b) = ToLower caseTable a ++ ToLower caseTable b := by
  simp [ToLower]

theorem unicodeToLower_numeral (caseTable : Char → Char) (c : Char)
    (h : c.isDigit = true ∨ c = '.' ∨ c = '-' ∨ c = '+') : unicodeToLower caseTable c = c := by
  rcases h with h | h | h | h
  · simp only [Char.isDigit, Bool.and_eq_true, decide_eq_true_eq] at h
    have h1 : c.toNat = c.val.toNat := rfl
    have h2 : 48 ≤ c.val.toNat := h.1
    have h3 : c.val.toNat ≤ 57 := h.2
    have h4 : 'A'.toNat = 65 := rfl
    unfold unicodeToLower
    rw [if_pos (by omega), if_neg (by omega)]
  · subst h; rfl
  · subst h; rfl
  · subst h; rfl

theorem ToLower_numeral (caseTable : Char → Char) (X : List Char) (h : IsNumeral X) :
    ToLower caseTable X = X := by
  unfold ToLower
  conv_rhs => rw [← List.map_id X]
  exact List.map_congr_left (fun c hc => unicodeToLower_numeral caseTable c (h.2 c hc))

theorem numeral_nospace (X : List Char) (h : IsNumeral X) : ' ' ∉ X := by
  intro hm
  rcases h.2 _ hm with h | h | h | h
  · exact absurd h (by decide)
  · exact absurd h (by decide)
  · exact absurd h (by decide)
  · exact absurd h (by decide)

theorem numeral_ne_up (X : List Char) (h : IsNumeral X) : X ≠ ['u', 'p'] := by
  intro e
  have := h.2 'u' (by rw [e]; simp)
  revert this
  decide

theorem Split_up_to (X u : List Char) (hX : ' ' ∉ X) (hu : ' ' ∉ u) :
    Split (['u', 'p', ' ', 't', 'o', ' '] ++ X ++ [' '] ++ u) [' '] =
      [['u', 'p'], ['t', 'o'], X, u] := by
  have e : ['u', 'p', ' ', 't', 'o', ' '] ++ X ++ [' '] ++ u =
      ['u', 'p'] ++ ' ' :: (['t', 'o'] ++ ' ' :: (X ++ ' ' :: u)) := by simp
  rw [e, Split_space_cons _ _ (by decide), Split_space_cons _ _ (by decide),
    Split_space_cons _ _ hX, Split_space_nospace _ hu]

theorem Split_plain (X u : List Char) (hX : ' ' ∉ X) (hu : ' ' ∉ u) :
    Split (X ++ [' '] ++ u) [' '] = [X, u] := by
  have e : X ++ [' '] ++ u = X ++ ' ' :: u := by simp
  rw [e, Split_space_cons _ _ hX, Split_space_nospace _ hu]

theorem ToLower_up_to (caseTable : Char → Char) :
    ToLower caseTable ['U', 'p', ' ', 't', 'o', ' '] = ['u', 'p', ' ', 't', 'o', ' '] := rfl

theorem ToLower_space (caseTable : Char → Char) : ToLower caseTable [' '] = [' '] := rfl

/-- The result of `ParseClockSpeed` on a non-empty input, in terms of the
pieces of the lower-cased text. -/
theorem ParseClockSpeed_of_parts {F : Type} (ops : Float64Ops F) (caseTable : Char → Char)
    (speed : List Char) (parts : List (List Char)) (hne : speed ≠ [])
    (hparts : Split (ToLower caseTable speed) [' '] = parts) :
    ParseClockSpeed ops caseTable speed =
      match index parts ((parts.length : Int) - 1) with
      | none => none
      | some unit =>
        match index parts ((parts.length : Int) - 2) with
        | none => none
        | some magnitude =>
          match index parts 0, index parts 1 with
          | some p0, some p1 =>
            if p0 = ['u', 'p'] ∧ p1 = ['t', 'o'] then
              some ⟨unit, ops.ofRat 0, ParseFloat ops magnitude (ops.ofRat 0)⟩
            else some ⟨unit, ParseFloat ops magnitude (ops.ofRat 0),
              ParseFloat ops magnitude (ops.ofRat 0)⟩
          | _, _ => none := by
  subst hparts
  unfold ParseClockSpeed
  rw [if_neg hne]
  rfl

/-- C10 (amended): for a decimal numeral `X` that `strconv.ParseFloat` accepts and
reads as `x`, and a unit token `U`, `ParseClockSpeed` maps every casing of "Up to X U" to
`{unit: lower-cased U, min: 0, max: x}` and every casing of "X U" to
`{unit: lower-cased U, min: x, max: x}`; the empty string gives the zero
`Range`. -/
theorem ParseClockSpeed_range {F : Type} (ops : Float64Ops F) (caseTable : Char → Char)
    (X U : List Char) (x : F)
    (hX : IsNumeral X) (hx : ops.parseFloat X = some x) (hU : ' ' ∉ ToLower caseTable U) :
    (∀ s, ToLower caseTable s = ToLower caseTable ("Up to ".toList ++ X ++ " ".toList ++ U) →
        ParseClockSpeed ops caseTable s =
          some { Unit := ToLower caseTable U, Min := ops.ofRat 0, Max := x }) ∧
      (∀ s, ToLower caseTable s = ToLower caseTable (X ++ " ".toList ++ U) →
        ParseClockSpeed ops caseTable s =
          some { Unit := ToLower caseTable U, Min := x, Max := x }) ∧
      ParseClockSpeed ops caseTable [] = some { Unit := [], Min := ops.ofRat 0, Max := ops.ofRat 0 } := by
  have hXs := numeral_nospace X hX
  have hXl := ToLower_numeral caseTable X hX
  have hX0 : X ≠ [] := hX.1
  refine ⟨?_, ?_, ?_⟩
  · intro s hs
    have hs0 : s ≠ [] := by
      rintro rfl
      simp [ToLower] at hs
    have e : ToLower caseTable s =
        ['u', 'p', ' ', 't', 'o', ' '] ++ X ++ [' '] ++ ToLower caseTable U := by
      rw [hs]
      simp only [String.toList, ToLower_append, hXl]
      rfl
    rw [ParseClockSpeed_of_parts ops caseTable s [['u', 'p'], ['t', 'o'], X, ToLower caseTable U] hs0
      (by rw [e]; exact Split_up_to X _ hXs hU)]
    simp [index, ParseFloat, hX0, hx]
  · intro s hs
    have hs0 : s ≠ [] := by
      rintro rfl
      simp [ToLower] at hs
    have e : ToLower caseTable s = X ++ [' '] ++ ToLower caseTable U := by
      rw [hs]
      simp only [String.toList, ToLower_append, hXl]
      rfl
    have hup := numeral_ne_up X hX
    rw [ParseClockSpeed_of_parts ops caseTable s [X, ToLower caseTable U] hs0
      (by rw [e]; exact Split_plain X _ hXs hU)]
    simp [index, ParseFloat, hX0, hx, hup]
  · simp [ParseClockSpeed]

theorem parseDecimal_3_5 : parseDecimal "3.5".toList = some 3.5 := by
  simp [parseDecimal, digitsValue, Char.isDigit]
  norm_num

theorem parseDecimal_2_5 : parseDecimal "2.5".toList = some 2.5 := by
  simp [parseDecimal, digitsValue, Char.isDigit]
  norm_num

/-- C10 (amended), on the inputs "Up to 3.5 GHz", "2.5 GHz" and "". -/
theorem ParseClockSpeed_range_witness :
    ParseClockSpeed ratOps id "Up to 3.5 GHz".toList =
        some { Unit := "ghz".toList, Min := 0, Max := 3.5 } ∧
      ParseClockSpeed ratOps id "2.5 GHz".toList =
        some { Unit := "ghz".toList, Min := 2.5, Max := 2.5 } ∧
      ParseClockSpeed ratOps id [] = some { Unit := [], Min := 0, Max := 0 } :=
  ⟨(ParseClockSpeed_range ratOps id "3.5".toList "GHz".toList 3.5 (by decide) parseDecimal_3_5
      (by decide)).1 "Up to 3.5 GHz".toList (by decide),
   (ParseClockSpeed_range ratOps id "2.5".toList "GHz".toList 2.5 (by decide) parseDecimal_2_5
      (by decide)).2.1 "2.5 GHz".toList (by decide),
   (ParseClockSpeed_range ratOps id "2.5".toList "GHz".toList 2.5 (by decide) parseDecimal_2_5
      (by decide)).2.2⟩

/-! ## Theorems: `InstanceStorage.UnmarshalJSON` -/

/-- C5 (what the code does): on "2 x 1900 NVMe SSD" the optional unit group
`(?:(\w+)\s+)?` of `storagePattern` takes the word "NVMe", so the decoded type
is "SSD" and not "NVMe SSD", the value that the comment above
`storagePattern` documents. -/
theorem InstanceStorage_multiplier_without_unit (caseTable : Char → Char)
    (s : InstanceStorage) :
    FindStringSubmatch storagePattern "2 x 1900 NVMe SSD".toList =
        some ["2 x 1900 NVMe SSD".toList, "2".toList, "1900".toList, "NVMe".toList,
          "SSD".toList] ∧
      InstanceStorage.UnmarshalJSON caseTable s "2 x 1900 NVMe SSD".toList =
        some { Amount := 2, SizeMB := 1900, Type_ := "SSD".toList } ∧
      InstanceStorage.UnmarshalJSON caseTable s "2 x 1900 NVMe SSD".toList ≠
        some { Amount := 2, SizeMB := 1900, Type_ := "NVMe SSD".toList } := by
  have h : InstanceStorage.UnmarshalJSON caseTable s "2 x 1900 NVMe SSD".toList =
      some { Amount := 2, SizeMB := 1900, Type_ := "SSD".toList } := by rfl
  refine ⟨by decide, h, ?_⟩
  rw [h]
  decide

/-! ## Theorems: `InstanceProcessor.UnmarshalJSON` -/

theorem Index_at_start (v rest : List Char) (hv : v ≠ []) : Index (v ++ rest) v = some 0 := by
  cases v with
  | nil => exact absurd rfl hv
  | cons c cs =>
    have hp : (c :: cs).isPrefixOf (c :: (cs ++ rest)) = true :=
      List.isPrefixOf_iff_prefix.mpr (List.prefix_append (c :: cs) rest)
    show Index (c :: (cs ++ rest)) (c :: cs) = some 0
    unfold Index
    rw [if_pos hp]

theorem Index_none_of_absent (w : List Char) :
    ∀ s : List Char, ¬ w <:+: s → Index s w = none := by
  intro s
  induction s with
  | nil =>
    intro h
    have hw : w ≠ [] := by
      rintro rfl
      exact h List.nil_infix
    simp [Index, hw]
  | cons c cs ih =>
    intro h
    have hp : w.isPrefixOf (c :: cs) = false := by
      cases hq : w.isPrefixOf (c :: cs) with
      | false => rfl
      | true => exact absurd (List.isPrefixOf_iff_prefix.mp hq).isInfix h
    have hcs : ¬ w <:+: cs := fun hi => h (hi.trans (List.suffix_cons c cs).isInfix)
    simp [Index, hp, ih hcs]

/-- C6 (counterexample): "AMD EPYC (Intel compatible)" starts with the vendor
token "AMD", but the make is "Intel" and the model is the whole string. -/
theorem InstanceProcessor_later_vendor_counterexample :
    "AMD".toList <+: "AMD EPYC (Intel compatible)".toList ∧
      "AMD".toList ∈ recognizedMakes ∧
      InstanceProcessor.UnmarshalJSON ⟨[], []⟩ "AMD EPYC (Intel compatible)".toList =
        { Make := "Intel".toList, Model := "AMD EPYC (Intel compatible)".toList } ∧
      (InstanceProcessor.UnmarshalJSON ⟨[], []⟩ "AMD EPYC (Intel compatible)".toList).Make ≠
        "AMD".toList := by
  decide

/-- C6 (amended): a processor string that starts with a vendor token, and in
which no vendor token listed before that one in `recognizedMakes` ("Intel",
then "AMD", then "AWS") occurs, gets that vendor as make and the rest of the
string, trimmed, as model. -/
theorem InstanceProcessor_leading_vendor (p : InstanceProcessor) (rest : List Char) :
    InstanceProcessor.UnmarshalJSON p ("Intel".toList ++ rest) =
        { Make := "Intel".toList, Model := TrimSpace rest } ∧
      (¬ "Intel".toList <:+: "AMD".toList ++ rest →
        InstanceProcessor.UnmarshalJSON p ("AMD".toList ++ rest) =
          { Make := "AMD".toList, Model := TrimSpace rest }) ∧
      (¬ "Intel".toList <:+: "AWS".toList ++ rest → ¬ "AMD".toList <:+: "AWS".toList ++ rest →
        InstanceProcessor.UnmarshalJSON p ("AWS".toList ++ rest) =
          { Make := "AWS".toList, Model := TrimSpace rest }) := by
  refine ⟨?_, ?_, ?_⟩
  · have h := Index_at_start "Intel".toList rest (by decide)
    simp only [InstanceProcessor.UnmarshalJSON, recognizedMakes, processorLoop, h]
    simp
  · intro h1
    have h := Index_at_start "AMD".toList rest (by decide)
    have hn := Index_none_of_absent _ _ h1
    simp only [InstanceProcessor.UnmarshalJSON, recognizedMakes, processorLoop, h, hn]
    simp
  · intro h1 h2
    have h := Index_at_start "AWS".toList rest (by decide)
    have hn1 := Index_none_of_absent _ _ h1
    have hn2 := Index_none_of_absent _ _ h2
    simp only [InstanceProcessor.UnmarshalJSON, recognizedMakes, processorLoop, h, hn1, hn2]
    simp

/-- C6 (amended), on "Intel Xeon Platinum 8259CL", "AMD EPYC 7R13" and
"AWS Graviton2". -/
theorem InstanceProcessor_leading_vendor_witness :
    InstanceProcessor.UnmarshalJSON ⟨[], []⟩ "Intel Xeon Platinum 8259CL".toList =
        { Make := "Intel".toList, Model := "Xeon Platinum 8259CL".toList } ∧
      InstanceProcessor.UnmarshalJSON ⟨[], []⟩ "AMD EPYC 7R13".toList =
        { Make := "AMD".toList, Model := "EPYC 7R13".toList } ∧
      InstanceProcessor.UnmarshalJSON ⟨[], []⟩ "AWS Graviton2".toList =
        { Make := "AWS".toList, Model := "Graviton2".toList } :=
  ⟨(InstanceProcessor_leading_vendor ⟨[], []⟩ " Xeon Platinum 8259CL".toList).1,
   (InstanceProcessor_leading_vendor ⟨[], []⟩ " EPYC 7R13".toList).2.1 (by decide),
   (InstanceProcessor_leading_vendor ⟨[], []⟩ " Graviton2".toList).2.2 (by decide) (by decide)⟩

/-! ## Theorems: `NetworkPerformance.UnmarshalJSON` -/

theorem ToLower_eq_nil (caseTable : Char → Char) (s : List Char) :
    ToLower caseTable s = [] ↔ s = [] := by
  simp [ToLower]

/-- C9: every casing of a descriptive tier is mapped to its fixed Gbps range,
and every casing of "na", like the empty string, leaves the target as it was
(so a zero value stays the zero value). -/
theorem NetworkPerformance_tiers {F : Type} (ops : Float64Ops F) (caseTable : Char → Char)
    (p : NetworkPerformance F) (s : List Char) :
    (ToLower caseTable s = "very low".toList →
        NetworkPerformance.UnmarshalJSON ops caseTable p s =
          some { Unit := "Gbps".toList, Min := ops.ofRat 0, Max := ops.ofRat 0.05,
                 Description := "very low".toList }) ∧
      (ToLower caseTable s = "low".toList →
        NetworkPerformance.UnmarshalJSON ops caseTable p s =
          some { Unit := "Gbps".toList, Min := ops.ofRat 0.05, Max := ops.ofRat 0.3,
                 Description := "low".toList }) ∧
      (ToLower caseTable s = "moderate".toList →
        NetworkPerformance.UnmarshalJSON ops caseTable p s =
          some { Unit := "Gbps".toList, Min := ops.ofRat 0.3, Max := ops.ofRat 0.9,
                 Description := "moderate".toList }) ∧
      (ToLower caseTable s = "low to moderate".toList →
        NetworkPerformance.UnmarshalJSON ops caseTable p s =
          some { Unit := "Gbps".toList, Min := ops.ofRat 0.05, Max := ops.ofRat 0.9,
                 Description := "low to moderate".toList }) ∧
      (ToLower caseTable s = "high".toList →
        NetworkPerformance.UnmarshalJSON ops caseTable p s =
          some { Unit := "Gbps".toList, Min := ops.ofRat 0.9, Max := ops.ofRat 2.2,
                 Description := "high".toList }) ∧
      (ToLower caseTable s = "na".toList →
        NetworkPerformance.UnmarshalJSON ops caseTable p s = some p) ∧
      (s = [] → NetworkPerformance.UnmarshalJSON ops caseTable p s = some p) := by
  have c1 : (50.0 / 1000.0 : ℚ) = 0.05 := by norm_num
  have c2 : (300.0 / 1000.0 : ℚ) = 0.3 := by norm_num
  have c3 : (900.0 / 1000.0 : ℚ) = 0.9 := by norm_num
  have c4 : (2200.0 / 1000.0 : ℚ) = 2.2 := by norm_num
  have hne : ∀ w : List Char, w ≠ [] → ToLower caseTable s = w → s ≠ [] := by
    intro w hw h e
    rw [e] at h
    exact hw h.symm
  refine ⟨?_, ?_, ?_, ?_, ?_, ?_, ?_⟩
  · intro h
    unfold NetworkPerformance.UnmarshalJSON
    rw [if_neg (hne _ (by decide) h)]
    simp only [h, c1]
    rfl
  · intro h
    unfold NetworkPerformance.UnmarshalJSON
    rw [if_neg (hne _ (by decide) h)]
    simp only [h, c1, c2]
    rfl
  · intro h
    unfold NetworkPerformance.UnmarshalJSON
    rw [if_neg (hne _ (by decide) h)]
    simp only [h, c2, c3]
    rfl
  · intro h
    unfold NetworkPerformance.UnmarshalJSON
    rw [if_neg (hne _ (by decide) h)]
    simp only [h, c1, c3]
    rfl
  · intro h
    unfold NetworkPerformance.UnmarshalJSON
    rw [if_neg (hne _ (by decide) h)]
    simp only [h, c3, c4]
    rfl
  · intro h
    unfold NetworkPerformance.UnmarshalJSON
    rw [if_neg (hne _ (by decide) h)]
    simp only [h]
    rfl
  · intro h
    unfold NetworkPerformance.UnmarshalJSON
    rw [if_pos h]

/-- C9, on "High", "Very Low", "NA" and the empty string, for the zero value
as target. -/
theorem NetworkPerformance_tiers_witness :
    NetworkPerformance.UnmarshalJSON ratOps id ⟨[], 0, 0, []⟩ "High".toList =
        some { Unit := "Gbps".toList, Min := 0.9, Max := 2.2, Description := "high".toList } ∧
      NetworkPerformance.UnmarshalJSON ratOps id ⟨[], 0, 0, []⟩ "Very Low".toList =
        some { Unit := "Gbps".toList, Min := 0, Max := 0.05,
               Description := "very low".toList } ∧
      NetworkPerformance.UnmarshalJSON ratOps id ⟨[], 0, 0, []⟩ "NA".toList =
        some ⟨[], 0, 0, []⟩ ∧
      NetworkPerformance.UnmarshalJSON ratOps id ⟨[], 0, 0, []⟩ [] = some ⟨[], 0, 0, []⟩ :=
  ⟨(NetworkPerformance_tiers ratOps id ⟨[], 0, 0, []⟩ "High".toList).2.2.2.2.1 (by decide),
   (NetworkPerformance_tiers ratOps id ⟨[], 0, 0, []⟩ "Very Low".toList).1 (by decide),
   (NetworkPerformance_tiers ratOps id ⟨[], 0, 0, []⟩ "NA".toList).2.2.2.2.2.1 (by decide),
   (NetworkPerformance_tiers ratOps id ⟨[], 0, 0, []⟩ []).2.2.2.2.2.2 rfl⟩

/-- The result of `NetworkPerformance.UnmarshalJSON` on an input whose
lower-cased text `str` is not a descriptive tier and has at least two pieces. -/
theorem NetworkPerformance_of_parts {F : Type} (ops : Float64Ops F) (caseTable : Char → Char)
    (p : NetworkPerformance F) (s str : List Char) (parts : List (List Char))
    (hstr : ToLower caseTable s = str) (h0 : str ≠ [])
    (h1 : str ≠ "very low".toList) (h2 : str ≠ "low".toList) (h3 : str ≠ "moderate".toList)
    (h4 : str ≠ "low to moderate".toList) (h5 : str ≠ "high".toList) (h6 : str ≠ "na".toList)
    (hparts : Split str [' '] = parts) (hlen : ¬ parts.length < 2) :
    NetworkPerformance.UnmarshalJSON ops caseTable p s =
      match index parts ((parts.length : Int) - 2) with
      | none => none
      | some magnitude =>
        if ops.eq (ParseFloat ops magnitude (ops.ofRat (-1))) (ops.ofRat (-1)) then
          some { Unit := "Gbps".toList, Min := ParseFloat ops magnitude (ops.ofRat (-1)),
                 Max := ParseFloat ops magnitude (ops.ofRat (-1)), Description := str }
        else
          match index parts 0, index parts 1, index parts ((parts.length : Int) - 1) with
          | some p0, some p1, some unit =>
            if unit = "megabit".toList ∨ unit = "mbps".toList then
              some { Unit := "Gbps".toList,
                     Min := ops.div (if p0 = "up".toList ∧ p1 = "to".toList then ops.ofRat 0
                       else ParseFloat ops magnitude (ops.ofRat (-1))) (ops.ofRat 1000),
                     Max := ops.div (ParseFloat ops magnitude (ops.ofRat (-1))) (ops.ofRat 1000),
                     Description := str }
            else
              some { Unit := "Gbps".toList,
                     Min := if p0 = "up".toList ∧ p1 = "to".toList then ops.ofRat 0
                       else ParseFloat ops magnitude (ops.ofRat (-1)),
                     Max := ParseFloat ops magnitude (ops.ofRat (-1)),
                     Description := str }
          | _, _, _ => none := by
  have hs0 : s ≠ [] := by
    rintro rfl
    exact h0 hstr.symm
  subst hparts
  subst hstr
  unfold NetworkPerformance.UnmarshalJSON
  rw [if_neg hs0]
  simp only [if_neg h0, if_neg h1, if_neg h2, if_neg h3, if_neg h4, if_neg h5, if_neg h6]
  have hsp : (" ".toList : List Char) = [' '] := rfl
  rw [hsp, if_neg hlen]
  cases hm : index (Split (ToLower caseTable s) [' '])
      (((Split (ToLower caseTable s) [' ']).length : Int) - 2) with
  | none => rfl
  | some magnitude =>
    simp only []
    by_cases hv : ops.eq (ParseFloat ops magnitude (ops.ofRat (-1))) (ops.ofRat (-1)) = true
    · rw [if_pos hv, if_pos hv]
    · rw [if_neg hv, if_neg hv]
      cases index (Split (ToLower caseTable s) [' ']) 0 <;>
        cases index (Split (ToLower caseTable s) [' ']) 1 <;>
        cases index (Split (ToLower caseTable s) [' '])
          (((Split (ToLower caseTable s) [' ']).length : Int) - 1) <;>
        try rfl
      rename_i p0 p1 unit
      simp only []
      by_cases hu : unit = "megabit".toList ∨ unit = "mbps".toList
      · rw [if_pos hu, if_pos hu]
        by_cases hup : p0 = "up".toList ∧ p1 = "to".toList
        · simp only [if_pos hup]
        · simp only [if_neg hup]
      · rw [if_neg hu, if_neg hu]
        by_cases hup : p0 = "up".toList ∧ p1 = "to".toList
        · simp only [if_pos hup]
        · simp only [if_neg hup]

theorem cons_ne_of_head_ne (c d : Char) (a b : List Char) (h : c ≠ d) : c :: a ≠ d :: b := by
  intro e
  exact h (List.cons.inj e).1

/-- A text that starts with a numeral is not a descriptive tier. -/
theorem numeral_append_ne_tier (X rest w : List Char) (hX : IsNumeral X)
    (hw : w ∈ ["very low".toList, "low".toList, "moderate".toList, "low to moderate".toList,
      "high".toList, "na".toList]) : X ++ rest ≠ w := by
  cases X with
  | nil => exact absurd rfl hX.1
  | cons c cs =>
    have hc := hX.2 c (List.mem_cons_self _ _)
    have hv : c ≠ 'v' := by rintro rfl; revert hc; decide
    have hl : c ≠ 'l' := by rintro rfl; revert hc; decide
    have hm : c ≠ 'm' := by rintro rfl; revert hc; decide
    have hh : c ≠ 'h' := by rintro rfl; revert hc; decide
    have hn : c ≠ 'n' := by rintro rfl; revert hc; decide
    simp only [List.mem_cons, List.mem_singleton, List.not_mem_nil, or_false] at hw
    rcases hw with rfl | rfl | rfl | rfl | rfl | rfl
    · exact cons_ne_of_head_ne _ _ _ _ hv
    · exact cons_ne_of_head_ne _ _ _ _ hl
    · exact cons_ne_of_head_ne _ _ _ _ hm
    · exact cons_ne_of_head_ne _ _ _ _ hl
    · exact cons_ne_of_head_ne _ _ _ _ hh
    · exact cons_ne_of_head_ne _ _ _ _ hn

/-- A text that starts with "up to " is not a descriptive tier. -/
theorem up_to_append_ne_tier (rest w : List Char)
    (hw : w ∈ ["very low".toList, "low".toList, "moderate".toList, "low to moderate".toList,
      "high".toList, "na".toList]) : ['u', 'p', ' ', 't', 'o', ' '] ++ rest ≠ w := by
  simp only [List.mem_cons, List.mem_singleton, List.not_mem_nil, or_false] at hw
  rcases hw with rfl | rfl | rfl | rfl | rfl | rfl <;>
    exact cons_ne_of_head_ne _ _ _ _ (by decide)

/-- The numeric forms, for a lower-cased text "up to X u" or "X u". -/
theorem NetworkPerformance_forms {F : Type} (ops : Float64Ops F)
    (caseTable : Char → Char) (p : NetworkPerformance F) (X u : List Char) (x : F)
    (hX : IsNumeral X) (hx : ops.parseFloat X = some x)
    (hne : ops.eq x (ops.ofRat (-1)) = false) (hu : ' ' ∉ u) (s : List Char) :
    (ToLower caseTable s = ['u', 'p', ' ', 't', 'o', ' '] ++ X ++ [' '] ++ u →
        NetworkPerformance.UnmarshalJSON ops caseTable p s =
          if u = "megabit".toList ∨ u = "mbps".toList then
            some { Unit := "Gbps".toList, Min := ops.div (ops.ofRat 0) (ops.ofRat 1000),
                   Max := ops.div x (ops.ofRat 1000), Description := ToLower caseTable s }
          else
            some { Unit := "Gbps".toList, Min := ops.ofRat 0, Max := x,
                   Description := ToLower caseTable s }) ∧
      (ToLower caseTable s = X ++ [' '] ++ u →
        NetworkPerformance.UnmarshalJSON ops caseTable p s =
          if u = "megabit".toList ∨ u = "mbps".toList then
            some { Unit := "Gbps".toList, Min := ops.div x (ops.ofRat 1000),
                   Max := ops.div x (ops.ofRat 1000), Description := ToLower caseTable s }
          else
            some { Unit := "Gbps".toList, Min := x, Max := x,
                   Description := ToLower caseTable s }) := by
  have hXs := numeral_nospace X hX
  have hX0 : X ≠ [] := hX.1
  have hup := numeral_ne_up X hX
  constructor
  · intro e
    have e2 : ['u', 'p', ' ', 't', 'o', ' '] ++ X ++ [' '] ++ u =
        ['u', 'p', ' ', 't', 'o', ' '] ++ (X ++ [' '] ++ u) := by simp
    have ht := fun w hw => up_to_append_ne_tier (X ++ [' '] ++ u) w hw
    rw [← e2] at ht
    rw [NetworkPerformance_of_parts ops caseTable p s _ [['u', 'p'], ['t', 'o'], X, u] e
      (by simp) (ht _ (by simp)) (ht _ (by simp)) (ht _ (by simp)) (ht _ (by simp))
      (ht _ (by simp)) (ht _ (by simp)) (Split_up_to X u hXs hu) (by simp)]
    simp [index, ParseFloat, hX0, hx, hne, e]
  · intro e
    have e2 : X ++ [' '] ++ u = X ++ ([' '] ++ u) := by simp
    have ht := fun w hw => numeral_append_ne_tier X ([' '] ++ u) w hX hw
    rw [← e2] at ht
    rw [NetworkPerformance_of_parts ops caseTable p s _ [X, u] e
      (by simp) (ht _ (by simp)) (ht _ (by simp)) (ht _ (by simp)) (ht _ (by simp))
      (ht _ (by simp)) (ht _ (by simp)) (Split_plain X u hXs hu) (by simp)]
    simp [index, ParseFloat, hX0, hx, hne, e, hup]

theorem parseDecimal_750 : parseDecimal "750".toList = some 750 := by
  simp [parseDecimal, digitsValue, Char.isDigit]

theorem linkRates_eq {Attrs Time Any : Type} (products : List (SKU × Option (Product Attrs)))
    (ts : List (String × Option (Term Attrs Time Any))) (h : ∀ rt ∈ ts, rt.2 ≠ none) :
    linkRates products ts = some (ts.map (fun rt => (rt.1, rt.2.map (linkTerm products)))) := by
  induction ts with
  | nil => rfl
  | cons rt rest ih =>
    obtain ⟨rc, t⟩ := rt
    have ht : t ≠ none := h (rc, t) (List.mem_cons_self _ _)
    have hrest := ih (fun r hr => h r (List.mem_cons_of_mem _ hr))
    cases t with
    | none => exact absurd rfl ht
    | some t => simp [linkRates, hrest]

theorem linkSkus_eq {Attrs Time Any : Type} (products : List (SKU × Option (Product Attrs)))
    (v : Terms Attrs Time Any) (h : ∀ st ∈ v, ∀ rt ∈ st.2, rt.2 ≠ none) :
    linkSkus products v =
      some (v.map (fun st => (st.1, st.2.map (fun rt => (rt.1, rt.2.map (linkTerm products)))))) := by
  induction v with
  | nil => rfl
  | cons st rest ih =>
    obtain ⟨sku, ts⟩ := st
    have h1 := linkRates_eq products ts (h (sku, ts) (List.mem_cons_self _ _))
    have h2 := ih (fun r hr => h r (List.mem_cons_of_mem _ hr))
    simp [linkSkus, h1, h2]

theorem linkTermTypes_eq {Attrs Time Any : Type}
    (products : List (SKU × Option (Product Attrs)))
    (terms : List (TermType × Terms Attrs Time Any))
    (h : ∀ tv ∈ terms, ∀ st ∈ tv.2, ∀ rt ∈ st.2, rt.2 ≠ none) :
    linkTermTypes products terms =
      some (terms.map (fun tv => (tv.1, tv.2.map (fun st =>
        (st.1, st.2.map (fun rt => (rt.1, rt.2.map (linkTerm products)))))))) := by
  induction terms with
  | nil => rfl
  | cons tv rest ih =>
    obtain ⟨tt, v⟩ := tv
    have h1 := linkSkus_eq products v (h (tt, v) (List.mem_cons_self _ _))
    have h2 := ih (fun r hr => h r (List.mem_cons_of_mem _ hr))
    simp [linkTermTypes, h1, h2]

theorem termEntries_linked {Attrs Time Any : Type}
    (products : List (SKU × Option (Product Attrs)))
    (terms : List (TermType × Terms Attrs Time Any)) :
    termEntries (terms.map (fun tv => (tv.1, tv.2.map (fun st =>
        (st.1, st.2.map (fun rt => (rt.1, rt.2.map (linkTerm products)))))))) =
      (termEntries terms).map (linkEntry products) := by
  simp only [termEntries, List.flatMap_map, List.map_flatMap, List.map_map]
  rfl

theorem mem_termEntries {Attrs Time Any : Type} (terms : List (TermType × Terms Attrs Time Any))
    (tv : TermType × Terms Attrs Time Any) (st : SKU × List (String × Option (Term Attrs Time Any)))
    (rt : String × Option (Term Attrs Time Any))
    (h1 : tv ∈ terms) (h2 : st ∈ tv.2) (h3 : rt ∈ st.2) :
    (tv.1, st.1, rt.1, rt.2) ∈ termEntries terms := by
  simp only [termEntries, List.mem_flatMap, List.mem_map]
  exact ⟨tv, h1, st, h2, rt, h3, rfl⟩

theorem linkTerm_product {Attrs Time Any : Type} (products : List (SKU × Option (Product Attrs)))
    (t : Term Attrs Time Any) (h : t.Product = none) :
    (linkTerm products t).SKU = t.SKU ∧
      (linkTerm products t).Product = (products.lookup t.SKU).join := by
  unfold linkTerm
  cases hl : products.lookup t.SKU with
  | none => simp [h]
  | some product => simp

/-- C7 (counterexample): in the catalog whose `products` object holds
`"A": null`, the SKU "A" of the only term is a key of `Products`, yet after
`processPrices` the term has no product reference. -/
theorem processPrices_null_product_counterexample :
    (nullProductCatalog.Products.lookup "A").isSome = true ∧
      (∀ e ∈ termEntries nullProductCatalog.Terms,
        ∀ t, e.2.2.2 = some t → t.SKU = "A" ∧ t.Product = none) ∧
      (processPrices nullProductCatalog).map
          (fun linked => (termEntries linked.Terms).map
            (fun e => e.2.2.2.map (fun t => (t.SKU, t.Product)))) =
        some [some ("A", none)] := by
  decide

/-- C7 (amended): in a catalog with no `nil` term entry, in which no term has a
product reference yet, `processPrices` succeeds, keeps `Products` and the
entries of `Terms` in place, and gives every term the reference
`Products[sku]`: the term's reference is a product exactly when its SKU is a
key of `Products` whose value is that (non-nil) product, and it stays absent
otherwise; when no value of `Products` is `nil`, the reference is populated
iff the SKU is a key. -/
theorem processPrices_links {Attrs Time Any : Type} (prices : Prices Attrs Time Any)
    (hterms : ∀ e ∈ termEntries prices.Terms, e.2.2.2 ≠ none)
    (hinit : ∀ e ∈ termEntries prices.Terms, ∀ t, e.2.2.2 = some t → t.Product = none) :
    ∃ linked, processPrices prices = some linked ∧
      linked.Products = prices.Products ∧
      termEntries linked.Terms = (termEntries prices.Terms).map (linkEntry prices.Products) ∧
      ∀ e ∈ termEntries linked.Terms, ∀ t, e.2.2.2 = some t →
        (∀ product, t.Product = some product ↔
          prices.Products.lookup t.SKU = some (some product)) ∧
        (prices.Products.lookup t.SKU = none → t.Product = none) ∧
        ((∀ sku, prices.Products.lookup sku ≠ some none) →
          (t.Product.isSome = true ↔ (prices.Products.lookup t.SKU).isSome = true)) := by
  have hnil : ∀ tv ∈ prices.Terms, ∀ st ∈ tv.2, ∀ rt ∈ st.2, rt.2 ≠ none :=
    fun tv h1 st h2 rt h3 => hterms _ (mem_termEntries prices.Terms tv st rt h1 h2 h3)
  refine ⟨{ prices with Terms := prices.Terms.map (fun tv => (tv.1, tv.2.map (fun st =>
      (st.1, st.2.map (fun rt => (rt.1, rt.2.map (linkTerm prices.Products))))))) },
    ?_, rfl, termEntries_linked prices.Products prices.Terms, ?_⟩
  · simp only [processPrices, linkTermTypes_eq prices.Products prices.Terms hnil]
  · intro e he t ht
    rw [termEntries_linked, List.mem_map] at he
    obtain ⟨e0, he0, rfl⟩ := he
    simp only [linkEntry, Option.map_eq_some'] at ht
    obtain ⟨t0, ht0, rfl⟩ := ht
    obtain ⟨hsku, hprod⟩ := linkTerm_product prices.Products t0 (hinit e0 he0 t0 ht0)
    rw [hsku, hprod]
    cases hl : prices.Products.lookup t0.SKU with
    | none => simp
    | some product =>
      cases product with
      | none =>
        refine ⟨by simp, by simp, ?_⟩
        intro hall
        exact absurd hl (hall _)
      | some product => simp

/-- C7 (amended), on the catalog with two products and three terms, one of them
for an unknown SKU: the load succeeds, exactly two terms get their product
and one is left without a reference. -/
theorem processPrices_links_witness :
    (∃ linked, processPrices fixtureCatalog = some linked ∧
      linked.Products = fixtureCatalog.Products ∧
      termEntries linked.Terms =
        (termEntries fixtureCatalog.Terms).map (linkEntry fixtureCatalog.Products) ∧
      ∀ e ∈ termEntries linked.Terms, ∀ t, e.2.2.2 = some t →
        (∀ product, t.Product = some product ↔
          fixtureCatalog.Products.lookup t.SKU = some (some product)) ∧
        (fixtureCatalog.Products.lookup t.SKU = none → t.Product = none) ∧
        ((∀ sku, fixtureCatalog.Products.lookup sku ≠ some none) →
          (t.Product.isSome = true ↔ (fixtureCatalog.Products.lookup t.SKU).isSome = true))) ∧
      (processPrices fixtureCatalog).map
          (fun linked => (termEntries linked.Terms).map
            (fun e => e.2.2.2.map (fun t => (t.SKU, t.Product)))) =
        some [some ("A", some ⟨"A", "Compute Instance", ()⟩), some ("Z", none),
              some ("B", some ⟨"B", "Compute Instance", ()⟩)] :=
  ⟨processPrices_links fixtureCatalog (by decide) (by decide), by decide⟩

/-! ## Theorems: `ParseBool` -/

theorem unicodeToLower_ascii (caseTable : Char → Char) (c : Char) (h : c.toNat ≤ 0x7F) :
    unicodeToLower caseTable c = unicodeToLower id c := by
  unfold unicodeToLower
  rw [if_pos h, if_pos h]

theorem ascii_lower_cases :
    ∀ n : Fin 128,
      (unicodeToLower id (Char.ofNat n) = 'y' → Char.ofNat n = 'y' ∨ Char.ofNat n = 'Y') ∧
      (unicodeToLower id (Char.ofNat n) = 'e' → Char.ofNat n = 'e' ∨ Char.ofNat n = 'E') ∧
      (unicodeToLower id (Char.ofNat n) = 's' → Char.ofNat n = 's' ∨ Char.ofNat n = 'S') := by
  decide

/-- The runes whose lower case is "y", "e" or "s", when the case table maps
no rune beyond ASCII to one of these letters. -/
theorem unicodeToLower_yes (caseTable : Char → Char)
    (htable : ∀ c : Char, 0x7F < c.toNat →
      caseTable c ≠ 'y' ∧ caseTable c ≠ 'e' ∧ caseTable c ≠ 's') (c : Char) :
    (unicodeToLower caseTable c = 'y' → c = 'y' ∨ c = 'Y') ∧
      (unicodeToLower caseTable c = 'e' → c = 'e' ∨ c = 'E') ∧
      (unicodeToLower caseTable c = 's' → c = 's' ∨ c = 'S') := by
  by_cases h : c.toNat ≤ 0x7F
  · have hc : Char.ofNat c.toNat = c := Char.ofNat_toNat c
    have hlt : c.toNat < 128 := by omega
    have key := ascii_lower_cases ⟨c.toNat, hlt⟩
    simp only [hc] at key
    rw [unicodeToLower_ascii caseTable c h]
    exact key
  · have hgt : 0x7F < c.toNat := by omega
    have hu : unicodeToLower caseTable c = caseTable c := by
      unfold unicodeToLower
      rw [if_neg h]
    rw [hu]
    obtain ⟨h1, h2, h3⟩ := htable c hgt
    exact ⟨fun e => absurd e h1, fun e => absurd e h2, fun e => absurd e h3⟩

/-- C14: `ParseBool(s)` is true exactly when the lower-cased `s` is "yes". The
eight casings of "yes" give true; "", "no", "maybe", "true" and " yes" give
false; and when the Unicode case table maps no rune beyond ASCII to "y", "e"
or "s", the eight casings are the only strings that give true. -/
theorem ParseBool_iff (caseTable : Char → Char) :
    (∀ s, ParseBool caseTable s = true ↔ ToLower caseTable s = "yes".toList) ∧
      (∀ s ∈ yesCasings, ParseBool caseTable s = true) ∧
      ParseBool caseTable [] = false ∧
      ParseBool caseTable "no".toList = false ∧
      ParseBool caseTable "maybe".toList = false ∧
      ParseBool caseTable "true".toList = false ∧
      ParseBool caseTable " yes".toList = false ∧
      ((∀ c : Char, 0x7F < c.toNat →
          caseTable c ≠ 'y' ∧ caseTable c ≠ 'e' ∧ caseTable c ≠ 's') →
        ∀ s, ParseBool caseTable s = true ↔ s ∈ yesCasings) := by
  have hall : ∀ s ∈ yesCasings, ParseBool caseTable s = true := by
    intro s hs
    simp only [yesCasings, List.mem_cons, List.mem_singleton, List.not_mem_nil, or_false] at hs
    rcases hs with rfl | rfl | rfl | rfl | rfl | rfl | rfl | rfl <;> rfl
  refine ⟨fun s => by simp [ParseBool], hall, rfl, rfl, rfl, rfl, rfl, ?_⟩
  intro htable s
  constructor
  · intro h
    have hl : ToLower caseTable s = ['y', 'e', 's'] := by simpa [ParseBool] using h
    unfold ToLower at hl
    have hlen : s.length = 3 := by
      have := congrArg List.length hl
      simpa using this
    obtain ⟨a, b, c, rfl⟩ := List.length_eq_three.mp hlen
    simp only [List.map_cons, List.map_nil, List.cons.injEq, and_true] at hl
    obtain ⟨ha, hb, hc⟩ := hl
    have ha2 := (unicodeToLower_yes caseTable htable a).1 ha
    have hb2 := (unicodeToLower_yes caseTable htable b).2.1 hb
    have hc2 := (unicodeToLower_yes caseTable htable c).2.2 hc
    rcases ha2 with rfl | rfl <;> rcases hb2 with rfl | rfl <;> rcases hc2 with rfl | rfl <;>
      decide
  · exact hall s

theorem id_table_no_yes (c : Char) (h : 0x7F < c.toNat) :
    id c ≠ 'y' ∧ id c ≠ 'e' ∧ id c ≠ 's' := by
  refine ⟨?_, ?_, ?_⟩ <;>
  · rintro rfl
    revert h
    decide

/-- C14, with the identity as case table beyond ASCII: "YES" gives true and
"maybe" gives false, as membership in the eight casings says. -/
theorem ParseBool_iff_witness :
    (ParseBool id "YES".toList = true ↔ "YES".toList ∈ yesCasings) ∧
      (ParseBool id "maybe".toList = true ↔ "maybe".toList ∈ yesCasings) :=
  ⟨(ParseBool_iff id).2.2.2.2.2.2.2 id_table_no_yes "YES".toList,
   (ParseBool_iff id).2.2.2.2.2.2.2 id_table_no_yes "maybe".toList⟩

/-! ## Theorems: `FetchPrices` -/

/-- C15: for a response with a status code `c` between 0 and 999, `FetchPrices`
returns the error "got status code c" when 400 ≤ c ≤ 599, and otherwise
returns what the decoder returns on the body; so the status check gives an
error exactly for the 4xx and 5xx codes. -/
theorem FetchPrices_status {Body P : Type} (httpDo : String → Except GoError (Response Body))
    (LoadPricesData : Body → Except GoError P) (url : String) (resp : Response Body)
    (hresp : httpDo url = .ok resp) (h0 : 0 ≤ resp.StatusCode) (h999 : resp.StatusCode ≤ 999) :
    ((400 ≤ resp.StatusCode ∧ resp.StatusCode ≤ 599) →
        FetchPrices httpDo LoadPricesData url = .error (statusError resp.StatusCode) ∧
        (statusError resp.StatusCode).msg =
          "got status code " ++ String.mk (decimalText resp.StatusCode)) ∧
      (¬ (400 ≤ resp.StatusCode ∧ resp.StatusCode ≤ 599) →
        FetchPrices httpDo LoadPricesData url = LoadPricesData resp.Body) ∧
      ((resp.StatusCode.tdiv 100 = 4 ∨ resp.StatusCode.tdiv 100 = 5) ↔
        (400 ≤ resp.StatusCode ∧ resp.StatusCode ≤ 599)) := by
  have hdiv : resp.StatusCode.tdiv 100 = resp.StatusCode / 100 :=
    Int.tdiv_eq_ediv h0 (by decide)
  have hiff : (resp.StatusCode.tdiv 100 = 4 ∨ resp.StatusCode.tdiv 100 = 5) ↔
      (400 ≤ resp.StatusCode ∧ resp.StatusCode ≤ 599) := by
    rw [hdiv]
    omega
  refine ⟨?_, ?_, hiff⟩
  · intro h
    constructor
    · simp only [FetchPrices, hresp, if_pos (hiff.mpr h)]
    · have hn : ¬ resp.StatusCode < 0 := by omega
      obtain ⟨n, hn⟩ := Int.eq_ofNat_of_zero_le h0
      simp only [statusError, decimalText, hn]
      rfl
  · intro h
    simp only [FetchPrices, hresp, if_neg (fun e => h (hiff.mp e))]

/-- C15, on the status codes 404 and 200. -/
theorem FetchPrices_status_witness :
    FetchPrices (fun _ => .ok ⟨404, "body"⟩) (fun body => (.ok body : Except GoError String))
        "https://example.invalid/index.json" = .error ⟨"got status code 404"⟩ ∧
      FetchPrices (fun _ => .ok ⟨200, "body"⟩) (fun body => (.ok body : Except GoError String))
        "https://example.invalid/index.json" = .ok "body" :=
  ⟨((FetchPrices_status (fun _ => .ok ⟨404, "body"⟩)
      (fun body => (.ok body : Except GoError String)) "https://example.invalid/index.json"
      ⟨404, "body"⟩ rfl (by decide) (by decide)).1 (by decide)).1,
   (FetchPrices_status (fun _ => .ok ⟨200, "body"⟩)
      (fun body => (.ok body : Except GoError String)) "https://example.invalid/index.json"
      ⟨200, "body"⟩ rfl (by decide) (by decide)).2.1 (by decide)⟩

/-! ## Theorems: `ParseInt` -/

theorem foldl_digits_eq_ofDigits (cs : List Char) :
    cs.foldl (fun n c => 10 * n + (c.toNat - 48)) 0 =
      Nat.ofDigits 10 (cs.reverse.map (fun c => c.toNat - '0'.toNat)) := by
  induction cs using List.reverseRecOn with
  | nil => rfl
  | append_singleton cs c ih =>
    rw [List.foldl_append, List.reverse_append]
    simp only [List.foldl_cons, List.foldl_nil, List.reverse_singleton, List.singleton_append,
      List.map_cons, Nat.ofDigits_cons, ih]
    have h48 : '0'.toNat = 48 := rfl
    rw [h48]
    ring

theorem digitsValue_eq_digitsDenote (cs : List Char) : digitsValue cs = digitsDenote cs := by
  cases cs with
  | nil => rfl
  | cons c cs =>
    have hv : digitsValue (c :: cs) =
        if (c :: cs).all Char.isDigit = true then
          some ((c :: cs).foldl (fun n c => 10 * n + (c.toNat - 48)) 0)
        else none := rfl
    rw [hv]
    unfold digitsDenote
    by_cases h : (c :: cs).all Char.isDigit = true
    · rw [if_pos h, if_pos ⟨List.cons_ne_nil _ _, h⟩, foldl_digits_eq_ofDigits]
    · rw [if_neg h, if_neg (fun e => h e.2)]

theorem digitChar_toNat : ∀ k : Fin 10, (Nat.digitChar k).toNat - '0'.toNat = k ∧
    (Nat.digitChar k).isDigit = true ∧ Nat.digitChar k ≠ '-' ∧ Nat.digitChar k ≠ '+' := by
  decide

theorem toDigitsCore_eq (fuel : Nat) :
    ∀ (n : Nat) (ds : List Char), 0 < n → n < fuel →
      Nat.toDigitsCore 10 fuel n ds = ((Nat.digits 10 n).reverse.map Nat.digitChar) ++ ds := by
  induction fuel with
  | zero => intro n ds _ h; omega
  | succ fuel ih =>
    intro n ds hpos hlt
    unfold Nat.toDigitsCore
    have hd : Nat.digits 10 n = (n % 10) :: Nat.digits 10 (n / 10) :=
      Nat.digits_def' (by decide) hpos
    by_cases h0 : n / 10 = 0
    · simp only [h0, if_true, hd, Nat.digits_zero, List.reverse_cons, List.reverse_nil,
        List.nil_append, List.map_cons, List.map_nil, List.singleton_append]
    · have h1 : 0 < n / 10 := Nat.pos_of_ne_zero h0
      have h2 : n / 10 < fuel := by omega
      simp only [h0, if_false, ih (n / 10) _ h1 h2, hd, List.reverse_cons, List.map_append,
        List.map_cons, List.map_nil, List.append_assoc, List.singleton_append]

/-- The decimal text of a positive number, digit by digit. -/
theorem toDigits_eq (n : Nat) (hpos : 0 < n) :
    Nat.toDigits 10 n = (Nat.digits 10 n).reverse.map Nat.digitChar := by
  unfold Nat.toDigits
  rw [toDigitsCore_eq (n + 1) n [] hpos (Nat.lt_succ_self n), List.append_nil]

theorem toDigits_properties (n : Nat) :
    Nat.toDigits 10 n ≠ [] ∧ (∀ c ∈ Nat.toDigits 10 n, c.isDigit = true) ∧
      (Nat.toDigits 10 n).head? ≠ some '-' ∧ (Nat.toDigits 10 n).head? ≠ some '+' ∧
      Nat.ofDigits 10 ((Nat.toDigits 10 n).reverse.map (fun c => c.toNat - '0'.toNat)) = n := by
  rcases Nat.eq_zero_or_pos n with rfl | hpos
  · decide
  · have hdig : ∀ c ∈ Nat.toDigits 10 n, ∃ k : Fin 10, c = Nat.digitChar k := by
      intro c hc
      rw [toDigits_eq n hpos, List.mem_map] at hc
      obtain ⟨k, hk, rfl⟩ := hc
      have hk10 : k < 10 := Nat.digits_lt_base (by decide) (List.mem_reverse.mp hk)
      exact ⟨⟨k, hk10⟩, rfl⟩
    have hne : Nat.toDigits 10 n ≠ [] := by
      rw [toDigits_eq n hpos]
      intro e
      have e2 := congrArg List.length e
      simp only [List.length_map, List.length_reverse, List.length_nil] at e2
      exact (Nat.digits_ne_nil_iff_ne_zero.mpr (Nat.pos_iff_ne_zero.mp hpos))
        (List.length_eq_zero.mp e2)
    refine ⟨hne, ?_, ?_, ?_, ?_⟩
    · intro c hc
      obtain ⟨k, rfl⟩ := hdig c hc
      exact (digitChar_toNat k).2.1
    · intro e
      obtain ⟨k, hk⟩ := hdig '-' (List.mem_of_mem_head? e)
      exact (digitChar_toNat k).2.2.1 hk.symm
    · intro e
      obtain ⟨k, hk⟩ := hdig '+' (List.mem_of_mem_head? e)
      exact (digitChar_toNat k).2.2.2 hk.symm
    · rw [toDigits_eq n hpos, ← List.map_reverse, List.reverse_reverse, List.map_map]
      have hmap : (Nat.digits 10 n).map ((fun c => c.toNat - '0'.toNat) ∘ Nat.digitChar) =
          Nat.digits 10 n := by
        conv_rhs => rw [← List.map_id (Nat.digits 10 n)]
        apply List.map_congr_left
        intro k hk
        have hk10 : k < 10 := Nat.digits_lt_base (by decide) hk
        exact (digitChar_toNat ⟨k, hk10⟩).1
      rw [hmap, Nat.ofDigits_digits]

/-- The range check of `strconv.ParseInt` for 64 bits. -/
theorem range_check (m : Nat) :
    (m ≤ 2 ^ 63 ↔ FitsInt64 (-(m : Int))) ∧ (m < 2 ^ 63 ↔ FitsInt64 (m : Int)) := by
  have p : (2 : Int) ^ 63 = 9223372036854775808 := by norm_num
  have q : (2 : Nat) ^ 63 = 9223372036854775808 := by norm_num
  unfold FitsInt64
  rw [p, q]
  constructor <;> omega

theorem strconvParseInt_minus (cs : List Char) :
    strconvParseInt ('-' :: cs) =
      match digitsValue cs with
      | some n => if n ≤ 2 ^ 63 then some (-(n : Int)) else none
      | none => none := by
  unfold strconvParseInt
  rfl

theorem strconvParseInt_plus (cs : List Char) :
    strconvParseInt ('+' :: cs) =
      match digitsValue cs with
      | some n => if n < 2 ^ 63 then some (n : Int) else none
      | none => none := by
  unfold strconvParseInt
  rfl

theorem strconvParseInt_unsigned (c : Char) (cs : List Char) (h1 : c ≠ '-') (h2 : c ≠ '+') :
    strconvParseInt (c :: cs) =
      match digitsValue (c :: cs) with
      | some n => if n < 2 ^ 63 then some (n : Int) else none
      | none => none := by
  unfold strconvParseInt
  split
  · rename_i body he
    exact absurd (List.cons.inj he).1 h1
  · rename_i body he
    exact absurd (List.cons.inj he).1 h2
  · rfl

theorem signedDenote_minus (cs : List Char) :
    signedDenote ('-' :: cs) =
      match digitsDenote cs with
      | some n => some (-(n : Int))
      | none => none := by
  unfold signedDenote
  rfl

theorem signedDenote_plus (cs : List Char) :
    signedDenote ('+' :: cs) =
      match digitsDenote cs with
      | some n => some (n : Int)
      | none => none := by
  unfold signedDenote
  rfl

theorem signedDenote_unsigned (c : Char) (cs : List Char) (h1 : c ≠ '-') (h2 : c ≠ '+') :
    signedDenote (c :: cs) =
      match digitsDenote (c :: cs) with
      | some n => some (n : Int)
      | none => none := by
  unfold signedDenote
  split
  · rename_i body he
    exact absurd (List.cons.inj he).1 h1
  · rename_i body he
    exact absurd (List.cons.inj he).1 h2
  · rfl

/-- The model of `strconv.ParseInt` reads exactly the optionally signed digit
strings whose value fits in 64 bits. -/
theorem strconvParseInt_eq (s : List Char) :
    strconvParseInt s =
      match signedDenote s with
      | some n => if FitsInt64 n then some n else none
      | none => none := by
  cases s with
  | nil => rfl
  | cons c cs =>
    by_cases h1 : c = '-'
    · subst h1
      rw [strconvParseInt_minus, signedDenote_minus, digitsValue_eq_digitsDenote]
      cases digitsDenote cs with
      | none => rfl
      | some m =>
        by_cases h : m ≤ 2 ^ 63
        · simp only [if_pos h, if_pos ((range_check m).1.mp h)]
        · simp only [if_neg h, if_neg (fun e => h ((range_check m).1.mpr e))]
    · by_cases h2 : c = '+'
      · subst h2
        rw [strconvParseInt_plus, signedDenote_plus, digitsValue_eq_digitsDenote]
        cases digitsDenote cs with
        | none => rfl
        | some m =>
          by_cases h : m < 2 ^ 63
          · simp only [if_pos h, if_pos ((range_check m).2.mp h)]
          · simp only [if_neg h, if_neg (fun e => h ((range_check m).2.mpr e))]
      · rw [strconvParseInt_unsigned c cs h1 h2, signedDenote_unsigned c cs h1 h2,
          digitsValue_eq_digitsDenote]
        cases digitsDenote (c :: cs) with
        | none => rfl
        | some m =>
          by_cases h : m < 2 ^ 63
          · simp only [if_pos h, if_pos ((range_check m).2.mp h)]
          · simp only [if_neg h, if_neg (fun e => h ((range_check m).2.mpr e))]

theorem signedDenote_nil : signedDenote [] = none := by
  simp [signedDenote, digitsDenote]

theorem signedDenote_decimalText (n : Int) : signedDenote (decimalText n) = some n := by
  unfold decimalText
  by_cases hn : n < 0
  · rw [if_pos hn]
    obtain ⟨hne, hall, _, _, hval⟩ := toDigits_properties n.natAbs
    have hd : digitsDenote (Nat.toDigits 10 n.natAbs) = some n.natAbs := by
      unfold digitsDenote
      rw [if_pos ⟨hne, List.all_eq_true.mpr hall⟩, hval]
    rw [signedDenote_minus, hd]
    simp only [Option.some.injEq]
    omega
  · rw [if_neg hn]
    obtain ⟨hne, hall, hminus, hplus, hval⟩ := toDigits_properties n.toNat
    have hd : digitsDenote (Nat.toDigits 10 n.toNat) = some n.toNat := by
      unfold digitsDenote
      rw [if_pos ⟨hne, List.all_eq_true.mpr hall⟩, hval]
    cases hl : Nat.toDigits 10 n.toNat with
    | nil => exact absurd hl hne
    | cons c cs =>
      rw [hl] at hminus hplus hd
      have h1 : c ≠ '-' := fun e => hminus (by rw [e]; rfl)
      have h2 : c ≠ '+' := fun e => hplus (by rw [e]; rfl)
      rw [signedDenote_unsigned c cs h1 h2, hd]
      simp only [Option.some.injEq]
      omega

/-- C13: `ParseInt(s, d)` is the value of `s` when `s` is an optionally signed
string of decimal digits whose value fits in a signed 64-bit integer, and `d`
for every other string; the decimal text of every 64-bit integer is read back
as that integer. -/
theorem ParseInt_exact (d : Int) :
    (∀ s n, signedDenote s = some n → FitsInt64 n → ParseInt s d = n) ∧
      (∀ s, (∀ n, signedDenote s = some n → ¬ FitsInt64 n) → ParseInt s d = d) ∧
      (∀ n : Int, FitsInt64 n →
        signedDenote (decimalText n) = some n ∧ ParseInt (decimalText n) d = n) := by
  have hin : ∀ s n, signedDenote s = some n → FitsInt64 n → ParseInt s d = n := by
    intro s n hs h1
    have hne : s ≠ [] := by
      rintro rfl
      rw [signedDenote_nil] at hs
      exact Option.noConfusion hs
    unfold ParseInt
    rw [if_neg hne, strconvParseInt_eq, hs]
    simp only [if_pos h1]
  refine ⟨hin, ?_, ?_⟩
  · intro s h
    unfold ParseInt
    by_cases hne : s = []
    · rw [if_pos hne]
    · rw [if_neg hne, strconvParseInt_eq]
      cases hs : signedDenote s with
      | none => rfl
      | some n => simp only [if_neg (h n hs)]
  · intro n h1
    exact ⟨signedDenote_decimalText n, hin _ n (signedDenote_decimalText n) h1⟩

/-- C13, on "-42", "+7", "12a", the empty string and a number beyond 64 bits. -/
theorem ParseInt_exact_witness :
    ParseInt "-42".toList 5 = -42 ∧ ParseInt "+7".toList 5 = 7 ∧
      ParseInt "9223372036854775807".toList 5 = 9223372036854775807 ∧
      ParseInt "12a".toList 5 = 5 ∧ ParseInt [] 5 = 5 ∧ ParseInt "1 2".toList 5 = 5 ∧
      ParseInt "9223372036854775808".toList 5 = 5 ∧
      ParseInt (decimalText (-9223372036854775808)) 5 = -9223372036854775808 :=
  ⟨(ParseInt_exact 5).1 "-42".toList (-42) (by decide) (by decide),
   (ParseInt_exact 5).1 "+7".toList 7 (by decide) (by decide),
   (ParseInt_exact 5).1 "9223372036854775807".toList 9223372036854775807 (by decide)
     (by decide),
   by decide, by decide, by decide, by decide,
   ((ParseInt_exact 5).2.2 (-9223372036854775808) (by decide)).2⟩

theorem paginateLoop_threaded {σ : Type} (pageFn : PageFn σ) (n : Nat) :
    ∀ (token : Option String) (seen : List String) (s : σ) (log : List Call),
      ∃ ext, (paginateLoop (recorded pageFn) n token seen (s, log)).1.2 = log ++ ext ∧
        Threaded token (paginateLoop (recorded pageFn) n token seen (s, log)).2 ext ∧
        (0 < n → ext ≠ []) := by
  induction n with
  | zero =>
    intro token seen s log
    exact ⟨[], by simp [paginateLoop], trivial, fun h => absurd h (Nat.lt_irrefl 0)⟩
  | succ n ih =>
    intro token seen s log
    rcases hp : pageFn s token with ⟨s1, tok, err⟩
    cases err with
    | some e =>
      exact ⟨[⟨token, tok, some e⟩], by simp [paginateLoop, recorded, hp],
        by simp [paginateLoop, recorded, hp, Threaded], fun _ => List.cons_ne_nil _ _⟩
    | none =>
      cases tok with
      | none =>
        exact ⟨[⟨token, none, none⟩], by simp [paginateLoop, recorded, hp],
          by simp [paginateLoop, recorded, hp, Threaded], fun _ => List.cons_ne_nil _ _⟩
      | some t =>
        by_cases h1 : t = ""
        · exact ⟨[⟨token, some t, none⟩], by simp [paginateLoop, recorded, hp, h1],
            by simp [paginateLoop, recorded, hp, h1, Threaded], fun _ => List.cons_ne_nil _ _⟩
        · by_cases h2 : t ∈ seen
          · exact ⟨[⟨token, some t, none⟩], by simp [paginateLoop, recorded, hp, h1, h2],
              by simp [paginateLoop, recorded, hp, h1, h2, Threaded],
              fun _ => List.cons_ne_nil _ _⟩
          · obtain ⟨ext, he1, he2, _⟩ :=
              ih (some t) (t :: seen) s1 (log ++ [⟨token, some t, none⟩])
            refine ⟨⟨token, some t, none⟩ :: ext, ?_, ?_, fun _ => List.cons_ne_nil _ _⟩
            · simp only [paginateLoop, recorded, hp, h1, h2, if_false]
              rw [he1, List.append_assoc, List.singleton_append]
            · simp only [paginateLoop, recorded, hp, h1, h2, if_false, Threaded]
              exact ⟨trivial, he2⟩

theorem threaded_indices (ext : List Call) :
    ∀ (token : Option String) (final : Option GoError), Threaded token final ext →
      (∀ c, ext[0]? = some c → c.arg = token) ∧
      (∀ i a b, ext[i]? = some a → ext[i + 1]? = some b → b.arg = a.token ∧ a.err = none) ∧
      (∀ i a e, ext[i]? = some a → a.err = some e → final = some e ∧ ext.length = i + 1) := by
  induction ext with
  | nil => intro token final _; simp
  | cons c rest ih =>
    intro token final h
    obtain ⟨harg, hrest⟩ := h
    cases herr : c.err with
    | some e =>
      rw [herr] at hrest
      obtain ⟨hnil, hfin⟩ := hrest
      subst hnil
      refine ⟨?_, ?_, ?_⟩
      · intro c0 h0
        simp only [List.getElem?_cons_zero, Option.some.injEq] at h0
        rw [← h0]; exact harg
      · intro i a b _ hb
        simp at hb
      · intro i a e2 ha hae
        cases i with
        | zero =>
          simp only [List.getElem?_cons_zero, Option.some.injEq] at ha
          subst ha
          rw [herr] at hae
          exact ⟨by rw [hfin, hae], rfl⟩
        | succ i => simp at ha
    | none =>
      rw [herr] at hrest
      obtain ⟨ih0, ih1, ih2⟩ := ih c.token final hrest
      refine ⟨?_, ?_, ?_⟩
      · intro c0 h0
        simp only [List.getElem?_cons_zero, Option.some.injEq] at h0
        rw [← h0]; exact harg
      · intro i a b ha hb
        cases i with
        | zero =>
          simp only [List.getElem?_cons_zero, Option.some.injEq] at ha
          subst ha
          simp only [Nat.zero_add, List.getElem?_cons_succ] at hb
          exact ⟨ih0 b hb, herr⟩
        | succ i =>
          simp only [List.getElem?_cons_succ] at ha hb
          exact ih1 i a b ha hb
      · intro i a e ha hae
        cases i with
        | zero =>
          simp only [List.getElem?_cons_zero, Option.some.injEq] at ha
          subst ha
          rw [herr] at hae
          exact Option.noConfusion hae
        | succ i =>
          simp only [List.getElem?_cons_succ] at ha
          obtain ⟨hf, hl⟩ := ih2 i a e ha hae
          exact ⟨hf, by simp [hl]⟩

/-- C19: in the log of the invocations that `paginate` makes, the first
invocation gets an absent cursor, every later invocation gets exactly the
cursor that the invocation before it returned (which returned no error), and
an invocation that returns an error is the last one, its error being the
result of `paginate`; the logged run returns what the plain run returns. -/
theorem paginate_threads {σ : Type} (pageFn : PageFn σ) (s : σ) :
    (∃ c, (paginate (recorded pageFn) (s, [])).1.2[0]? = some c ∧ c.arg = none) ∧
      (∀ i a b, (paginate (recorded pageFn) (s, [])).1.2[i]? = some a →
        (paginate (recorded pageFn) (s, [])).1.2[i + 1]? = some b →
          b.arg = a.token ∧ a.err = none) ∧
      (∀ i a e, (paginate (recorded pageFn) (s, [])).1.2[i]? = some a → a.err = some e →
        (paginate (recorded pageFn) (s, [])).2 = some e ∧
        (paginate pageFn s).2 = some e ∧
        (paginate (recorded pageFn) (s, [])).1.2.length = i + 1) ∧
      (paginate (recorded pageFn) (s, [])).2 = (paginate pageFn s).2 := by
  obtain ⟨ext, he1, he2, he3⟩ := paginateLoop_threaded pageFn PaginationLimit none [] s []
  have hsame : (paginate (recorded pageFn) (s, [])).2 = (paginate pageFn s).2 :=
    (paginateLoop_recorded pageFn PaginationLimit none [] s []).1
  have hlog : (paginate (recorded pageFn) (s, [])).1.2 = ext := by
    unfold paginate
    rw [he1, List.nil_append]
  obtain ⟨h0, h1, h2⟩ := threaded_indices ext none _ he2
  have hne : ext ≠ [] := he3 (by decide)
  rw [hlog]
  refine ⟨?_, h1, ?_, hsame⟩
  · cases hx : ext with
    | nil => exact absurd hx hne
    | cons c rest =>
      refine ⟨c, List.getElem?_cons_zero, ?_⟩
      exact h0 c (by rw [hx]; exact List.getElem?_cons_zero)
  · intro i a e ha hae
    obtain ⟨hf, hl⟩ := h2 i a e ha hae
    have hf2 : (paginate (recorded pageFn) (s, [])).2 = some e := hf
    exact ⟨hf2, by rw [← hsame, hf2], hl⟩

/-- C19, on the cursors "a", "b", "" (the second invocation gets "a") and on a
page function that fails on its second invocation (its error is the result,
after two invocations). -/
theorem paginate_threads_witness :
    ((⟨some "a", some "b", none⟩ : Call).arg = (⟨none, some "a", none⟩ : Call).token ∧
        (⟨none, some "a", none⟩ : Call).err = none) ∧
      ((paginate (recorded failsOnSecond) (0, [])).2 = some ⟨"request failed"⟩ ∧
        (paginate failsOnSecond 0).2 = some ⟨"request failed"⟩ ∧
        (paginate (recorded failsOnSecond) (0, [])).1.2.length = 1 + 1) :=
  ⟨(paginate_threads (scripted [some "a", some "b", some ""]) 0).2.1 0
      ⟨none, some "a", none⟩ ⟨some "a", some "b", none⟩ (by decide) (by decide),
   (paginate_threads failsOnSecond 0).2.2.1 1 ⟨some "a", none, some ⟨"request failed"⟩⟩
      ⟨"request failed"⟩ (by decide) rfl⟩

/-! ## Theorems: `ParseMemoryMib` -/

/-- The result of `ParseMemoryMib` on a non-empty input, in terms of the
pieces of the lower-cased text. -/
theorem ParseMemoryMib_of_parts {F : Type} (ops : Float64Ops F) (caseTable : Char → Char)
    (memory : List Char) (parts : List (List Char)) (hne : memory ≠ [])
    (hparts : Split (ToLower caseTable memory) [' '] = parts) :
    ParseMemoryMib ops caseTable memory =
      match index parts ((parts.length : Int) - 1), index parts 0 with
      | some unit, some first =>
        some (ops.toInt64 (ops.mul (ParseFloat ops first (ops.ofRat 0))
          (if unit = ['m', 'i', 'b'] then ops.ofRat 1 else ops.ofRat 1024)))
      | _, _ => none := by
  subst hparts
  unfold ParseMemoryMib
  rw [if_neg hne]
  rfl

theorem ratOps_exact : ExactIntegers ratOps where
  mul_exact := by
    intro a b _ _ _
    simp [ratOps]
  toInt64_exact := by
    intro a _
    simp [ratOps]

theorem toDigits_nospace (n : Nat) : ' ' ∉ Nat.toDigits 10 n := by
  intro h
  have := (toDigits_properties n).2.1 ' ' h
  revert this
  decide

theorem toDigits_lower (caseTable : Char → Char) (n : Nat) :
    ToLower caseTable (Nat.toDigits 10 n) = Nat.toDigits 10 n :=
  ToLower_numeral caseTable _
    ⟨(toDigits_properties n).1, fun c hc => Or.inl ((toDigits_properties n).2.1 c hc)⟩

/-- C11: when `float64` is exact on integers below 2^53 and `strconv.ParseFloat`
reads the decimal text of `n < 2^40` as `n`, `ParseMemoryMib` maps every casing
of "n GiB" to `1024 * n` and of "n MiB" to `n`; a text "n u" with any other
unit token `u`, and the text "n" alone, give `1024 * n`; the empty string
gives 0. -/
theorem ParseMemoryMib_integer {F : Type} (ops : Float64Ops F) (caseTable : Char → Char)
    (laws : ExactIntegers ops) (n : Nat) (hn : n < 2 ^ 40)
    (hparse : ops.parseFloat (Nat.toDigits 10 n) = some (ops.ofRat (n : ℚ))) :
    (∀ s, ToLower caseTable s = ToLower caseTable (Nat.toDigits 10 n ++ " GiB".toList) →
        ParseMemoryMib ops caseTable s = some (1024 * (n : Int))) ∧
      (∀ s, ToLower caseTable s = ToLower caseTable (Nat.toDigits 10 n ++ " MiB".toList) →
        ParseMemoryMib ops caseTable s = some (n : Int)) ∧
      (∀ s u, ' ' ∉ u → u ≠ "mib".toList →
        ToLower caseTable s = Nat.toDigits 10 n ++ " ".toList ++ u →
        ParseMemoryMib ops caseTable s = some (1024 * (n : Int))) ∧
      (∀ s, ToLower caseTable s = Nat.toDigits 10 n →
        ParseMemoryMib ops caseTable s = some (1024 * (n : Int))) ∧
      ParseMemoryMib ops caseTable [] = some 0 := by
  have hX0 : Nat.toDigits 10 n ≠ [] := (toDigits_properties n).1
  have hXs := toDigits_nospace n
  have hXl := toDigits_lower caseTable n
  have p40 : (2 : Nat) ^ 40 = 1099511627776 := by norm_num
  have p53 : (2 : Nat) ^ 53 = 9007199254740992 := by norm_num
  have hfloat : ParseFloat ops (Nat.toDigits 10 n) (ops.ofRat 0) = ops.ofRat (n : ℚ) := by
    unfold ParseFloat
    rw [if_neg hX0, hparse]
  have hgib : ops.toInt64 (ops.mul (ops.ofRat (n : ℚ)) (ops.ofRat 1024)) = 1024 * (n : Int) := by
    have e : (1024 : ℚ) = ((1024 : Nat) : ℚ) := by norm_num
    rw [e, laws.mul_exact n 1024 (by omega) (by omega) (by omega),
      laws.toInt64_exact (n * 1024) (by omega)]
    push_cast
    ring
  have hmib : ops.toInt64 (ops.mul (ops.ofRat (n : ℚ)) (ops.ofRat 1)) = (n : Int) := by
    have e : (1 : ℚ) = ((1 : Nat) : ℚ) := by norm_num
    rw [e, laws.mul_exact n 1 (by omega) (by omega) (by omega),
      laws.toInt64_exact (n * 1) (by omega)]
    push_cast
    ring
  have hne : ∀ s rest, ToLower caseTable s = Nat.toDigits 10 n ++ rest → s ≠ [] := by
    rintro s rest h rfl
    have h2 : ([] : List Char) = Nat.toDigits 10 n ++ rest := h
    cases hd : Nat.toDigits 10 n with
    | nil => exact hX0 hd
    | cons c cs => rw [hd] at h2; exact List.noConfusion h2
  have hunit : ∀ s u, ' ' ∉ u → ToLower caseTable s = Nat.toDigits 10 n ++ [' '] ++ u →
      ParseMemoryMib ops caseTable s =
        some (ops.toInt64 (ops.mul (ops.ofRat (n : ℚ))
          (if u = ['m', 'i', 'b'] then ops.ofRat 1 else ops.ofRat 1024))) := by
    intro s u hu e
    have e2 : Nat.toDigits 10 n ++ [' '] ++ u = Nat.toDigits 10 n ++ ([' '] ++ u) := by simp
    rw [ParseMemoryMib_of_parts ops caseTable s [Nat.toDigits 10 n, u] (hne s _ (e2 ▸ e))
      (by rw [e]; exact Split_plain _ u hXs hu)]
    simp [index, hfloat]
  refine ⟨?_, ?_, ?_, ?_, ?_⟩
  · intro s hs
    have e : ToLower caseTable s = Nat.toDigits 10 n ++ [' '] ++ ['g', 'i', 'b'] := by
      have e1 : ToLower caseTable " GiB".toList = [' ', 'g', 'i', 'b'] := rfl
      rw [hs, ToLower_append, hXl, e1]
      simp
    rw [hunit s _ (by decide) e, if_neg (by decide), hgib]
  · intro s hs
    have e : ToLower caseTable s = Nat.toDigits 10 n ++ [' '] ++ ['m', 'i', 'b'] := by
      have e1 : ToLower caseTable " MiB".toList = [' ', 'm', 'i', 'b'] := rfl
      rw [hs, ToLower_append, hXl, e1]
      simp
    rw [hunit s _ (by decide) e, if_pos rfl, hmib]
  · intro s u hu hmibne e
    have hmibne2 : ¬ u = ['m', 'i', 'b'] := hmibne
    rw [hunit s u hu e, if_neg hmibne2, hgib]
  · intro s e
    have e2 : ToLower caseTable s = Nat.toDigits 10 n ++ [] := by simpa using e
    rw [ParseMemoryMib_of_parts ops caseTable s [Nat.toDigits 10 n] (hne s _ e2)
      (by rw [e]; exact Split_space_nospace _ hXs)]
    have hd : Nat.toDigits 10 n ≠ ['m', 'i', 'b'] := by
      intro h
      have := (toDigits_properties n).2.1 'm' (by rw [h]; simp)
      revert this
      decide
    simp [index, hfloat, hd, hgib]
  · simp [ParseMemoryMib]

theorem parseDecimal_16 : parseDecimal (Nat.toDigits 10 16) = some ((16 : Nat) : ℚ) := by
  have e : Nat.toDigits 10 16 = ['1', '6'] := by decide
  rw [e]
  simp [parseDecimal, digitsValue, Char.isDigit]

theorem parseDecimal_512 : parseDecimal (Nat.toDigits 10 512) = some ((512 : Nat) : ℚ) := by
  have e : Nat.toDigits 10 512 = ['5', '1', '2'] := by decide
  rw [e]
  simp [parseDecimal, digitsValue, Char.isDigit]

/-- C11, on "16 GiB", "512 MiB", "16" and the empty string. -/
theorem ParseMemoryMib_integer_witness :
    ParseMemoryMib ratOps id "16 GiB".toList = some 16384 ∧
      ParseMemoryMib ratOps id "512 MiB".toList = some 512 ∧
      ParseMemoryMib ratOps id "16".toList = some 16384 ∧
      ParseMemoryMib ratOps id [] = some 0 :=
  ⟨(ParseMemoryMib_integer ratOps id ratOps_exact 16 (by norm_num) parseDecimal_16).1
      "16 GiB".toList (by decide),
   (ParseMemoryMib_integer ratOps id ratOps_exact 512 (by norm_num) parseDecimal_512).2.1
      "512 MiB".toList (by decide),
   (ParseMemoryMib_integer ratOps id ratOps_exact 16 (by norm_num) parseDecimal_16).2.2.2.1
      "16".toList (by decide),
   (ParseMemoryMib_integer ratOps id ratOps_exact 16 (by norm_num) parseDecimal_16).2.2.2.2⟩

/-! ## Theorems: the invariant of `Range` -/

/-- C16 (counterexample): "Up to -5 GHz" gives the clock-speed range [0, -5]
and "Up to -5 Gigabit" the network range [0, -5]; in both `min` is not -1 and
`min ≤ max` fails. -/
theorem Range_negative_magnitude_counterexample :
    ParseClockSpeed ratOps id "Up to -5 GHz".toList =
        some { Unit := "ghz".toList, Min := 0, Max := -5 } ∧
      NetworkPerformance.UnmarshalJSON ratOps id ⟨[], 0, 0, []⟩ "Up to -5 Gigabit".toList =
        some { Unit := "Gbps".toList, Min := 0, Max := -5,
               Description := "up to -5 gigabit".toList } ∧
      ¬ RangeInvariant ratOps (fun a b => a ≤ b) (0 : ℚ) (-5) := by
  have hp : parseDecimal ['-', '5'] = some (-5) := by
    simp [parseDecimal, digitsValue, Char.isDigit]
  refine ⟨?_, ?_, ?_⟩
  · rw [ParseClockSpeed_of_parts ratOps id "Up to -5 GHz".toList
      ["up".toList, "to".toList, "-5".toList, "ghz".toList] (by decide) (by decide)]
    simp [index, ParseFloat, ratOps, hp]
  · have h := (NetworkPerformance_forms ratOps id ⟨[], 0, 0, []⟩ "-5".toList "gigabit".toList
      (-5) (by decide) hp (by simp [ratOps]) (by decide)
      "Up to -5 Gigabit".toList).1 (by decide)
    rw [if_neg (by decide)] at h
    exact h
  · simp [RangeInvariant, ratOps]

/-- The tiers of `NetworkPerformance.UnmarshalJSON`, for a lower-cased text
`str` that is not empty. -/
theorem NetworkPerformance_tier_cases {F : Type} (ops : Float64Ops F) (caseTable : Char → Char)
    (p : NetworkPerformance F) (s : List Char) (hs : s ≠ []) :
    (ToLower caseTable s = "very low".toList →
        NetworkPerformance.UnmarshalJSON ops caseTable p s =
          some { Unit := "Gbps".toList, Min := ops.ofRat 0, Max := ops.ofRat (50.0 / 1000.0),
                 Description := ToLower caseTable s }) ∧
      (ToLower caseTable s = "low".toList →
        NetworkPerformance.UnmarshalJSON ops caseTable p s =
          some { Unit := "Gbps".toList, Min := ops.ofRat (50.0 / 1000.0),
                 Max := ops.ofRat (300.0 / 1000.0), Description := ToLower caseTable s }) ∧
      (ToLower caseTable s = "moderate".toList →
        NetworkPerformance.UnmarshalJSON ops caseTable p s =
          some { Unit := "Gbps".toList, Min := ops.ofRat (300.0 / 1000.0),
                 Max := ops.ofRat (900.0 / 1000.0), Description := ToLower caseTable s }) ∧
      (ToLower caseTable s = "low to moderate".toList →
        NetworkPerformance.UnmarshalJSON ops caseTable p s =
          some { Unit := "Gbps".toList, Min := ops.ofRat (50.0 / 1000.0),
                 Max := ops.ofRat (900.0 / 1000.0), Description := ToLower caseTable s }) ∧
      (ToLower caseTable s = "high".toList →
        NetworkPerformance.UnmarshalJSON ops caseTable p s =
          some { Unit := "Gbps".toList, Min := ops.ofRat (900.0 / 1000.0),
                 Max := ops.ofRat (2200.0 / 1000.0), Description := ToLower caseTable s }) := by
  refine ⟨?_, ?_, ?_, ?_, ?_⟩ <;>
  · intro h
    unfold NetworkPerformance.UnmarshalJSON
    rw [if_neg hs]
    simp only [h]
    rfl

/-- The sentinel of `NetworkPerformance.UnmarshalJSON`, for a lower-cased text
that is a single token and not a tier. -/
theorem NetworkPerformance_single_token {F : Type} (ops : Float64Ops F)
    (caseTable : Char → Char) (p : NetworkPerformance F) (s : List Char)
    (h0 : ToLower caseTable s ≠ [])
    (h1 : ToLower caseTable s ≠ "very low".toList) (h2 : ToLower caseTable s ≠ "low".toList)
    (h3 : ToLower caseTable s ≠ "moderate".toList)
    (h4 : ToLower caseTable s ≠ "low to moderate".toList)
    (h5 : ToLower caseTable s ≠ "high".toList) (h6 : ToLower caseTable s ≠ "na".toList)
    (hlen : (Split (ToLower caseTable s) [' ']).length < 2) :
    NetworkPerformance.UnmarshalJSON ops caseTable p s =
      some { Unit := [], Min := ops.ofRat (-1), Max := ops.ofRat (-1),
             Description := ToLower caseTable s } := by
  have hs0 : s ≠ [] := by
    rintro rfl
    exact h0 rfl
  unfold NetworkPerformance.UnmarshalJSON
  rw [if_neg hs0]
  simp only [if_neg h0, if_neg h1, if_neg h2, if_neg h3, if_neg h4, if_neg h5, if_neg h6]
  have hsp : (" ".toList : List Char) = [' '] := rfl
  rw [hsp, if_pos hlen]

/-- C16 (amended): let `le` be the order of `float64`, with the conversion of
constants monotone and 0/1000 = 0. Whenever `ParseClockSpeed` returns a range,
or `NetworkPerformance.UnmarshalJSON` sets one (the input is neither empty nor
a casing of "na"), and `max` is a number (`max ≤ max`), the range has
`min = -1` or `min ≤ max`, provided that for an input that starts with the
tokens "up to" the magnitude is not negative (`0 ≤ max`). -/
theorem Range_invariant {F : Type} (ops : Float64Ops F) (caseTable : Char → Char)
    (le : F → F → Prop)
    (hle : ∀ a b : ℚ, a ≤ b → le (ops.ofRat a) (ops.ofRat b))
    (hz : ops.div (ops.ofRat 0) (ops.ofRat 1000) = ops.ofRat 0) (s : List Char) :
    (∀ r, ParseClockSpeed ops caseTable s = some r → le r.Max r.Max →
        (IsUpTo caseTable s → le (ops.ofRat 0) r.Max) →
        RangeInvariant ops le r.Min r.Max) ∧
      (∀ p r, s ≠ [] → ToLower caseTable s ≠ "na".toList →
        NetworkPerformance.UnmarshalJSON ops caseTable p s = some r → le r.Max r.Max →
        (IsUpTo caseTable s → le (ops.ofRat 0) r.Max) →
        RangeInvariant ops le r.Min r.Max) := by
  have hsp : (" ".toList : List Char) = [' '] := rfl
  constructor
  · intro r hr hmax hup
    by_cases hs : s = []
    · subst hs
      have e : ParseClockSpeed ops caseTable [] = some ⟨[], ops.ofRat 0, ops.ofRat 0⟩ := rfl
      rw [e] at hr
      have e2 := Option.some.inj hr
      subst e2
      exact Or.inr (hle 0 0 (le_refl 0))
    · rw [ParseClockSpeed_of_parts ops caseTable s _ hs rfl] at hr
      cases hu : index (Split (ToLower caseTable s) [' '])
          (((Split (ToLower caseTable s) [' ']).length : Int) - 1) with
      | none => rw [hu] at hr; exact Option.noConfusion hr
      | some unit =>
        cases hm : index (Split (ToLower caseTable s) [' '])
            (((Split (ToLower caseTable s) [' ']).length : Int) - 2) with
        | none => rw [hu, hm] at hr; exact Option.noConfusion hr
        | some magnitude =>
          cases h0 : index (Split (ToLower caseTable s) [' ']) 0 with
          | none => rw [hu, hm, h0] at hr; exact Option.noConfusion hr
          | some p0 =>
            cases h1 : index (Split (ToLower caseTable s) [' ']) 1 with
            | none => rw [hu, hm, h0, h1] at hr; exact Option.noConfusion hr
            | some p1 =>
              rw [hu, hm, h0, h1] at hr
              simp only [] at hr
              by_cases hc : p0 = ['u', 'p'] ∧ p1 = ['t', 'o']
              · rw [if_pos hc] at hr
                have e2 := Option.some.inj hr
                subst e2
                have hupto : IsUpTo caseTable s := by
                  unfold IsUpTo
                  rw [hsp, h0, h1, hc.1, hc.2]
                  exact ⟨rfl, rfl⟩
                exact Or.inr (hup hupto)
              · rw [if_neg hc] at hr
                have e2 := Option.some.inj hr
                subst e2
                exact Or.inr hmax
  · intro p r hs hna hr hmax hup
    have h0 : ToLower caseTable s ≠ [] := fun e => hs ((ToLower_eq_nil caseTable s).mp e)
    obtain ⟨t1, t2, t3, t4, t5⟩ := NetworkPerformance_tier_cases ops caseTable p s hs
    by_cases h1 : ToLower caseTable s = "very low".toList
    · rw [t1 h1] at hr
      have e2 := Option.some.inj hr
      subst e2
      exact Or.inr (hle _ _ (by norm_num))
    by_cases h2 : ToLower caseTable s = "low".toList
    · rw [t2 h2] at hr
      have e2 := Option.some.inj hr
      subst e2
      exact Or.inr (hle _ _ (by norm_num))
    by_cases h3 : ToLower caseTable s = "moderate".toList
    · rw [t3 h3] at hr
      have e2 := Option.some.inj hr
      subst e2
      exact Or.inr (hle _ _ (by norm_num))
    by_cases h4 : ToLower caseTable s = "low to moderate".toList
    · rw [t4 h4] at hr
      have e2 := Option.some.inj hr
      subst e2
      exact Or.inr (hle _ _ (by norm_num))
    by_cases h5 : ToLower caseTable s = "high".toList
    · rw [t5 h5] at hr
      have e2 := Option.some.inj hr
      subst e2
      exact Or.inr (hle _ _ (by norm_num))
    by_cases hlen : (Split (ToLower caseTable s) [' ']).length < 2
    · rw [NetworkPerformance_single_token ops caseTable p s h0 h1 h2 h3 h4 h5 hna hlen] at hr
      have e2 := Option.some.inj hr
      subst e2
      exact Or.inr (hle _ _ (le_refl _))
    rw [NetworkPerformance_of_parts ops caseTable p s _ _ rfl h0 h1 h2 h3 h4 h5 hna rfl hlen]
      at hr
    cases hm : index (Split (ToLower caseTable s) [' '])
        (((Split (ToLower caseTable s) [' ']).length : Int) - 2) with
    | none => rw [hm] at hr; exact Option.noConfusion hr
    | some magnitude =>
      rw [hm] at hr
      simp only [] at hr
      by_cases hv : ops.eq (ParseFloat ops magnitude (ops.ofRat (-1))) (ops.ofRat (-1)) = true
      · rw [if_pos hv] at hr
        have e2 := Option.some.inj hr
        subst e2
        exact Or.inl hv
      · rw [if_neg hv] at hr
        cases i0 : index (Split (ToLower caseTable s) [' ']) 0 with
        | none => rw [i0] at hr; exact Option.noConfusion hr
        | some p0 =>
          cases i1 : index (Split (ToLower caseTable s) [' ']) 1 with
          | none => rw [i0, i1] at hr; exact Option.noConfusion hr
          | some p1 =>
            cases iu : index (Split (ToLower caseTable s) [' '])
                (((Split (ToLower caseTable s) [' ']).length : Int) - 1) with
            | none => rw [i0, i1, iu] at hr; exact Option.noConfusion hr
            | some unit =>
              rw [i0, i1, iu] at hr
              simp only [] at hr
              have hupto : p0 = "up".toList ∧ p1 = "to".toList → IsUpTo caseTable s := by
                intro hc
                unfold IsUpTo
                rw [hsp, i0, i1, hc.1, hc.2]
                exact ⟨rfl, rfl⟩
              by_cases hu : unit = "megabit".toList ∨ unit = "mbps".toList
              · rw [if_pos hu] at hr
                have e2 := Option.some.inj hr
                subst e2
                by_cases hc : p0 = "up".toList ∧ p1 = "to".toList
                · simp only [if_pos hc, hz]
                  exact Or.inr (hup (hupto hc))
                · simp only [if_neg hc]
                  exact Or.inr hmax
              · rw [if_neg hu] at hr
                have e2 := Option.some.inj hr
                subst e2
                by_cases hc : p0 = "up".toList ∧ p1 = "to".toList
                · simp only [if_pos hc]
                  exact Or.inr (hup (hupto hc))
                · simp only [if_neg hc]
                  exact Or.inr hmax

theorem ParseClockSpeed_example :
    ParseClockSpeed ratOps id "Up to 3.5 GHz".toList =
      some { Unit := "ghz".toList, Min := 0, Max := 3.5 } := by
  rw [ParseClockSpeed_of_parts ratOps id "Up to 3.5 GHz".toList
    ["up".toList, "to".toList, "3.5".toList, "ghz".toList] (by decide) (by decide)]
  have hp : parseDecimal ['3', '.', '5'] = some 3.5 := parseDecimal_3_5
  simp [index, ParseFloat, ratOps, hp]

theorem NetworkPerformance_example :
    NetworkPerformance.UnmarshalJSON ratOps id ⟨[], 0, 0, []⟩ "750 Megabit".toList =
      some { Unit := "Gbps".toList, Min := 750 / 1000, Max := 750 / 1000,
             Description := "750 megabit".toList } := by
  have h := (NetworkPerformance_forms ratOps id ⟨[], 0, 0, []⟩ "750".toList "megabit".toList
    750 (by decide) parseDecimal_750 (by simp [ratOps]; norm_num) (by decide)
    "750 Megabit".toList).2 (by decide)
  rw [if_pos (Or.inl rfl)] at h
  exact h

/-- C16 (amended), on "Up to 3.5 GHz" (the range [0, 3.5]) and "750 Megabit"
(the range [0.75, 0.75]), over exact rationals. -/
theorem Range_invariant_witness :
    RangeInvariant ratOps (fun a b => a ≤ b) (0 : ℚ) 3.5 ∧
      RangeInvariant ratOps (fun a b => a ≤ b) (750 / 1000 : ℚ) (750 / 1000) :=
  ⟨(Range_invariant ratOps id (fun a b => a ≤ b) (fun _ _ h => h) (by simp [ratOps])
      "Up to 3.5 GHz".toList).1 _ ParseClockSpeed_example (le_refl _)
      (fun _ => by simp [ratOps]; norm_num),
   (Range_invariant ratOps id (fun a b => a ≤ b) (fun _ _ h => h) (by simp [ratOps])
      "750 Megabit".toList).2 ⟨[], 0, 0, []⟩ _ (by decide) (by decide)
      NetworkPerformance_example (le_refl _)
      (fun h => absurd h.1 (by decide))⟩

/-! ## Theorems: `strings.Split` on "; " -/

theorem splitScan_semi_at (rest cur : List Char) :
    splitScan [';', ' '] (';' :: ' ' :: rest) 0 cur =
      cur.reverse :: splitScan [';', ' '] rest 0 [] := by
  simp [splitScan, List.isPrefixOf]

theorem splitScan_semi_other (c : Char) (cs cur : List Char)
    (h : ¬ (c = ';' ∧ cs.head? = some ' ')) :
    splitScan [';', ' '] (c :: cs) 0 cur = splitScan [';', ' '] cs 0 (c :: cur) := by
  have hp : [';', ' '].isPrefixOf (c :: cs) = false := by
    cases cs with
    | nil => simp [List.isPrefixOf]
    | cons d ds =>
      simp only [List.head?_cons, Option.some.injEq] at h
      simp only [List.isPrefixOf, Bool.and_true, Bool.and_eq_false_imp, beq_iff_eq,
        beq_eq_false_iff_ne]
      intro e1 e2
      exact h ⟨e1.symm, e2.symm⟩
  simp [splitScan, hp]

theorem splitScan_semi_cases (s : List Char) :
    (∃ rest, s = ';' :: ' ' :: rest) ∨ s = [] ∨
      ∃ c cs, s = c :: cs ∧ ¬ (c = ';' ∧ cs.head? = some ' ') := by
  cases s with
  | nil => exact Or.inr (Or.inl rfl)
  | cons c cs =>
    by_cases h : c = ';' ∧ cs.head? = some ' '
    · obtain ⟨h1, h2⟩ := h
      cases cs with
      | nil => simp at h2
      | cons d ds =>
        simp only [List.head?_cons, Option.some.injEq] at h2
        subst h1 h2
        exact Or.inl ⟨ds, rfl⟩
    · exact Or.inr (Or.inr ⟨c, cs, rfl, h⟩)

theorem splitScan_semi_ne_nil (n : Nat) :
    ∀ s cur : List Char, s.length ≤ n → splitScan [';', ' '] s 0 cur ≠ [] := by
  induction n with
  | zero =>
    intro s cur h
    have hs : s = [] := List.length_eq_zero.mp (Nat.le_zero.mp h)
    subst hs
    simp [splitScan]
  | succ n ih =>
    intro s cur h
    rcases splitScan_semi_cases s with ⟨rest, rfl⟩ | rfl | ⟨c, cs, rfl, hc⟩
    · rw [splitScan_semi_at]
      exact List.cons_ne_nil _ _
    · simp [splitScan]
    · rw [splitScan_semi_other c cs cur hc]
      exact ih cs _ (by simpa using h)

/-- Joining the pieces with "; " gives the text back. -/
theorem splitScan_semi_join (n : Nat) :
    ∀ s cur : List Char, s.length ≤ n →
      [';', ' '].intercalate (splitScan [';', ' '] s 0 cur) = cur.reverse ++ s := by
  induction n using Nat.strong_induction_on with
  | _ n ih =>
    intro s cur h
    rcases splitScan_semi_cases s with ⟨rest, rfl⟩ | rfl | ⟨c, cs, rfl, hc⟩
    · rw [splitScan_semi_at]
      have hlen : rest.length < n := by
        simp only [List.length_cons] at h
        omega
      have hrest := ih rest.length hlen rest [] (le_refl _)
      have hne := splitScan_semi_ne_nil rest.length rest [] (le_refl _)
      cases hl : splitScan [';', ' '] rest 0 [] with
      | nil => exact absurd hl hne
      | cons p ps =>
        rw [hl] at hrest
        simp only [List.intercalate, List.intersperse_cons_cons, List.flatten_cons] at hrest ⊢
        rw [hrest]
        simp
    · simp [splitScan, List.intercalate]
    · rw [splitScan_semi_other c cs cur hc]
      have hlen : cs.length < n := by
        simp only [List.length_cons] at h
        omega
      rw [ih cs.length hlen cs (c :: cur) (le_refl _)]
      simp

/-- No piece contains "; ". -/
theorem splitScan_semi_pieces (n : Nat) :
    ∀ s cur : List Char, s.length ≤ n → ¬ [' ', ';'] <:+: cur →
      ¬ (cur.head? = some ';' ∧ s.head? = some ' ') →
      ∀ p ∈ splitScan [';', ' '] s 0 cur, ¬ [';', ' '] <:+: p := by
  induction n using Nat.strong_induction_on with
  | _ n ih =>
    intro s cur h hcur hedge p hp
    have hrev : ¬ [';', ' '] <:+: cur.reverse := by
      intro hi
      have := List.reverse_infix.mpr hi
      simp only [List.reverse_reverse] at this
      exact hcur this
    rcases splitScan_semi_cases s with ⟨rest, rfl⟩ | rfl | ⟨c, cs, rfl, hc⟩
    · rw [splitScan_semi_at, List.mem_cons] at hp
      rcases hp with rfl | hp
      · exact hrev
      · have hlen : rest.length < n := by
          simp only [List.length_cons] at h
          omega
        exact ih rest.length hlen rest [] (le_refl _) (by simp) (by simp) p hp
    · simp only [splitScan, List.mem_singleton] at hp
      subst hp
      exact hrev
    · rw [splitScan_semi_other c cs cur hc] at hp
      have hlen : cs.length < n := by
        simp only [List.length_cons] at h
        omega
      refine ih cs.length hlen cs (c :: cur) (le_refl _) ?_ ?_ p hp
      · intro hi
        rcases List.infix_cons_iff.mp hi with hpre | hin
        · obtain ⟨t, ht⟩ := hpre
          simp only [List.cons_append, List.nil_append, List.cons.injEq] at ht
          obtain ⟨h1, h2⟩ := ht
          apply hedge
          constructor
          · rw [← h2]; rfl
          · rw [← h1]; rfl
        · exact hcur hin
      · simpa using hc

/-! ## Theorems: the field decoders return -/

theorem splitScan_space_ne_nil (s : List Char) :
    ∀ cur : List Char, splitScan [' '] s 0 cur ≠ [] := by
  induction s with
  | nil => intro cur; simp [splitScan]
  | cons c cs ih =>
    intro cur
    by_cases hc : ' ' = c
    · subst hc
      simp [splitScan, List.isPrefixOf]
    · simp [splitScan, List.isPrefixOf, hc, ih (c :: cur)]

theorem Split_space_ne_nil (s : List Char) : Split s [' '] ≠ [] := by
  simp [Split, splitScan_space_ne_nil s []]

theorem index_some {α : Type} (xs : List α) (i : Nat) (h : i < xs.length) :
    ∃ x, index xs (i : Int) = some x := by
  refine ⟨xs.get ⟨i, h⟩, ?_⟩
  unfold index
  rw [if_pos ⟨Int.ofNat_nonneg i, by exact_mod_cast h⟩]
  simp [List.getElem?_eq_getElem h]

theorem index_last {α : Type} (xs : List α) (k : Nat) (h : k ≤ xs.length) (hk : 0 < k) :
    ∃ x, index xs ((xs.length : Int) - (k : Int)) = some x := by
  have e : (xs.length : Int) - (k : Int) = ((xs.length - k : Nat) : Int) := by omega
  rw [e]
  exact index_some xs (xs.length - k) (by omega)

/-- The call `ParseMemoryMib` returns on every input. -/
theorem ParseMemoryMib_total {F : Type} (ops : Float64Ops F) (caseTable : Char → Char)
    (memory : List Char) : ∃ m, ParseMemoryMib ops caseTable memory = some m := by
  by_cases hne : memory = []
  · exact ⟨0, by simp [ParseMemoryMib, hne]⟩
  · rw [ParseMemoryMib_of_parts ops caseTable memory _ hne rfl]
    have hlen : 0 < (Split (ToLower caseTable memory) [' ']).length :=
      List.length_pos.mpr (Split_space_ne_nil _)
    obtain ⟨u, hu⟩ := index_last (Split (ToLower caseTable memory) [' ']) 1 hlen (by decide)
    obtain ⟨f, hf⟩ := index_some (Split (ToLower caseTable memory) [' ']) 0 hlen
    have hu2 : index (Split (ToLower caseTable memory) [' '])
        (((Split (ToLower caseTable memory) [' ']).length : Int) - 1) = some u := hu
    have hf2 : index (Split (ToLower caseTable memory) [' ']) 0 = some f := hf
    rw [hu2, hf2]
    exact ⟨_, rfl⟩

/-- The decoder `NetworkPerformance.UnmarshalJSON` returns on every input. -/
theorem NetworkPerformance_total {F : Type} (ops : Float64Ops F) (caseTable : Char → Char)
    (p : NetworkPerformance F) (s : List Char) :
    ∃ r, NetworkPerformance.UnmarshalJSON ops caseTable p s = some r := by
  by_cases hs : s = []
  · exact ⟨p, by simp [NetworkPerformance.UnmarshalJSON, hs]⟩
  have h0 : ToLower caseTable s ≠ [] := fun e => hs ((ToLower_eq_nil caseTable s).mp e)
  obtain ⟨t1, t2, t3, t4, t5⟩ := NetworkPerformance_tier_cases ops caseTable p s hs
  by_cases h1 : ToLower caseTable s = "very low".toList
  · exact ⟨_, t1 h1⟩
  by_cases h2 : ToLower caseTable s = "low".toList
  · exact ⟨_, t2 h2⟩
  by_cases h3 : ToLower caseTable s = "moderate".toList
  · exact ⟨_, t3 h3⟩
  by_cases h4 : ToLower caseTable s = "low to moderate".toList
  · exact ⟨_, t4 h4⟩
  by_cases h5 : ToLower caseTable s = "high".toList
  · exact ⟨_, t5 h5⟩
  by_cases h6 : ToLower caseTable s = "na".toList
  · refine ⟨p, ?_⟩
    unfold NetworkPerformance.UnmarshalJSON
    rw [if_neg hs]
    simp only [h6]
    rfl
  by_cases hlen : (Split (ToLower caseTable s) [' ']).length < 2
  · exact ⟨_, NetworkPerformance_single_token ops caseTable p s h0 h1 h2 h3 h4 h5 h6 hlen⟩
  rw [NetworkPerformance_of_parts ops caseTable p s _ _ rfl h0 h1 h2 h3 h4 h5 h6 rfl hlen]
  have hl2 : 2 ≤ (Split (ToLower caseTable s) [' ']).length := by omega
  obtain ⟨m, hm⟩ := index_last (Split (ToLower caseTable s) [' ']) 2 hl2 (by decide)
  obtain ⟨u, hu⟩ := index_last (Split (ToLower caseTable s) [' ']) 1 (by omega) (by decide)
  obtain ⟨a, ha⟩ := index_some (Split (ToLower caseTable s) [' ']) 0 (by omega)
  obtain ⟨b, hb⟩ := index_some (Split (ToLower caseTable s) [' ']) 1 (by omega)
  have hm2 : index (Split (ToLower caseTable s) [' '])
      (((Split (ToLower caseTable s) [' ']).length : Int) - 2) = some m := hm
  have hu2 : index (Split (ToLower caseTable s) [' '])
      (((Split (ToLower caseTable s) [' ']).length : Int) - 1) = some u := hu
  have ha2 : index (Split (ToLower caseTable s) [' ']) 0 = some a := ha
  have hb2 : index (Split (ToLower caseTable s) [' ']) 1 = some b := hb
  rw [hm2, ha2, hb2, hu2]
  simp only []
  by_cases hv : ops.eq (ParseFloat ops m (ops.ofRat (-1))) (ops.ofRat (-1)) = true
  · rw [if_pos hv]; exact ⟨_, rfl⟩
  · rw [if_neg hv]
    by_cases hunit : u = "megabit".toList ∨ u = "mbps".toList
    · rw [if_pos hunit]; exact ⟨_, rfl⟩
    · rw [if_neg hunit]; exact ⟨_, rfl⟩

theorem FindStringSubmatch_shape (re : Regex) (str : List Char) (m : List (List Char))
    (hm : FindStringSubmatch re str = some m) :
    ∃ w m1 m2 m3 m4, m = [w, m1, m2, m3, m4] := by
  unfold FindStringSubmatch at hm
  cases hx : re.exec 0 str [] (fun pos _ caps => some ((0, str.take pos) :: caps)) with
  | none => rw [hx] at hm; exact Option.noConfusion hm
  | some caps =>
    rw [hx] at hm
    have e := Option.some.inj hm
    have hr : List.range 5 = [0, 1, 2, 3, 4] := by decide
    rw [hr] at e
    exact ⟨_, _, _, _, _, e.symm⟩

/-- The result of `InstanceStorage.UnmarshalJSON` when `storagePattern`
matches. -/
theorem InstanceStorage_of_match (caseTable : Char → Char) (s : InstanceStorage)
    (str w m1 m2 m3 m4 : List Char) (h1 : str ≠ []) (h2 : str ≠ "EBS Only".toList)
    (hm : FindStringSubmatch storagePattern str = some [w, m1, m2, m3, m4]) :
    InstanceStorage.UnmarshalJSON caseTable s str =
      some (if ToLower caseTable m3 = ['g', 'b'] then
        { Amount := ParseInt m1 1, SizeMB := wrapInt64 (ParseInt m2 0 * 1000), Type_ := m4 }
      else { Amount := ParseInt m1 1, SizeMB := ParseInt m2 0, Type_ := m4 }) := by
  unfold InstanceStorage.UnmarshalJSON
  rw [if_neg h1, if_neg h2, hm]
  by_cases h3 : ToLower caseTable m3 = ['g', 'b']
  · simp [index, h3]
  · simp [index, h3]

/-- The decoder `InstanceStorage.UnmarshalJSON` returns on every input. -/
theorem InstanceStorage_total (caseTable : Char → Char) (s : InstanceStorage)
    (str : List Char) : ∃ r, InstanceStorage.UnmarshalJSON caseTable s str = some r := by
  by_cases h1 : str = []
  · exact ⟨s, by simp [InstanceStorage.UnmarshalJSON, h1]⟩
  by_cases h2 : str = "EBS Only".toList
  · exact ⟨_, by
      unfold InstanceStorage.UnmarshalJSON
      rw [if_neg h1, if_pos h2]⟩
  cases hm : FindStringSubmatch storagePattern str with
  | none =>
    exact ⟨_, by
      unfold InstanceStorage.UnmarshalJSON
      rw [if_neg h1, if_neg h2, hm]⟩
  | some m =>
    obtain ⟨w, m1, m2, m3, m4, rfl⟩ := FindStringSubmatch_shape _ _ _ hm
    exact ⟨_, InstanceStorage_of_match caseTable s str w m1 m2 m3 m4 h1 h2 hm⟩

/-! ## Theorems: `ProductAttributes.UnmarshalJSON` -/

theorem foldName_jsonName (foldTable : Char → Char) (f : RawField) :
    foldName foldTable f.jsonName = foldName id f.jsonName := by
  cases f <;> rfl

theorem jsonName_folded_injective (f g : RawField)
    (h : foldName id g.jsonName = foldName id f.jsonName) : g = f := by
  cases f <;> cases g <;> first | rfl | exact absurd h (by decide)

theorem find_folded (f : RawField) :
    rawFields.find? (fun g => foldName id g.jsonName = foldName id f.jsonName) = some f := by
  cases f <;> rfl

/-- A key selects a field exactly when it equals the JSON name of the field
under case folding. -/
theorem fieldFor_iff (foldTable : Char → Char) (key : String) (f : RawField) :
    fieldFor foldTable key = some f ↔
      foldName foldTable key = foldName foldTable f.jsonName := by
  unfold fieldFor
  constructor
  · intro h
    cases hex : rawFields.find? (fun f => f.jsonName = key) with
    | some g =>
      rw [hex] at h
      have hg := List.find?_some hex
      simp only [decide_eq_true_eq] at hg
      have e : g = f := Option.some.inj h
      rw [← e, hg]
    | none =>
      rw [hex] at h
      have hg := List.find?_some h
      simp only [decide_eq_true_eq] at hg
      exact hg.symm
  · intro h
    cases hex : rawFields.find? (fun f => f.jsonName = key) with
    | some g =>
      have hg := List.find?_some hex
      simp only [decide_eq_true_eq] at hg
      have e : foldName id g.jsonName = foldName id f.jsonName := by
        rw [← foldName_jsonName foldTable g, ← foldName_jsonName foldTable f, hg, h]
      rw [jsonName_folded_injective f g e]
    | none =>
      simp only [h, foldName_jsonName]
      exact find_folded f

theorem fieldFor_jsonName (foldTable : Char → Char) (f : RawField) :
    fieldFor foldTable f.jsonName = some f :=
  (fieldFor_iff foldTable f.jsonName f).2 rfl

theorem lastValue_skip (foldTable : Char → Char) (field : RawField) :
    ∀ (attrs : List (String × List Char)) (cur : List Char),
      (∀ m ∈ attrs, fieldFor foldTable m.1 ≠ some field) →
      lastValue foldTable field attrs cur = cur := by
  intro attrs
  induction attrs with
  | nil => intro cur _; rfl
  | cons m rest ih =>
    intro cur h
    obtain ⟨key, value⟩ := m
    rw [lastValue, if_neg (h (key, value) (List.mem_cons_self _ _))]
    exact ih cur (fun m hm => h m (List.mem_cons_of_mem _ hm))

theorem lastValue_last (foldTable : Char → Char) (field : RawField) (key : String)
    (value : List Char) (post : List (String × List Char))
    (hkey : fieldFor foldTable key = some field)
    (hpost : ∀ m ∈ post, fieldFor foldTable m.1 ≠ some field) :
    ∀ (pre : List (String × List Char)) (cur : List Char),
      lastValue foldTable field (pre ++ (key, value) :: post) cur = value := by
  intro pre
  induction pre with
  | nil =>
    intro cur
    rw [List.nil_append, lastValue, if_pos hkey]
    exact lastValue_skip foldTable field post value hpost
  | cons m rest ih =>
    intro cur
    obtain ⟨k, v⟩ := m
    rw [List.cons_append, lastValue]
    exact ih _

theorem storeField_total {F : Type} (ops : Float64Ops F) (caseTable : Char → Char)
    (raw : Raw F) (value : List Char) (field : RawField) :
    ∃ r, storeField ops caseTable raw value field = some r := by
  cases field
  case Storage =>
    obtain ⟨s, hs⟩ := InstanceStorage_total caseTable raw.ProductAttributes.Storage value
    simp only [storeField, hs]
    exact ⟨_, rfl⟩
  case DedicatedEBSThroughputGbps =>
    obtain ⟨s, hs⟩ := NetworkPerformance_total ops caseTable
      raw.ProductAttributes.DedicatedEBSThroughputGbps value
    simp only [storeField, hs]
    exact ⟨_, rfl⟩
  all_goals exact ⟨_, rfl⟩

/-- What storing one member changes: the network performance of the embedded
struct never, the string fields `ProcessorFeatures` and `ClockSpeed` only
when they are the field, and an error is saved only at the field
`UnmarshalJSON`. -/
theorem storeField_effect {F : Type} (ops : Float64Ops F) (caseTable : Char → Char)
    (raw raw1 : Raw F) (value : List Char) (field : RawField) (err : Option GoError)
    (h : storeField ops caseTable raw value field = some (raw1, err)) :
    raw1.ProductAttributes.NetworkPerformanceGbps =
        raw.ProductAttributes.NetworkPerformanceGbps ∧
      raw1.ProcessorFeatures =
        (if field = RawField.ProcessorFeatures then value else raw.ProcessorFeatures) ∧
      raw1.ClockSpeed = (if field = RawField.ClockSpeed then value else raw.ClockSpeed) ∧
      (err = none ↔ field ≠ RawField.UnmarshalJSON) := by
  cases field
  case Storage =>
    obtain ⟨s, hs⟩ := InstanceStorage_total caseTable raw.ProductAttributes.Storage value
    simp only [storeField, hs, Option.some.injEq, Prod.mk.injEq] at h
    obtain ⟨rfl, rfl⟩ := h
    simp
  case DedicatedEBSThroughputGbps =>
    obtain ⟨s, hs⟩ := NetworkPerformance_total ops caseTable
      raw.ProductAttributes.DedicatedEBSThroughputGbps value
    simp only [storeField, hs, Option.some.injEq, Prod.mk.injEq] at h
    obtain ⟨rfl, rfl⟩ := h
    simp
  all_goals
    simp only [storeField, Option.some.injEq, Prod.mk.injEq] at h
    obtain ⟨rfl, rfl⟩ := h
    simp

/-- The call `json.Unmarshal(data, &raw)` returns; the string fields hold the
value of the last member that selects them, the network performance of the
embedded struct is what it was, and an error is returned exactly when one
was saved before or a key selects the field `UnmarshalJSON`. -/
theorem decodeMembers_effect {F : Type} (ops : Float64Ops F)
    (caseTable foldTable : Char → Char) :
    ∀ (attrs : List (String × List Char)) (raw : Raw F) (saved : Option GoError),
      ∃ raw1 saved1, decodeMembers ops caseTable foldTable attrs raw saved =
          some (raw1, saved1) ∧
        raw1.ProductAttributes.NetworkPerformanceGbps =
          raw.ProductAttributes.NetworkPerformanceGbps ∧
        raw1.ProcessorFeatures =
          lastValue foldTable RawField.ProcessorFeatures attrs raw.ProcessorFeatures ∧
        raw1.ClockSpeed = lastValue foldTable RawField.ClockSpeed attrs raw.ClockSpeed ∧
        (saved1 = none ↔ saved = none ∧
          ∀ m ∈ attrs, fieldFor foldTable m.1 ≠ some RawField.UnmarshalJSON) := by
  intro attrs
  induction attrs with
  | nil =>
    intro raw saved
    exact ⟨raw, saved, rfl, rfl, rfl, rfl, by simp⟩
  | cons m rest ih =>
    intro raw saved
    obtain ⟨key, value⟩ := m
    cases hf : fieldFor foldTable key with
    | none =>
      obtain ⟨raw1, saved1, h1, h2, h3, h4, h5⟩ := ih raw saved
      refine ⟨raw1, saved1, ?_, h2, ?_, ?_, ?_⟩
      · rw [decodeMembers, hf]
        exact h1
      · rw [lastValue, hf, if_neg (by simp)]
        exact h3
      · rw [lastValue, hf, if_neg (by simp)]
        exact h4
      · rw [h5]
        simp [hf]
    | some field =>
      obtain ⟨⟨raw0, err⟩, hst⟩ := storeField_total ops caseTable raw value field
      obtain ⟨e1, e2, e3, e4⟩ := storeField_effect ops caseTable raw raw0 value field err hst
      cases saved with
      | some first =>
        obtain ⟨raw1, saved1, h1, h2, h3, h4, h5⟩ := ih raw0 (some first)
        refine ⟨raw1, saved1, ?_, ?_, ?_, ?_, ?_⟩
        · rw [decodeMembers, hf]
          simp only [hst]
          exact h1
        · rw [h2, e1]
        · rw [h3, e2, lastValue, hf]
          simp only [Option.some.injEq]
        · rw [h4, e3, lastValue, hf]
          simp only [Option.some.injEq]
        · rw [h5]
          simp
      | none =>
        obtain ⟨raw1, saved1, h1, h2, h3, h4, h5⟩ := ih raw0 err
        refine ⟨raw1, saved1, ?_, ?_, ?_, ?_, ?_⟩
        · rw [decodeMembers, hf]
          simp only [hst]
          exact h1
        · rw [h2, e1]
        · rw [h3, e2, lastValue, hf]
          simp only [Option.some.injEq]
        · rw [h4, e3, lastValue, hf]
          simp only [Option.some.injEq]
        · rw [h5, e4]
          simp only [List.mem_cons, forall_eq_or_imp, hf, ne_eq, Option.some.injEq, true_and]

/-- What `ProductAttributes.UnmarshalJSON` returns: a value when
`ParseClockSpeed` returns on the `clockSpeed` text and no key selects the
field `UnmarshalJSON`; the processor features of a returned value are the
split of their text, and its network performance is the zero value. -/
theorem ProductAttributes_decoded {F : Type} (ops : Float64Ops F)
    (caseTable foldTable : Char → Char) (attrs : List (String × List Char)) :
    (∀ speed, ParseClockSpeed ops caseTable
          (stringField foldTable attrs RawField.ClockSpeed) = some speed →
        (∀ m ∈ attrs, fieldFor foldTable m.1 ≠ some RawField.UnmarshalJSON) →
        ∃ a, ProductAttributes.UnmarshalJSON ops caseTable foldTable attrs = some (.ok a)) ∧
      (∀ a, ProductAttributes.UnmarshalJSON ops caseTable foldTable attrs = some (.ok a) →
        a.ProcessorFeatures =
          Split (stringField foldTable attrs RawField.ProcessorFeatures) [';', ' '] ∧
        a.NetworkPerformanceGbps = NetworkPerformance.zero ops) := by
  obtain ⟨raw, saved, hraw, hnp, hpf, hcs, herr⟩ :=
    decodeMembers_effect ops caseTable foldTable attrs (Raw.zero ops) none
  obtain ⟨m, hm⟩ := ParseMemoryMib_total ops caseTable raw.MemoryMib
  have hcs2 : raw.ClockSpeed = stringField foldTable attrs RawField.ClockSpeed := hcs
  have hpf2 : raw.ProcessorFeatures = stringField foldTable attrs RawField.ProcessorFeatures :=
    hpf
  have hnp2 : raw.ProductAttributes.NetworkPerformanceGbps = NetworkPerformance.zero ops := hnp
  constructor
  · intro speed hspeed hkeys
    have hs : saved = none := herr.2 ⟨rfl, hkeys⟩
    subst hs
    unfold ProductAttributes.UnmarshalJSON decodeRaw
    rw [hraw]
    simp only [hcs2, hspeed, hm]
    exact ⟨_, rfl⟩
  · intro a ha
    unfold ProductAttributes.UnmarshalJSON decodeRaw at ha
    rw [hraw] at ha
    cases saved with
    | some err => simp at ha
    | none =>
      simp only [] at ha
      cases hspeed : ParseClockSpeed ops caseTable raw.ClockSpeed with
      | none => rw [hspeed] at ha; exact Option.noConfusion ha
      | some speed =>
        rw [hspeed, hm] at ha
        simp only [Option.some.injEq, Except.ok.injEq] at ha
        subst ha
        exact ⟨by rw [← hpf2]; rfl, hnp2⟩

/-- C17 (what the code does): whatever the object holds under the key
`networkPerformance` (in any spelling), the `NetworkPerformanceGbps` field of
the decoded attributes is the zero value: the key is taken by the string
field `Raw.NetworkPerformance`, which the function never reads. -/
theorem ProductAttributes_networkPerformance_dropped {F : Type} (ops : Float64Ops F)
    (caseTable foldTable : Char → Char) (attrs : List (String × List Char))
    (a : ProductAttributes F)
    (h : ProductAttributes.UnmarshalJSON ops caseTable foldTable attrs = some (.ok a)) :
    a.NetworkPerformanceGbps = NetworkPerformance.zero ops :=
  ((ProductAttributes_decoded ops caseTable foldTable attrs).2 a h).2

/-- C17, on the attributes object with `networkPerformance` "High": the decoded
field is the zero value, while the normalizer gives the range [0.9, 2.2] for
"High". -/
theorem ProductAttributes_networkPerformance_dropped_witness :
    (∃ a, ProductAttributes.UnmarshalJSON ratOps id id
        [("networkPerformance", "High".toList)] = some (.ok a) ∧
      a.NetworkPerformanceGbps =
        { Unit := [], Min := 0, Max := 0, Description := [] }) ∧
      NetworkPerformance.UnmarshalJSON ratOps id (NetworkPerformance.zero ratOps)
          "High".toList =
        some { Unit := "Gbps".toList, Min := 900.0 / 1000.0, Max := 2200.0 / 1000.0,
               Description := "high".toList } := by
  obtain ⟨a, ha⟩ := (ProductAttributes_decoded ratOps id id
    [("networkPerformance", "High".toList)]).1 _ rfl (by decide)
  exact ⟨⟨a, ha, ProductAttributes_networkPerformance_dropped ratOps id id _ a ha⟩,
    (NetworkPerformance_tier_cases ratOps id _ "High".toList (by decide)).2.2.2.2 (by decide)⟩

/-- C20: `ProductAttributes.UnmarshalJSON` returns a value when `ParseClockSpeed`
returns on the `clockSpeed` text and no key of the object equals
"UnmarshalJSON" under the case folding of `encoding/json`; the processor
features of a returned value are the split on "; " of the raw field `s`: the
list is not empty, no element contains "; ", and joining the elements with
"; " gives `s` back; an empty field gives the list with the empty string as
its only element. The raw field `s` is the value of the last member of the
object whose key equals "processorFeatures" under case folding, and the empty
string when there is no such member. -/
theorem ProcessorFeatures_lossless {F : Type} (ops : Float64Ops F)
    (caseTable foldTable : Char → Char) (attrs : List (String × List Char)) :
    (∀ speed, ParseClockSpeed ops caseTable
          (stringField foldTable attrs RawField.ClockSpeed) = some speed →
        (∀ m ∈ attrs, foldName foldTable m.1 ≠ foldName foldTable "UnmarshalJSON") →
        ∃ a, ProductAttributes.UnmarshalJSON ops caseTable foldTable attrs = some (.ok a)) ∧
      (∀ a, ProductAttributes.UnmarshalJSON ops caseTable foldTable attrs = some (.ok a) →
        a.ProcessorFeatures =
          Split (stringField foldTable attrs RawField.ProcessorFeatures) "; ".toList ∧
        a.ProcessorFeatures ≠ [] ∧
        (∀ p ∈ a.ProcessorFeatures, ¬ "; ".toList <:+: p) ∧
        "; ".toList.intercalate a.ProcessorFeatures =
          stringField foldTable attrs RawField.ProcessorFeatures ∧
        (stringField foldTable attrs RawField.ProcessorFeatures = [] →
          a.ProcessorFeatures = [[]])) ∧
      ((∀ m ∈ attrs, foldName foldTable m.1 ≠ foldName foldTable "processorFeatures") →
        stringField foldTable attrs RawField.ProcessorFeatures = []) ∧
      (∀ pre key s post, attrs = pre ++ (key, s) :: post →
        foldName foldTable key = foldName foldTable "processorFeatures" →
        (∀ m ∈ post, foldName foldTable m.1 ≠ foldName foldTable "processorFeatures") →
        stringField foldTable attrs RawField.ProcessorFeatures = s) := by
  have hsel : ∀ (key : String) (f : RawField),
      foldName foldTable key ≠ foldName foldTable f.jsonName → fieldFor foldTable key ≠ some f :=
    fun key f h e => h ((fieldFor_iff foldTable key f).1 e)
  refine ⟨?_, ?_, ?_, ?_⟩
  · intro speed hspeed hkeys
    exact (ProductAttributes_decoded ops caseTable foldTable attrs).1 speed hspeed
      (fun m hm => hsel m.1 RawField.UnmarshalJSON (hkeys m hm))
  · intro a ha
    have hpf := ((ProductAttributes_decoded ops caseTable foldTable attrs).2 a ha).1
    have hsplit : Split (stringField foldTable attrs RawField.ProcessorFeatures) [';', ' '] =
        splitScan [';', ' '] (stringField foldTable attrs RawField.ProcessorFeatures) 0 [] := by
      simp [Split]
    rw [hsplit] at hpf
    have hsep : ("; ".toList : List Char) = [';', ' '] := rfl
    rw [hsep, hpf]
    refine ⟨hsplit.symm, splitScan_semi_ne_nil _ _ [] (le_refl _), ?_, ?_, ?_⟩
    · exact splitScan_semi_pieces _ _ [] (le_refl _) (by simp) (by simp)
    · rw [splitScan_semi_join _ _ [] (le_refl _)]
      simp
    · intro he
      rw [he]
      rfl
  · intro h
    exact lastValue_skip foldTable RawField.ProcessorFeatures attrs []
      (fun m hm => hsel m.1 RawField.ProcessorFeatures (h m hm))
  · intro pre key s post hattrs hkey hpost
    rw [hattrs]
    exact lastValue_last foldTable RawField.ProcessorFeatures key s post
      ((fieldFor_iff foldTable key RawField.ProcessorFeatures).2 hkey)
      (fun m hm => hsel m.1 RawField.ProcessorFeatures (hpost m hm)) pre []

/-- C20, on the field "Intel AVX; Intel AVX2; Intel Turbo", on an object
without the field, on the key spelled "ProcessorFeatures", and on an object
with the key twice (the later member is the one that counts). -/
theorem ProcessorFeatures_lossless_witness :
    (∃ a, ProductAttributes.UnmarshalJSON ratOps id id
        [("processorFeatures", "Intel AVX; Intel AVX2; Intel Turbo".toList)] = some (.ok a) ∧
      a.ProcessorFeatures =
        ["Intel AVX".toList, "Intel AVX2".toList, "Intel Turbo".toList]) ∧
    (∃ a, ProductAttributes.UnmarshalJSON ratOps id id [] = some (.ok a) ∧
      a.ProcessorFeatures = [[]]) ∧
    (∃ a, ProductAttributes.UnmarshalJSON ratOps id id
        [("ProcessorFeatures", "a; b".toList)] = some (.ok a) ∧
      a.ProcessorFeatures = ["a".toList, "b".toList]) ∧
    (∃ a, ProductAttributes.UnmarshalJSON ratOps id id
        [("processorFeatures", "x".toList), ("PROCESSORFEATURES", "a; b".toList)] =
          some (.ok a) ∧
      a.ProcessorFeatures = ["a".toList, "b".toList]) := by
  obtain ⟨a, ha⟩ := (ProcessorFeatures_lossless ratOps id id
    [("processorFeatures", "Intel AVX; Intel AVX2; Intel Turbo".toList)]).1 _ rfl (by decide)
  obtain ⟨b, hb⟩ := (ProcessorFeatures_lossless ratOps id id []).1 _ rfl (by decide)
  obtain ⟨c, hc⟩ := (ProcessorFeatures_lossless ratOps id id
    [("ProcessorFeatures", "a; b".toList)]).1 _ rfl (by decide)
  obtain ⟨d, hd⟩ := (ProcessorFeatures_lossless ratOps id id
    [("processorFeatures", "x".toList), ("PROCESSORFEATURES", "a; b".toList)]).1 _ rfl
    (by decide)
  refine ⟨⟨a, ha, ?_⟩, ⟨b, hb, ?_⟩, ⟨c, hc, ?_⟩, ⟨d, hd, ?_⟩⟩
  · rw [((ProcessorFeatures_lossless ratOps id id _).2.1 a ha).1]
    decide
  · exact ((ProcessorFeatures_lossless ratOps id id _).2.1 b hb).2.2.2.2 rfl
  · rw [((ProcessorFeatures_lossless ratOps id id _).2.1 c hc).1]
    decide
  · rw [((ProcessorFeatures_lossless ratOps id id _).2.1 d hd).1]
    decide

/-! ## Theorems: `storagePattern` on the forms with a unit -/

theorem plusExec_cons (cls : Char → Bool) (c : Char) (rest : List Char) (pos : Nat)
    (caps : Captures) (k : Nat → List Char → Captures → Option Captures) (hc : cls c = true) :
    plusExec cls pos (c :: rest) caps k =
      match plusExec cls (pos + 1) rest caps k with
      | some r => some r
      | none => k (pos + 1) rest caps := by
  simp only [plusExec, hc, if_true]

/-- The greedy match of `C+`: when the text starts with a non-empty run `a` of
the class, the run ends there, and what follows matches after the whole run,
that is the match. -/
theorem plusExec_greedy (cls : Char → Bool) (a : List Char) :
    ∀ (rest : List Char) (pos : Nat) (caps : Captures)
      (k : Nat → List Char → Captures → Option Captures) (r : Captures),
      a ≠ [] → (∀ c ∈ a, cls c = true) → (∀ c, rest.head? = some c → cls c = false) →
      k (pos + a.length) rest caps = some r →
      plusExec cls pos (a ++ rest) caps k = some r := by
  induction a with
  | nil => intro rest pos caps k r h; exact absurd rfl h
  | cons c a ih =>
    intro rest pos caps k r _ hall hrest hk
    have hc : cls c = true := hall c (List.mem_cons_self _ _)
    by_cases ha : a = []
    · subst ha
      have hnone : plusExec cls (pos + 1) rest caps k = none := by
        cases rest with
        | nil => rfl
        | cons d ds =>
          have hd : cls d = false := hrest d rfl
          simp [plusExec, hd]
      rw [List.cons_append, List.nil_append, plusExec_cons cls c rest pos caps k hc, hnone]
      simpa using hk
    · have hk2 : k (pos + 1 + a.length) rest caps = some r := by
        have e : pos + 1 + a.length = pos + (c :: a).length := by
          simp only [List.length_cons]; omega
        rw [e]; exact hk
      have hin := ih rest (pos + 1) caps k r ha
        (fun d hd => hall d (List.mem_cons_of_mem _ hd)) hrest hk2
      rw [List.cons_append, plusExec_cons cls c _ pos caps k hc, hin]

/-- The failure of `C+`: when what follows fails after every non-empty part of
the run of the class at the start of the text, there is no match. -/
theorem plusExec_none (cls : Char → Bool) (a : List Char) :
    ∀ (rest : List Char) (pos : Nat) (caps : Captures)
      (k : Nat → List Char → Captures → Option Captures),
      (∀ c ∈ a, cls c = true) → (∀ c, rest.head? = some c → cls c = false) →
      (∀ i, 1 ≤ i → i ≤ a.length → k (pos + i) (a.drop i ++ rest) caps = none) →
      plusExec cls pos (a ++ rest) caps k = none := by
  induction a with
  | nil =>
    intro rest pos caps k _ hrest _
    cases rest with
    | nil => rfl
    | cons d ds =>
      have hd : cls d = false := hrest d rfl
      simp [plusExec, hd]
  | cons c a ih =>
    intro rest pos caps k hall hrest hk
    have hc : cls c = true := hall c (List.mem_cons_self _ _)
    have hin := ih rest (pos + 1) caps k (fun d hd => hall d (List.mem_cons_of_mem _ hd)) hrest
      (by
        intro i h1 h2
        have := hk (i + 1) (by omega) (by simp only [List.length_cons]; omega)
        have e : pos + (i + 1) = pos + 1 + i := by omega
        rw [e] at this
        simpa using this)
    have h1 := hk 1 (le_refl 1) (by simp only [List.length_cons]; omega)
    simp only [List.drop_succ_cons, List.drop_zero] at h1
    rw [List.cons_append, plusExec_cons cls c _ pos caps k hc, hin]
    exact h1

theorem reSpace_cases (c : Char) (h : reSpace c = true) :
    c = '\t' ∨ c = '\n' ∨ c = Char.ofNat 0x0C ∨ c = '\r' ∨ c = ' ' := by
  simp only [reSpace, decide_eq_true_eq] at h
  rcases h with h | h | h | h | h
  · exact Or.inl h
  · exact Or.inr (Or.inl h)
  · refine Or.inr (Or.inr (Or.inl ?_))
    rw [← Char.ofNat_toNat c, h]
  · exact Or.inr (Or.inr (Or.inr (Or.inl h)))
  · exact Or.inr (Or.inr (Or.inr (Or.inr h)))

theorem reWord_not_space (c : Char) (h : reWord c = true) : reSpace c = false := by
  cases hs : reSpace c with
  | false => rfl
  | true =>
    rcases reSpace_cases c hs with rfl | rfl | rfl | rfl | rfl <;>
      exact absurd h (by decide)

theorem plusExec_greedy_end (cls : Char → Bool) (a : List Char) (pos : Nat) (caps : Captures)
    (k : Nat → List Char → Captures → Option Captures) (r : Captures)
    (h0 : a ≠ []) (hall : ∀ c ∈ a, cls c = true) (hk : k (pos + a.length) [] caps = some r) :
    plusExec cls pos a caps k = some r := by
  have h := plusExec_greedy cls a [] pos caps k r h0 hall (by simp) hk
  rwa [List.append_nil] at h

theorem take_all_of (a : List Char) (pos : Nat) : a.take (pos + a.length - pos) = a := by
  have e : pos + a.length - pos = a.length := by omega
  rw [e, List.take_length]

theorem take_of_append (a rest : List Char) (pos : Nat) :
    (a ++ rest).take (pos + a.length - pos) = a := by
  have e : pos + a.length - pos = a.length := by omega
  rw [e, List.take_left']
  rfl

/-- The part of `storagePattern` after the multiplier, on a text
"size unit type": size, unit and type are captured. -/
theorem storageTail_exec (size unit type : List Char) (pos : Nat) (caps r : Captures)
    (k : Nat → List Char → Captures → Option Captures)
    (hs0 : size ≠ []) (hs : ∀ c ∈ size, reDigit c = true)
    (hu0 : unit ≠ []) (hu : ∀ c ∈ unit, reWord c = true)
    (ht0 : type ≠ []) (hth : ∀ c, type.head? = some c → reSpace c = false)
    (ht : ∀ c ∈ type, reAny c = true)
    (hk : k (pos + size.length + 1 + unit.length + 1 + type.length) []
      ((4, type) :: (3, unit) :: (2, size) :: caps) = some r) :
    (Regex.seq (.group 2 (.plus reDigit)) (.seq (.plus reSpace)
      (.seq (.opt (.nocap (.seq (.group 3 (.plus reWord)) (.plus reSpace))))
        (.seq (.group 4 (.plus reAny)) .eol)))).exec pos
      (size ++ ' ' :: (unit ++ ' ' :: type)) caps k = some r := by
  simp only [Regex.exec]
  apply plusExec_greedy reDigit size _ pos caps _ r hs0 hs
  · intro c hc
    simp only [List.head?_cons, Option.some.injEq] at hc
    subst hc
    decide
  rw [take_of_append]
  have e1 : ' ' :: (unit ++ ' ' :: type) = [' '] ++ (unit ++ ' ' :: type) := rfl
  rw [e1]
  apply plusExec_greedy reSpace [' '] _ _ _ _ r (by simp) (by decide)
  · intro c hc
    cases unit with
    | nil => exact absurd rfl hu0
    | cons d ds =>
      simp only [List.cons_append, List.head?_cons, Option.some.injEq] at hc
      have hd := hu d (List.mem_cons_self _ _)
      rw [hc] at hd
      exact reWord_not_space c hd
  rw [plusExec_greedy reWord unit (' ' :: type) _ _ _ r hu0 hu ?_ ?_]
  · intro c hc
    simp only [List.head?_cons, Option.some.injEq] at hc
    subst hc
    decide
  rw [take_of_append]
  have e2 : ' ' :: type = [' '] ++ type := rfl
  rw [e2]
  apply plusExec_greedy reSpace [' '] _ _ _ _ r (by simp) (by decide) hth
  apply plusExec_greedy_end reAny type _ _ _ r ht0 ht
  rw [if_pos rfl, take_all_of]
  exact hk

theorem exec_seq (r s : Regex) (pos : Nat) (rest : List Char) (caps : Captures)
    (k : Nat → List Char → Captures → Option Captures) :
    (Regex.seq r s).exec pos rest caps k =
      r.exec pos rest caps (fun pos1 rest1 caps1 => s.exec pos1 rest1 caps1 k) := rfl

theorem exec_bol (rest : List Char) (caps : Captures)
    (k : Nat → List Char → Captures → Option Captures) :
    Regex.bol.exec 0 rest caps k = k 0 rest caps := rfl

theorem exec_opt_none (r : Regex) (pos : Nat) (rest : List Char) (caps : Captures)
    (k : Nat → List Char → Captures → Option Captures)
    (h : r.exec pos rest caps k = none) :
    (Regex.opt r).exec pos rest caps k = k pos rest caps := by
  simp only [Regex.exec, h]

theorem exec_opt_some (r : Regex) (pos : Nat) (rest : List Char) (caps res : Captures)
    (k : Nat → List Char → Captures → Option Captures)
    (h : r.exec pos rest caps k = some res) :
    (Regex.opt r).exec pos rest caps k = some res := by
  simp only [Regex.exec, h]

theorem reDigit_not_space (c : Char) (h : reDigit c = true) : c ≠ ' ' := by
  rintro rfl
  exact absurd h (by decide)

/-- The multiplier group of `storagePattern` does not match a text
"size u..." where `u` is not "x". -/
theorem storageMultiplier_none (size rest : List Char) (u : Char) (pos : Nat)
    (caps : Captures) (k : Nat → List Char → Captures → Option Captures)
    (hs : ∀ c ∈ size, reDigit c = true) (hu : u ≠ 'x') :
    (Regex.nocap (.seq (.group 1 (.plus reDigit))
      (.seq (.lit ' ') (.seq (.lit 'x') (.plus reSpace))))).exec pos
      (size ++ ' ' :: u :: rest) caps k = none := by
  simp only [Regex.exec]
  apply plusExec_none reDigit size _ pos caps _ hs
  · intro c hc
    simp only [List.head?_cons, Option.some.injEq] at hc
    subst hc
    decide
  · intro i _ _
    cases hd : size.drop i with
    | nil => simp [hu]
    | cons d ds =>
      have hmem : d ∈ size := List.mem_of_mem_drop (by rw [hd]; exact List.mem_cons_self _ _)
      have hne := reDigit_not_space d (hs d hmem)
      simp [hne]

/-- The multiplier group of `storagePattern` on a text "N x ...". -/
theorem storageMultiplier_some (N rest : List Char) (pos : Nat) (caps r : Captures)
    (k : Nat → List Char → Captures → Option Captures)
    (hN0 : N ≠ []) (hN : ∀ c ∈ N, reDigit c = true)
    (hrest : ∀ c, rest.head? = some c → reSpace c = false)
    (hk : k (pos + N.length + 3) rest ((1, N) :: caps) = some r) :
    (Regex.nocap (.seq (.group 1 (.plus reDigit))
      (.seq (.lit ' ') (.seq (.lit 'x') (.plus reSpace))))).exec pos
      (N ++ ' ' :: 'x' :: ' ' :: rest) caps k = some r := by
  simp only [Regex.exec]
  apply plusExec_greedy reDigit N _ pos caps _ r hN0 hN
  · intro c hc
    simp only [List.head?_cons, Option.some.injEq] at hc
    subst hc
    decide
  rw [take_of_append]
  simp only [if_true]
  have e1 : ' ' :: rest = [' '] ++ rest := rfl
  rw [e1]
  apply plusExec_greedy reSpace [' '] _ _ _ _ r (by simp) (by decide) hrest
  exact hk

/-- The submatches of `storagePattern` on a text "size unit type". -/
theorem storagePattern_unit_form (size unit type : List Char)
    (hs0 : size ≠ []) (hs : ∀ c ∈ size, reDigit c = true)
    (hu0 : unit ≠ []) (hu : ∀ c ∈ unit, reWord c = true) (hux : unit.head? ≠ some 'x')
    (ht0 : type ≠ []) (hth : ∀ c, type.head? = some c → reSpace c = false)
    (ht : ∀ c ∈ type, reAny c = true) :
    FindStringSubmatch storagePattern (size ++ ' ' :: (unit ++ ' ' :: type)) =
      some [size ++ ' ' :: (unit ++ ' ' :: type), [], size, unit, type] := by
  have hexec : storagePattern.exec 0 (size ++ ' ' :: (unit ++ ' ' :: type)) []
      (fun pos _ caps => some ((0, (size ++ ' ' :: (unit ++ ' ' :: type)).take pos) :: caps)) =
      some [(0, size ++ ' ' :: (unit ++ ' ' :: type)), (4, type), (3, unit), (2, size)] := by
    unfold storagePattern
    rw [exec_seq, exec_bol, exec_seq]
    cases unit with
    | nil => exact absurd rfl hu0
    | cons u us =>
      have hux2 : u ≠ 'x' := fun e => hux (by rw [e]; rfl)
      have hcons : (u :: us) ++ ' ' :: type = u :: (us ++ ' ' :: type) := rfl
      rw [hcons, exec_opt_none _ _ _ _ _
        (storageMultiplier_none size (us ++ ' ' :: type) u 0 [] _ hs hux2), ← hcons]
      apply storageTail_exec size (u :: us) type 0 [] _ _ hs0 hs hu0 hu ht0 hth ht
      have hlen : 0 + size.length + 1 + (u :: us).length + 1 + type.length =
          (size ++ ' ' :: ((u :: us) ++ ' ' :: type)).length := by
        simp only [List.length_append, List.length_cons]
        omega
      simp only [hlen, List.take_length]
  unfold FindStringSubmatch
  rw [hexec]
  have hr : List.range 5 = [0, 1, 2, 3, 4] := by decide
  simp [hr, List.lookup]

/-- The submatches of `storagePattern` on a text "N x size unit type". -/
theorem storagePattern_multiplier_form (N size unit type : List Char)
    (hN0 : N ≠ []) (hN : ∀ c ∈ N, reDigit c = true)
    (hs0 : size ≠ []) (hs : ∀ c ∈ size, reDigit c = true)
    (hu0 : unit ≠ []) (hu : ∀ c ∈ unit, reWord c = true)
    (ht0 : type ≠ []) (hth : ∀ c, type.head? = some c → reSpace c = false)
    (ht : ∀ c ∈ type, reAny c = true) :
    FindStringSubmatch storagePattern
        (N ++ ' ' :: 'x' :: ' ' :: (size ++ ' ' :: (unit ++ ' ' :: type))) =
      some [N ++ ' ' :: 'x' :: ' ' :: (size ++ ' ' :: (unit ++ ' ' :: type)), N, size, unit,
        type] := by
  have hexec : storagePattern.exec 0
      (N ++ ' ' :: 'x' :: ' ' :: (size ++ ' ' :: (unit ++ ' ' :: type))) []
      (fun pos _ caps => some ((0,
        (N ++ ' ' :: 'x' :: ' ' :: (size ++ ' ' :: (unit ++ ' ' :: type))).take pos) :: caps)) =
      some [(0, N ++ ' ' :: 'x' :: ' ' :: (size ++ ' ' :: (unit ++ ' ' :: type))), (4, type),
        (3, unit), (2, size), (1, N)] := by
    unfold storagePattern
    rw [exec_seq, exec_bol, exec_seq]
    apply exec_opt_some
    apply storageMultiplier_some N _ 0 [] _ _ hN0 hN
    · intro c hc
      cases size with
      | nil => exact absurd rfl hs0
      | cons d ds =>
        simp only [List.cons_append, List.head?_cons, Option.some.injEq] at hc
        have hd := hs d (List.mem_cons_self _ _)
        rw [hc] at hd
        cases hsp : reSpace c with
        | false => rfl
        | true =>
          rcases reSpace_cases c hsp with rfl | rfl | rfl | rfl | rfl <;>
            exact absurd hd (by decide)
    apply storageTail_exec size unit type _ _ _ _ hs0 hs hu0 hu ht0 hth ht
    have hlen : 0 + N.length + 3 + size.length + 1 + unit.length + 1 + type.length =
        (N ++ ' ' :: 'x' :: ' ' :: (size ++ ' ' :: (unit ++ ' ' :: type))).length := by
      simp only [List.length_append, List.length_cons]
      omega
    simp only [hlen, List.take_length]
  unfold FindStringSubmatch
  rw [hexec]
  have hr : List.range 5 = [0, 1, 2, 3, 4] := by decide
  simp [hr, List.lookup]

theorem isDigit_reDigit (c : Char) (h : c.isDigit = true) : reDigit c = true := by
  simp only [Char.isDigit, Bool.and_eq_true, decide_eq_true_eq] at h
  have h2 : 48 ≤ c.val.toNat := h.1
  have h3 : c.val.toNat ≤ 57 := h.2
  have h1 : c.toNat = c.val.toNat := rfl
  have h48 : '0'.toNat = 48 := rfl
  have h57 : '9'.toNat = 57 := rfl
  simp only [reDigit, decide_eq_true_eq, h1, h48, h57]
  exact ⟨h2, h3⟩

theorem digitsDenote_digits (s : List Char) (n : Nat) (h : digitsDenote s = some n) :
    s ≠ [] ∧ (∀ c ∈ s, c.isDigit = true) ∧ ∀ c ∈ s, reDigit c = true := by
  unfold digitsDenote at h
  by_cases hc : s ≠ [] ∧ s.all Char.isDigit = true
  · have hall := List.all_eq_true.mp hc.2
    exact ⟨hc.1, hall, fun c hm => isDigit_reDigit c (hall c hm)⟩
  · rw [if_neg hc] at h
    exact Option.noConfusion h

/-- The wrapper `ParseInt` on a string of digits whose value fits in 64 bits. -/
theorem ParseInt_of_digits (s : List Char) (n : Nat) (d : Int)
    (h : digitsDenote s = some n) (hn : n < 2 ^ 63) : ParseInt s d = (n : Int) := by
  obtain ⟨h0, hall, _⟩ := digitsDenote_digits s n h
  cases s with
  | nil => exact absurd rfl h0
  | cons c cs =>
    have hc := hall c (List.mem_cons_self _ _)
    have h1 : c ≠ '-' := by rintro rfl; exact absurd hc (by decide)
    have h2 : c ≠ '+' := by rintro rfl; exact absurd hc (by decide)
    unfold ParseInt
    rw [if_neg h0, strconvParseInt_unsigned c cs h1 h2, digitsValue_eq_digitsDenote, h]
    simp only [if_pos hn]

theorem wrapInt64_small (n : Nat) (h : n * 1000 < 2 ^ 63) :
    wrapInt64 ((n : Int) * 1000) = (n : Int) * 1000 := by
  have p : (2 : Int) ^ 63 = 9223372036854775808 := by norm_num
  have p2 : (2 : Int) ^ 64 = 18446744073709551616 := by norm_num
  have q : (2 : Nat) ^ 63 = 9223372036854775808 := by norm_num
  rw [q] at h
  unfold wrapInt64
  rw [p, p2]
  omega

/-- C12 (counterexample): a size of twenty digits is not a 64-bit integer, so
"99999999999999999999 GB SSD" gets the size 0; and the pattern does not match
a type with a line break, so "225 GB NVMe\nSSD" gets amount 0, size 0 and the
whole text as type. -/
theorem InstanceStorage_huge_size_counterexample :
    InstanceStorage.UnmarshalJSON id InstanceStorage.zero
        "99999999999999999999 GB SSD".toList =
      some { Amount := 1, SizeMB := 0, Type_ := "SSD".toList } ∧
    InstanceStorage.UnmarshalJSON id InstanceStorage.zero "225 GB NVMe\nSSD".toList =
      some { Amount := 0, SizeMB := 0, Type_ := "225 GB NVMe\nSSD".toList } := by
  decide

/-- C12 (amended): for a digit string `size` of value `n` with `n * 1000` below
2^63, a unit that is a casing of "GB", and a non-empty type text without a
line break that does not start with a white-space rune, "size unit type"
decodes to amount 1, size `n * 1000` and that type, and "N x size unit type"
to amount `m` for a digit string `N` of value `m` below 2^63; the empty string
leaves the target as it is and "EBS Only" gives amount 0, size 0 and the type
"EBS Only". -/
theorem InstanceStorage_gb (caseTable : Char → Char) (s : InstanceStorage)
    (size unit type : List Char) (n : Nat)
    (hsize : digitsDenote size = some n) (hfit : n * 1000 < 2 ^ 63)
    (hunit : unit ∈ gbCasings)
    (ht0 : type ≠ []) (hth : ∀ c, type.head? = some c → reSpace c = false)
    (hnl : '\n' ∉ type) :
    InstanceStorage.UnmarshalJSON caseTable s
        (size ++ " ".toList ++ unit ++ " ".toList ++ type) =
      some { Amount := 1, SizeMB := (n : Int) * 1000, Type_ := type } ∧
    (∀ (N : List Char) (m : Nat), digitsDenote N = some m → m < 2 ^ 63 →
      InstanceStorage.UnmarshalJSON caseTable s
          (N ++ " x ".toList ++ size ++ " ".toList ++ unit ++ " ".toList ++ type) =
        some { Amount := (m : Int), SizeMB := (n : Int) * 1000, Type_ := type }) ∧
    InstanceStorage.UnmarshalJSON caseTable s [] = some s ∧
    InstanceStorage.UnmarshalJSON caseTable s "EBS Only".toList =
      some { Amount := 0, SizeMB := 0, Type_ := "EBS Only".toList } := by
  obtain ⟨hs0, hsd, hs⟩ := digitsDenote_digits size n hsize
  have hn : n < 2 ^ 63 := by omega
  have hu0 : unit ≠ [] := by
    rintro rfl
    exact absurd hunit (by decide)
  have hu : ∀ c ∈ unit, reWord c = true := by
    simp only [gbCasings, List.mem_cons, List.mem_singleton, List.not_mem_nil, or_false]
      at hunit
    rcases hunit with rfl | rfl | rfl | rfl <;> decide
  have hux : unit.head? ≠ some 'x' := by
    simp only [gbCasings, List.mem_cons, List.mem_singleton, List.not_mem_nil, or_false]
      at hunit
    rcases hunit with rfl | rfl | rfl | rfl <;> decide
  have hlow : ToLower caseTable unit = ['g', 'b'] := by
    simp only [gbCasings, List.mem_cons, List.mem_singleton, List.not_mem_nil, or_false]
      at hunit
    rcases hunit with rfl | rfl | rfl | rfl <;> rfl
  have ht : ∀ c ∈ type, reAny c = true := by
    intro c hc
    have : c ≠ '\n' := fun e => hnl (e ▸ hc)
    simp [reAny, this]
  have hdigit_ne : ∀ (a rest : List Char), a ≠ [] → (∀ c ∈ a, c.isDigit = true) →
      a ++ rest ≠ [] ∧ a ++ rest ≠ "EBS Only".toList := by
    intro a rest ha hall
    cases a with
    | nil => exact absurd rfl ha
    | cons c cs =>
      have hc := hall c (List.mem_cons_self _ _)
      refine ⟨List.cons_ne_nil _ _, ?_⟩
      intro e
      have hE : c = 'E' := (List.cons.inj e).1
      rw [hE] at hc
      exact absurd hc (by decide)
  refine ⟨?_, ?_, ?_, ?_⟩
  · have e : size ++ " ".toList ++ unit ++ " ".toList ++ type =
        size ++ ' ' :: (unit ++ ' ' :: type) := by simp
    have hne := hdigit_ne size (' ' :: (unit ++ ' ' :: type)) hs0 hsd
    rw [e, InstanceStorage_of_match caseTable s _ _ [] size unit type hne.1 hne.2
      (storagePattern_unit_form size unit type hs0 hs hu0 hu hux ht0 hth ht),
      if_pos hlow, ParseInt_of_digits size n 0 hsize hn, wrapInt64_small n hfit]
    rfl
  · intro N m hN hm
    obtain ⟨hN0, hNd, hNr⟩ := digitsDenote_digits N m hN
    have e : N ++ " x ".toList ++ size ++ " ".toList ++ unit ++ " ".toList ++ type =
        N ++ ' ' :: 'x' :: ' ' :: (size ++ ' ' :: (unit ++ ' ' :: type)) := by simp
    have hne := hdigit_ne N (' ' :: 'x' :: ' ' :: (size ++ ' ' :: (unit ++ ' ' :: type)))
      hN0 hNd
    rw [e, InstanceStorage_of_match caseTable s _ _ N size unit type hne.1 hne.2
      (storagePattern_multiplier_form N size unit type hN0 hNr hs0 hs hu0 hu ht0 hth ht),
      if_pos hlow, ParseInt_of_digits size n 0 hsize hn, ParseInt_of_digits N m 1 hN hm,
      wrapInt64_small n hfit]
  · simp [InstanceStorage.UnmarshalJSON]
  · rfl

/-- C12 (amended), on "225 GB NVMe SSD" and "2 x 3800 GB NVMe SSD". -/
theorem InstanceStorage_gb_witness :
    InstanceStorage.UnmarshalJSON id InstanceStorage.zero "225 GB NVMe SSD".toList =
      some { Amount := 1, SizeMB := 225000, Type_ := "NVMe SSD".toList } ∧
    InstanceStorage.UnmarshalJSON id InstanceStorage.zero "2 x 3800 GB NVMe SSD".toList =
      some { Amount := 2, SizeMB := 3800000, Type_ := "NVMe SSD".toList } :=
  ⟨(InstanceStorage_gb id InstanceStorage.zero "225".toList "GB".toList "NVMe SSD".toList 225
      (by decide) (by norm_num) (by decide) (by decide) (by decide) (by decide)).1,
   (InstanceStorage_gb id InstanceStorage.zero "3800".toList "GB".toList "NVMe SSD".toList
      3800 (by decide) (by norm_num) (by decide) (by decide) (by decide) (by decide)).2.1
      "2".toList 2 (by decide) (by norm_num)⟩

/-! ## Theorems: `LoadPrices` -/

theorem index_zero {α : Type} (xs : List α) : index xs 0 = xs.head? := by
  cases xs <;> simp [index]

theorem PriceListing_single_page
    (ListPriceLists : Option String → Except GoError ListPriceListsOutput)
    (lists : List PriceList) (next : Option String)
    (hpage : ListPriceLists none = .ok { PriceLists := lists, NextToken := next })
    (hnext : next = none ∨ next = some "") :
    PriceListing ListPriceLists = (lists, none) := by
  unfold PriceListing paginate PaginationLimit
  rw [show (1000 : Nat) = 999 + 1 from rfl]
  unfold paginateLoop
  rcases hnext with rfl | rfl <;> simp [priceListingPage, hpage]

/-- C21 (what the code does): `LoadPrices` panics exactly when `PriceListing`
returns without error and its listing is empty or its first entry has no
locator; a pricing service that answers the first request with a page of no
price lists and no next token makes `PriceListing` return the empty listing
without error, and one that answers with a single entry without locator makes
it return that entry; in every other case `LoadPrices` returns the error of
`PriceListing`, or the error of `PriceListURL`, or what `FetchPrices` returns
on the resolved URL. -/
theorem LoadPrices_unchecked_listing {Body P : Type}
    (ListPriceLists : Option String → Except GoError ListPriceListsOutput)
    (GetPriceListFileUrl : String → Except GoError GetPriceListFileUrlOutput)
    (httpDo : String → Except GoError (Response Body))
    (LoadPricesData : Body → Except GoError P) :
    (LoadPrices ListPriceLists GetPriceListFileUrl httpDo LoadPricesData = none ↔
      ∃ listing, PriceListing ListPriceLists = (listing, none) ∧
        (listing = [] ∨ ∃ first rest, listing = first :: rest ∧ first.PriceListArn = none)) ∧
    (ListPriceLists none = .ok { PriceLists := [], NextToken := none } →
      PriceListing ListPriceLists = ([], none) ∧
      LoadPrices ListPriceLists GetPriceListFileUrl httpDo LoadPricesData = none) ∧
    (ListPriceLists none = .ok { PriceLists := [{ PriceListArn := none }], NextToken := none } →
      PriceListing ListPriceLists = ([{ PriceListArn := none }], none) ∧
      LoadPrices ListPriceLists GetPriceListFileUrl httpDo LoadPricesData = none) ∧
    (∀ listing err, PriceListing ListPriceLists = (listing, some err) →
      LoadPrices ListPriceLists GetPriceListFileUrl httpDo LoadPricesData =
        some (.error err)) ∧
    (∀ first rest arn, PriceListing ListPriceLists = (first :: rest, none) →
      first.PriceListArn = some arn →
      LoadPrices ListPriceLists GetPriceListFileUrl httpDo LoadPricesData =
        match PriceListURL GetPriceListFileUrl arn with
        | .error err => some (.error err)
        | .ok url => some (FetchPrices httpDo LoadPricesData url)) := by
  have hpanic : LoadPrices ListPriceLists GetPriceListFileUrl httpDo LoadPricesData = none ↔
      ∃ listing, PriceListing ListPriceLists = (listing, none) ∧
        (listing = [] ∨ ∃ first rest, listing = first :: rest ∧ first.PriceListArn = none) := by
    unfold LoadPrices
    rcases hl : PriceListing ListPriceLists with ⟨listing, err⟩
    cases err with
    | some err => simp
    | none =>
      cases listing with
      | nil => simp [index_zero]
      | cons first rest =>
        simp only [index_zero, List.head?_cons]
        cases harn : first.PriceListArn with
        | none => simp [harn]
        | some arn =>
          simp only [harn]
          cases PriceListURL GetPriceListFileUrl arn <;> simp [harn]
  refine ⟨hpanic, ?_, ?_, ?_, ?_⟩
  · intro h
    have hl := PriceListing_single_page ListPriceLists [] none h (Or.inl rfl)
    exact ⟨hl, hpanic.2 ⟨[], hl, Or.inl rfl⟩⟩
  · intro h
    have hl := PriceListing_single_page ListPriceLists [{ PriceListArn := none }] none h
      (Or.inl rfl)
    exact ⟨hl, hpanic.2 ⟨_, hl, Or.inr ⟨_, _, rfl, rfl⟩⟩⟩
  · intro listing err h
    simp [LoadPrices, h]
  · intro first rest arn h harn
    simp [LoadPrices, h, index_zero, harn]

/-- C21, on a pricing service without price lists and on one whose only price
list has no locator: `PriceListing` returns without error and `LoadPrices`
panics; with a located price list it returns the decoded body. -/
theorem LoadPrices_unchecked_listing_witness :
    (PriceListing noPriceLists = ([], none) ∧
      LoadPrices noPriceLists fixedUrl okClient echoDecoder = none) ∧
    (PriceListing unlocatedPriceList = ([{ PriceListArn := none }], none) ∧
      LoadPrices unlocatedPriceList fixedUrl okClient echoDecoder = none) ∧
    LoadPrices onePriceList fixedUrl okClient echoDecoder = some (.ok 7) :=
  ⟨(LoadPrices_unchecked_listing noPriceLists fixedUrl okClient echoDecoder).2.1 rfl,
   (LoadPrices_unchecked_listing unlocatedPriceList fixedUrl okClient echoDecoder).2.2.1 rfl,
   by
    rw [(LoadPrices_unchecked_listing onePriceList fixedUrl okClient echoDecoder).2.2.2.2
      { PriceListArn := some "arn:1" } [] "arn:1"
      (PriceListing_single_page onePriceList _ none rfl (Or.inl rfl)) rfl]
    rfl⟩

/-! ## Theorems: a magnitude beyond the range of `float64` -/

theorem hugeMagnitude_mem (c : Char) (hc : c ∈ hugeMagnitude) : c = '9' := by
  rw [hugeMagnitude, List.mem_replicate] at hc
  exact hc.2

theorem hugeMagnitude_ne_nil : hugeMagnitude ≠ [] := by
  intro h
  have := congrArg List.length h
  rw [hugeMagnitude, List.length_replicate] at this
  exact absurd this (by decide)

theorem hugeMagnitude_numeral : IsNumeral hugeMagnitude := by
  refine ⟨hugeMagnitude_ne_nil, fun c hc => ?_⟩
  rw [hugeMagnitude_mem c hc]
  exact Or.inl (by decide)

theorem foldl_nines (k : Nat) : ∀ n : Nat,
    (List.replicate k '9').foldl (fun n c => 10 * n + (c.toNat - 48)) n =
      10 ^ k * n + (10 ^ k - 1) := by
  induction k with
  | zero => intro n; simp
  | succ k ih =>
    intro n
    rw [List.replicate_succ, List.foldl_cons, ih]
    have h9 : '9'.toNat - 48 = 9 := rfl
    rw [h9]
    have hp : 1 ≤ 10 ^ k := Nat.one_le_pow _ _ (by norm_num)
    have e : 10 ^ (k + 1) = 10 * 10 ^ k := by ring
    rw [e]
    have : 10 ^ k * (10 * n + 9) = 10 * 10 ^ k * n + 9 * 10 ^ k := by ring
    omega

theorem digitsValue_hugeMagnitude : digitsValue hugeMagnitude = some (10 ^ 400 - 1) := by
  have hv : digitsValue hugeMagnitude =
      if hugeMagnitude.all Char.isDigit = true then
        some (hugeMagnitude.foldl (fun n c => 10 * n + (c.toNat - 48)) 0)
      else none := rfl
  have hall : hugeMagnitude.all Char.isDigit = true := by
    rw [List.all_eq_true]
    intro c hc
    rw [hugeMagnitude_mem c hc]
    rfl
  rw [hv, if_pos hall, hugeMagnitude, foldl_nines, Nat.mul_zero, Nat.zero_add]

theorem parseDecimal_of_digits (s : List Char) (n : Nat) (hs : ∀ c ∈ s, c.isDigit = true)
    (hn : digitsValue s = some n) : parseDecimal s = some (n : ℚ) := by
  have hhead : ∀ c, s.head? = some c → c.isDigit = true := by
    intro c hc
    exact hs c (List.mem_of_mem_head? hc)
  have h1 : ¬ s.head? = some '-' := fun h => absurd (hhead _ h) (by decide)
  have h2 : ¬ s.head? = some '+' := fun h => absurd (hhead _ h) (by decide)
  have htw : s.takeWhile (· ≠ '.') = s := by
    rw [List.takeWhile_eq_self_iff]
    intro c hc
    have := hs c hc
    simp only [ne_eq, decide_not, Bool.not_eq_true', decide_eq_false_iff_not]
    rintro rfl
    exact absurd this (by decide)
  have hdw : s.dropWhile (· ≠ '.') = [] := by
    rw [List.dropWhile_eq_nil_iff]
    intro c hc
    have := hs c hc
    simp only [ne_eq, decide_not, Bool.not_eq_true', decide_eq_false_iff_not]
    rintro rfl
    exact absurd this (by decide)
  unfold parseDecimal
  simp only [h1, h2, or_self, if_false, htw, hdw, List.drop_nil, List.append_nil, hn,
    List.all_nil, if_true, List.length_nil, pow_zero, div_one, decide_False, Bool.false_eq_true,
    one_mul]

theorem hugeMagnitude_value : parseDecimal hugeMagnitude = some (((10 ^ 400 - 1 : Nat) : ℚ)) :=
  parseDecimal_of_digits hugeMagnitude _
    (fun c hc => by rw [hugeMagnitude_mem c hc]; rfl) digitsValue_hugeMagnitude

theorem rangedOps_parseFloat (s : List Char) :
    rangedOps.parseFloat s = parseDecimalRanged s := rfl

theorem rangedOps_rejects : rangedOps.parseFloat hugeMagnitude = none := by
  have h : ¬ |(((10 ^ 400 - 1 : Nat) : ℚ))| < float64Limit := by
    rw [float64Limit, abs_of_nonneg (Nat.cast_nonneg _)]
    norm_num
  rw [rangedOps_parseFloat, parseDecimalRanged, hugeMagnitude_value]
  simp only [if_neg h]

/-- A magnitude that `strconv.ParseFloat` rejects makes `ParseClockSpeed` return
the default 0 as the maximum (and as the minimum). -/
theorem ParseClockSpeed_rejected {F : Type} (ops : Float64Ops F) (caseTable : Char → Char)
    (X u : List Char) (hX : IsNumeral X) (hx : ops.parseFloat X = none) (hu : ' ' ∉ u)
    (s : List Char) :
    (ToLower caseTable s = ['u', 'p', ' ', 't', 'o', ' '] ++ X ++ [' '] ++ u →
        ParseClockSpeed ops caseTable s =
          some { Unit := u, Min := ops.ofRat 0, Max := ops.ofRat 0 }) ∧
      (ToLower caseTable s = X ++ [' '] ++ u →
        ParseClockSpeed ops caseTable s =
          some { Unit := u, Min := ops.ofRat 0, Max := ops.ofRat 0 }) := by
  have hXs := numeral_nospace X hX
  have hX0 : X ≠ [] := hX.1
  have hup := numeral_ne_up X hX
  have hs0 : ∀ t : List Char, ToLower caseTable s = X ++ t ∨
      ToLower caseTable s = ['u', 'p', ' ', 't', 'o', ' '] ++ t → s ≠ [] := by
    rintro t h rfl
    rcases h with h | h
    · cases X with
      | nil => exact hX0 rfl
      | cons c cs => simp [ToLower] at h
    · simp [ToLower] at h
  constructor
  · intro e
    rw [ParseClockSpeed_of_parts ops caseTable s [['u', 'p'], ['t', 'o'], X, u]
      (hs0 (X ++ [' '] ++ u) (Or.inr (by rw [e]; simp)))
      (by rw [e]; exact Split_up_to X _ hXs hu)]
    simp [index, ParseFloat, hX0, hx]
  · intro e
    rw [ParseClockSpeed_of_parts ops caseTable s [X, u]
      (hs0 ([' '] ++ u) (Or.inl (by rw [e]; simp)))
      (by rw [e]; exact Split_plain X _ hXs hu)]
    simp [index, ParseFloat, hX0, hx, hup]

theorem ToLower_hugeMagnitude (rest : List Char) :
    ToLower id (hugeMagnitude ++ rest) = hugeMagnitude ++ ToLower id rest := by
  rw [ToLower_append, ToLower_numeral id hugeMagnitude hugeMagnitude_numeral]

/-- C10 (the claim fails): the magnitude of 400 digits 9 is a decimal numeral,
of value 10^400 - 1; `strconv.ParseFloat` rejects it as out of range, and
"99...9 GHz" and "Up to 99...9 GHz" both give the range [0, 0], whose maximum
is not X. -/
theorem ParseClockSpeed_out_of_range_counterexample :
    IsNumeral hugeMagnitude ∧
    parseDecimal hugeMagnitude = some (((10 ^ 400 - 1 : Nat) : ℚ)) ∧
    ParseClockSpeed rangedOps id (hugeMagnitude ++ " GHz".toList) =
      some { Unit := "ghz".toList, Min := 0, Max := 0 } ∧
    ParseClockSpeed rangedOps id ("Up to ".toList ++ hugeMagnitude ++ " GHz".toList) =
      some { Unit := "ghz".toList, Min := 0, Max := 0 } := by
  refine ⟨hugeMagnitude_numeral, hugeMagnitude_value, ?_, ?_⟩
  · have e : ToLower id (hugeMagnitude ++ " GHz".toList) =
        hugeMagnitude ++ [' '] ++ "ghz".toList := by
      rw [ToLower_hugeMagnitude, List.append_assoc]
      rfl
    exact (ParseClockSpeed_rejected rangedOps id hugeMagnitude "ghz".toList
      hugeMagnitude_numeral rangedOps_rejects (by decide) _).2 e
  · have e : ToLower id ("Up to ".toList ++ hugeMagnitude ++ " GHz".toList) =
        ['u', 'p', ' ', 't', 'o', ' '] ++ hugeMagnitude ++ [' '] ++ "ghz".toList := by
      rw [List.append_assoc, ToLower_append, ToLower_hugeMagnitude, ← List.append_assoc,
        List.append_assoc _ [' ']]
      rfl
    exact (ParseClockSpeed_rejected rangedOps id hugeMagnitude "ghz".toList
      hugeMagnitude_numeral rangedOps_rejects (by decide) _).1 e

end Aws
